import Mathlib

/-!
# Control loops of the rpicam applications

A shallow embedding of the interactive control loops of

* `src/apps/rpicam_vid.cpp`   (video record app, namespace `Vid`),
* `src/apps/rpicam_hello.cpp` (preview app, namespace `Hello`),
* `src/apps/rpicam_jpeg.cpp`  (still capture app, namespace `Jpeg`).

Conventions of the embedding.

* The values of `float` variables are rationals. `lens_position += af_step` and
  `lens_position -= af_step` are `float` operations: the exact sum rounded to binary32
  (section "Binary floating point"). The zoom variables of the video loop (`scale`,
  `offset_x`, `offset_y`) are embedded twice. In namespace `Vid` their arithmetic is
  exact, with `0.05` as `1/20` and `0.95` as `19/20`: this is the arithmetic in which
  the clamping invariant is stated, and it serves every statement about which calls an
  iteration makes. In namespace `Vid.Binary32` the same statements are rounded as
  compiled; statements about the values passed to `SetScalerCrop` are made there. The
  two embeddings resolve the same commands, reach the same outcome and perform the same
  actions up to the zoom values (`Vid.Binary32.b32_event_loop_agrees`).
* `int key` and the characters of lines are integers (`Int`), so that both signed and
  unsigned `char` targets are covered; character constants are written `ch 'x'`.
* `unsigned int count` is a natural number below `2^32`; `count++` wraps.
* Calls on the camera application object, on the output object, `jpeg_save` and the
  lines written to `std::cout` are recorded, in program order, in an action trace.
  Diagnostic logging (`LOG`, `LOG_ERROR`) is not recorded.
* One loop iteration is a function from the values read in that iteration (the message
  returned by `app.Wait()`, the line returned by `signal_server.read()`, what `poll` and
  `getline` find on standard input (nothing, a line, or a failed read), the elapsed time
  `now - start_time`) and the loop variables to a trace, the command resolved (if any)
  and an outcome.
-/

namespace RpiCam

/-! ## Shared vocabulary -/

/-- Code of a character constant, as the `int` it converts to. -/
def ch (c : Char) : Int := Int.ofNat c.toNat

/-- Linux `<signal.h>` value of `SIGINT`. -/
def SIGINT : Int := 2
/-- Linux `<signal.h>` value of `SIGUSR1`. -/
def SIGUSR1 : Int := 10
/-- Linux `<signal.h>` value of `SIGUSR2`. -/
def SIGUSR2 : Int := 12
/-- Linux `<signal.h>` value of `SIGPIPE`. -/
def SIGPIPE : Int := 13

/-- Value of `libcamera::controls::AfModeManual`. -/
def AfModeManual : Int := 0

/-- First character of a C string or `std::string`: `s[0]`, which is the terminating
NUL when the string is empty. -/
def first_char (s : List Int) : Int := s.headD 0

/-- The test `isalpha(key)` in the "C" locale. -/
def isalpha (key : Int) : Bool :=
  (decide (ch 'A' ≤ key) && decide (key ≤ ch 'Z')) ||
  (decide (ch 'a' ≤ key) && decide (key ≤ ch 'z'))

/-- The test `key == 'x' || key == 'X'`. -/
def is_quit (key : Int) : Bool := decide (key = ch 'x') || decide (key = ch 'X')

/-- The test `key == 'a' || key == 'A' || key == 'd' || key == 'D'`. -/
def is_focus_key (key : Int) : Bool :=
  decide (key = ch 'a') || decide (key = ch 'A') || decide (key = ch 'd') ||
  decide (key = ch 'D')

/-- The fallback `if (!key) key = param[0];`. -/
def fallback (key : Int) (param : List Int) : Int :=
  if key = 0 then first_char param else key

/-- Type of a message returned by `app.Wait()`; `Other` stands for every value of the
enumeration that the loops do not name. -/
inductive MsgType where
  | RequestComplete
  | Timeout
  | Quit
  | Other (code : Nat)
deriving DecidableEq

/-- Message returned by `app.Wait()`; `payload` identifies the completed request. -/
structure Msg where
  type : MsgType
  payload : Nat
deriving DecidableEq

/-- Observable actions of the loops. -/
inductive Action where
  | StopCamera
  | StartCamera
  | StopEncoder
  | Teardown
  | ConfigureStill
  | OutputSignal
  | SetControlsAfTrigger
  | SetControlsLens (lens_position : ℚ)
  | SetScalerCrop (x y w h : ℚ)
  | EncodeBuffer (frame : Nat)
  | ShowPreview (frame : Nat)
  | JpegSave (frame : Nat)
  | PrintAfTrigger
  | PrintScale (scale offset_x : ℚ)
  | PrintTargetLens (lens_position : ℚ)
  | PrintGuidance
deriving DecidableEq

/-- How an iteration (or a run) leaves the loop: still looping, returned, or thrown. -/
inductive Outcome (σ : Type) where
  | running (s : σ)
  | terminated (s : σ)
  | raised (s : σ)

/-- Loop variables carried by an outcome. -/
def Outcome.state {σ : Type} : Outcome σ → σ
  | .running s => s
  | .terminated s => s
  | .raised s => s

/-- Whether the loop is still looping. -/
def Outcome.is_running {σ : Type} : Outcome σ → Bool
  | .running _ => true
  | _ => false

/-- Whether the loop returned normally. -/
def Outcome.is_terminated {σ : Type} : Outcome σ → Bool
  | .terminated _ => true
  | _ => false

/-- Result of an iteration or of a run: the actions performed, the commands resolved
(the values of `key` at the `switch`), and the outcome. -/
structure Step (σ : Type) where
  trace : List Action
  keys : List Int
  next : Outcome σ

/-- What `poll` and `getline` find on standard input in one call of
`get_key_or_signal`. -/
inductive Keypress where
  /-- Nothing pending: `poll` does not report `POLLIN` and nothing is read. -/
  | idle
  /-- A line is pending: `getline` reads it into `user_string`. -/
  | line (user_string : List Int)
  /-- End of input: `poll` reports `POLLIN` but `getline` fails. The result of `getline`
  is not tested, so `user_string[0]` is read from a buffer that `getline` did not fill;
  `first` is the value that read yields, which the source does not determine. -/
  | failed (first : Int)
deriving DecidableEq

/-- Values read during one iteration. -/
structure CycleInput where
  msg : Msg
  param : List Int
  stdin_line : Keypress
  elapsed : Int

/-- An iteration together with the signal, if any, whose handler ran while the loop was
waiting for the message. -/
abbrev Event := Option Int × CycleInput

/-- Frames passed to `EncodeBuffer`, in order. -/
def encoded : List Action → List Nat
  | [] => []
  | .EncodeBuffer f :: rest => f :: encoded rest
  | _ :: rest => encoded rest

/-- Frames passed to `ShowPreview`, in order. -/
def previewed : List Action → List Nat
  | [] => []
  | .ShowPreview f :: rest => f :: previewed rest
  | _ :: rest => previewed rest

/-- Frames passed to `jpeg_save`, in order. -/
def saved : List Action → List Nat
  | [] => []
  | .JpegSave f :: rest => f :: saved rest
  | _ :: rest => saved rest

/-- The `count++` of `for (unsigned int count = 0; ; count++)`. -/
def incr_count (count : Nat) : Nat := (count + 1) % 2 ^ 32

/-! ## Binary floating point

The values of `float` and `double` expressions are rationals; an operation whose result
has type `float` or `double` is the exact operation followed by rounding to the nearest
value of that type, ties to even (IEEE 754 binary32 and binary64, each operation
evaluated in its own type). The exponent range is bounded below (gradual underflow) and
not above: overflow to infinity is not part of the embedding. -/

/-- Round to the nearest integer, ties to the even one. -/
def round_even (x : ℚ) : Int :=
  if x - ⌊x⌋ < 1 / 2 then ⌊x⌋
  else if 1 / 2 < x - ⌊x⌋ then ⌊x⌋ + 1
  else if ⌊x⌋ % 2 = 0 then ⌊x⌋ else ⌊x⌋ + 1

/-- Exponent of the unit in the last place at `q` in the binary format with `p`
significant bits and least normal exponent `emin`. -/
def quantum_exp (p : Nat) (emin : Int) (q : ℚ) : Int :=
  max (Int.log 2 |q|) emin - (p - 1)

/-- Value of the binary format with `p` significant bits nearest to `q`, ties to even. -/
def round_binary (p : Nat) (emin : Int) (q : ℚ) : ℚ :=
  round_even (q / 2 ^ quantum_exp p emin q) * 2 ^ quantum_exp p emin q

/-- Rounding to `float` (binary32). -/
def f32 (q : ℚ) : ℚ := round_binary 24 (-126) q

/-- Rounding to `double` (binary64). -/
def f64 (q : ℚ) : ℚ := round_binary 53 (-1022) q

/-! ## Video record app: `src/apps/rpicam_vid.cpp` -/

namespace Vid

/-- Fields of `VideoOptions` read by the loop. `frames` is an `unsigned int`;
`timeout` is `timeout.value` in clock ticks, and `options->timeout` converts to `true`
exactly when it is not zero. -/
structure VideoOptions where
  keypress : Bool
  signal : Bool
  afMode_index : Int
  frames : Nat
  timeout : Int

/-- Loop variables of `event_loop`, together with the static `signal_received`. -/
structure State where
  scale : ℚ
  offset_x : ℚ
  offset_y : ℚ
  lens_position : ℚ
  count : Nat
  signal_received : Int

/-- Values of the variables when the `for` statement is entered. -/
def init : State :=
  { scale := 0, offset_x := 0, offset_y := 0, lens_position := 0, count := 0,
    signal_received := 0 }

/-- The constant local `af_step`. -/
def af_step : ℚ := 1

/-- The handler `default_signal_handler`: `signal_received = signal_number`. -/
def default_signal_handler (signal_number : Int) (st : State) : State :=
  { st with signal_received := signal_number }

/-- Delivery of a signal, if any, before an iteration: the handler runs. -/
def deliver (signal : Option Int) (st : State) : State :=
  match signal with
  | some signal_number => default_signal_handler signal_number st
  | none => st

/-- The function `get_key_or_signal` (lines 29-54): returns `key` and the value of
`signal_received` on return. `stdin_line` is what `poll` and `getline` find on standard
input. -/
def get_key_or_signal (options : VideoOptions) (signal_received : Int)
    (stdin_line : Keypress) : Int × Int :=
  if signal_received = SIGINT then (ch 'x', signal_received)
  else
    let key0 : Int :=
      if options.keypress then
        match stdin_line with
        | .line user_string => first_char user_string
        | .failed first => first
        | .idle => 0
      else 0
    if options.signal then
      let key1 : Int :=
        if signal_received = SIGUSR1 then ch '\n'
        else if signal_received = SIGUSR2 ∨ signal_received = SIGPIPE then ch 'x'
        else key0
      (key1, 0)
    else (key0, signal_received)

/-- The `switch (key)` statement (lines 119-193): new variables and actions. The zoom
arithmetic is exact here; `Vid.Binary32.apply_key` rounds it. -/
def apply_key (key : Int) (st : State) : State × List Action :=
  if key = ch 'w' ∨ key = ch 'W' then ({ st with scale := st.scale + 1 / 20 }, [])
  else if key = ch 'f' ∨ key = ch 'F' then
    (st, [Action.SetControlsAfTrigger, Action.PrintAfTrigger])
  else if key = ch 'd' ∨ key = ch 'D' then
    ({ st with lens_position := f32 (st.lens_position - af_step) }, [])
  else if key = ch 'a' ∨ key = ch 'A' then
    ({ st with lens_position := f32 (st.lens_position + af_step) }, [])
  else if key = ch 's' ∨ key = ch 'S' then ({ st with scale := st.scale - 1 / 20 }, [])
  else if key = ch 'l' ∨ key = ch 'L' then
    ({ st with offset_x := st.offset_x + 1 / 20 }, [])
  else if key = ch 'j' ∨ key = ch 'J' then
    ({ st with offset_x := st.offset_x - 1 / 20 }, [])
  else if key = ch 'i' ∨ key = ch 'I' then
    ({ st with offset_y := st.offset_y - 1 / 20 }, [])
  else if key = ch 'k' ∨ key = ch 'K' then
    ({ st with offset_y := st.offset_y + 1 / 20 }, [])
  else if key = ch 'm' ∨ key = ch 'M' then ({ st with scale := 19 / 20 }, [])
  else if key = ch 'r' ∨ key = ch 'R' then ({ st with scale := 0 }, [])
  else (st, [])

/-- Clamping of `scale` (lines 194-197). -/
def clamp_scale (scale : ℚ) : ℚ :=
  if scale > 19 / 20 then 19 / 20 else if scale < 0 then 0 else scale

/-- Clamping of an offset against `scale` (lines 199-202 and 204-207). -/
def clamp_offset (scale offset : ℚ) : ℚ :=
  if offset > scale / 2 then scale / 2
  else if offset < -(scale / 2) then -(scale / 2) else offset

/-- The three clamping statements (lines 194-207), in order. -/
def clamp (st : State) : State :=
  let scale := clamp_scale st.scale
  { st with scale := scale, offset_x := clamp_offset scale st.offset_x,
            offset_y := clamp_offset scale st.offset_y }

/-- The `if (isalpha(key))` statement (lines 209-214), with the arguments computed
exactly; `Vid.Binary32.crop_actions` rounds them. -/
def crop_actions (key : Int) (st : State) : List Action :=
  if isalpha key then
    [Action.PrintScale st.scale st.offset_x,
     Action.SetScalerCrop (st.scale / 2 + st.offset_x) (st.scale / 2 + st.offset_y)
       (1 - st.scale) (1 - st.scale)]
  else []

/-- The manual focus statement (lines 216-226). -/
def focus_actions (options : VideoOptions) (key : Int) (st : State) : List Action :=
  if is_focus_key key then
    if options.afMode_index = AfModeManual then
      [Action.SetControlsLens st.lens_position, Action.PrintTargetLens st.lens_position]
    else [Action.PrintGuidance]
  else []

/-- The local `timeout` (lines 230-231). -/
def timeout (options : VideoOptions) (elapsed : Int) : Bool :=
  decide (options.frames = 0) && decide (options.timeout ≠ 0) &&
    decide (elapsed > options.timeout)

/-- The local `frameout` (line 232). -/
def frameout (options : VideoOptions) (count : Nat) : Bool :=
  decide (options.frames ≠ 0) && decide (count ≥ options.frames)

/-- The condition of the `if` at line 233. -/
def should_stop (options : VideoOptions) (count : Nat) (elapsed : Int) (key : Int) :
    Bool :=
  timeout options elapsed || frameout options count || is_quit key

/-- What lines 114-226 leave behind: the resolved `key`, the variables after the
`switch` and the clamping, and the actions performed. -/
structure Applied where
  key : Int
  st : State
  trace : List Action

/-- Lines 114-226 of `event_loop`: resolve the command, signal the output on ENTER,
apply the `switch`, clamp, and emit the crop and manual focus controls. -/
def apply_command (options : VideoOptions) (inp : CycleInput) (st : State) : Applied :=
  let r := get_key_or_signal options st.signal_received inp.stdin_line
  let st1 : State := { st with signal_received := r.2 }
  let t1 : List Action := if r.1 = ch '\n' then [Action.OutputSignal] else []
  let key := fallback r.1 inp.param
  let a := apply_key key st1
  let st2 := clamp a.1
  let t2 := crop_actions key st2
  let t3 := focus_actions options key st2
  { key := key, st := st2, trace := t1 ++ a.2 ++ t2 ++ t3 }

/-- One iteration of the `for` statement of `event_loop` (lines 99-246). -/
def cycle (options : VideoOptions) (inp : CycleInput) (st : State) : Step State :=
  match inp.msg.type with
  | .Timeout =>
    { trace := [Action.StopCamera, Action.StartCamera], keys := [],
      next := .running { st with count := incr_count st.count } }
  | .Quit => { trace := [], keys := [], next := .terminated st }
  | .Other _ => { trace := [], keys := [], next := .raised st }
  | .RequestComplete =>
    let c := apply_command options inp st
    if should_stop options c.st.count inp.elapsed c.key then
      { trace := c.trace ++ [Action.StopCamera, Action.StopEncoder],
        keys := [c.key], next := .terminated c.st }
    else
      { trace := c.trace ++
          [Action.EncodeBuffer inp.msg.payload, Action.ShowPreview inp.msg.payload],
        keys := [c.key], next := .running { c.st with count := incr_count c.st.count } }

/-- The `for` statement of `event_loop` run on a finite sequence of events: it stops at
the first iteration that returns or throws, and is still looping when the events are
used up. -/
def event_loop (options : VideoOptions) : List Event → State → Step State
  | [], st => { trace := [], keys := [], next := .running st }
  | e :: rest, st =>
    let r := cycle options e.2 (deliver e.1 st)
    match r.next with
    | .running st1 =>
      let r1 := event_loop options rest st1
      { trace := r.trace ++ r1.trace, keys := r.keys ++ r1.keys, next := r1.next }
    | o => { trace := r.trace, keys := r.keys, next := o }

/-- The zoom state after a sequence of resolved commands: each iteration applies the
`switch` and then the clamping statements. -/
def zoom_after (keys : List Int) (st : State) : State :=
  keys.foldl (fun s key => clamp (apply_key key s).1) st

/-- The clamping invariant on the zoom variables. -/
def ClampInv (st : State) : Prop :=
  0 ≤ st.scale ∧ st.scale ≤ 19 / 20 ∧
  -(st.scale / 2) ≤ st.offset_x ∧ st.offset_x ≤ st.scale / 2 ∧
  -(st.scale / 2) ≤ st.offset_y ∧ st.offset_y ≤ st.scale / 2

end Vid

/-! ## Preview app: `src/apps/rpicam_hello.cpp` -/

namespace Hello

/-- Fields of `HelloOptions` (`src/core/hello_options.hpp`) and of its base `Options`
read by the loop; `timeout` is `timeout.value` in clock ticks, and `options->timeout`
converts to `true` exactly when it is not zero. -/
structure HelloOptions where
  keypress : Bool
  signal : Bool
  afMode_index : Int
  timeout : Int

/-- Loop variables of `event_loop`, together with the static `signal_received`. -/
structure State where
  lens_position : ℚ
  count : Nat
  signal_received : Int

/-- Values of the variables when the `for` statement is entered. -/
def init : State := { lens_position := 0, count := 0, signal_received := 0 }

/-- The constant local `af_step`. -/
def af_step : ℚ := 1

/-- The handler `default_signal_handler`: `signal_received = signal_number`. -/
def default_signal_handler (signal_number : Int) (st : State) : State :=
  { st with signal_received := signal_number }

/-- Delivery of a signal, if any, before an iteration: the handler runs. -/
def deliver (signal : Option Int) (st : State) : State :=
  match signal with
  | some signal_number => default_signal_handler signal_number st
  | none => st

/-- The function `get_key_or_signal` (lines 42-65): returns `key` and the value of
`signal_received` on return. -/
def get_key_or_signal (options : HelloOptions) (signal_received : Int)
    (stdin_line : Keypress) : Int × Int :=
  let key0 : Int :=
    if options.keypress then
      match stdin_line with
      | .line user_string => first_char user_string
      | .failed first => first
      | .idle => 0
    else 0
  if options.signal then
    let key1 : Int :=
      if signal_received = SIGUSR1 then ch '\n'
      else if signal_received = SIGUSR2 then ch 'x'
      else key0
    (key1, 0)
  else (key0, signal_received)

/-- The cases of `switch (key)` other than `'x'`, `'X'` (lines 114-136). -/
def apply_key (key : Int) (st : State) : State × List Action :=
  if key = ch 'f' ∨ key = ch 'F' then (st, [Action.SetControlsAfTrigger])
  else if key = ch 'd' ∨ key = ch 'D' then
    ({ st with lens_position := f32 (st.lens_position - af_step) }, [])
  else if key = ch 'a' ∨ key = ch 'A' then
    ({ st with lens_position := f32 (st.lens_position + af_step) }, [])
  else (st, [])

/-- The manual focus statement (lines 138-148). -/
def focus_actions (options : HelloOptions) (key : Int) (st : State) : List Action :=
  if is_focus_key key then
    if options.afMode_index = AfModeManual then
      [Action.SetControlsLens st.lens_position, Action.PrintTargetLens st.lens_position]
    else [Action.PrintGuidance]
  else []

/-- One iteration of the `for` statement of `event_loop` (lines 90-157). -/
def cycle (options : HelloOptions) (inp : CycleInput) (st : State) : Step State :=
  match inp.msg.type with
  | .Timeout =>
    { trace := [Action.StopCamera, Action.StartCamera], keys := [],
      next := .running { st with count := incr_count st.count } }
  | .Quit => { trace := [], keys := [], next := .terminated st }
  | .Other _ => { trace := [], keys := [], next := .raised st }
  | .RequestComplete =>
    let r := get_key_or_signal options st.signal_received inp.stdin_line
    let st1 : State := { st with signal_received := r.2 }
    let key := fallback r.1 inp.param
    if key = ch 'x' ∨ key = ch 'X' then
      { trace := [], keys := [key], next := .terminated st1 }
    else
      let a := apply_key key st1
      let t2 := focus_actions options key a.1
      if options.timeout ≠ 0 ∧ inp.elapsed > options.timeout then
        { trace := a.2 ++ t2, keys := [key], next := .terminated a.1 }
      else
        { trace := a.2 ++ t2 ++ [Action.ShowPreview inp.msg.payload], keys := [key],
          next := .running { a.1 with count := incr_count a.1.count } }

/-- The `for` statement of `event_loop` run on a finite sequence of events. -/
def event_loop (options : HelloOptions) : List Event → State → Step State
  | [], st => { trace := [], keys := [], next := .running st }
  | e :: rest, st =>
    let r := cycle options e.2 (deliver e.1 st)
    match r.next with
    | .running st1 =>
      let r1 := event_loop options rest st1
      { trace := r.trace ++ r1.trace, keys := r.keys ++ r1.keys, next := r1.next }
    | o => { trace := r.trace, keys := r.keys, next := o }

end Hello

/-! ## Still capture app: `src/apps/rpicam_jpeg.cpp` -/

namespace Jpeg

/-- Fields of `StillOptions` and of its base `Options` read by the loop. -/
structure StillOptions where
  keypress : Bool
  signal : Bool
  afMode_index : Int
  timeout : Int

/-- Which stream the application object has configured: `Viewfinder` while
`app.ViewfinderStream()` is not null (after `ConfigureViewfinder`), `StillCapture` while
it is null and `app.StillStream()` is not (after `Teardown` and `ConfigureStill`). -/
inductive CaptureMode where
  | Viewfinder
  | StillCapture
deriving DecidableEq

/-- Loop variables of `event_loop`, the static `signal_received`, and the configured
stream. -/
structure State where
  lens_position : ℚ
  signal_received : Int
  mode : CaptureMode

/-- Values of the variables when the `for` statement is entered. -/
def init : State :=
  { lens_position := 0, signal_received := 0, mode := CaptureMode.Viewfinder }

/-- The constant local `af_step`. -/
def af_step : ℚ := 1

/-- The handler `default_signal_handler`: `signal_received = signal_number`. -/
def default_signal_handler (signal_number : Int) (st : State) : State :=
  { st with signal_received := signal_number }

/-- Delivery of a signal, if any, before an iteration: the handler runs. -/
def deliver (signal : Option Int) (st : State) : State :=
  match signal with
  | some signal_number => default_signal_handler signal_number st
  | none => st

/-- The function `get_key_or_signal` (lines 29-52): returns `key` and the value of
`signal_received` on return. -/
def get_key_or_signal (options : StillOptions) (signal_received : Int)
    (stdin_line : Keypress) : Int × Int :=
  let key0 : Int :=
    if options.keypress then
      match stdin_line with
      | .line user_string => first_char user_string
      | .failed first => first
      | .idle => 0
    else 0
  if options.signal then
    let key1 : Int :=
      if signal_received = SIGUSR1 then ch '\n'
      else if signal_received = SIGUSR2 then ch 'x'
      else key0
    (key1, 0)
  else (key0, signal_received)

/-- The cases of `switch (key)` other than `'x'`, `'X'` (lines 113-135). -/
def apply_key (key : Int) (st : State) : State × List Action :=
  if key = ch 'f' ∨ key = ch 'F' then (st, [Action.SetControlsAfTrigger])
  else if key = ch 'd' ∨ key = ch 'D' then
    ({ st with lens_position := f32 (st.lens_position - af_step) }, [])
  else if key = ch 'a' ∨ key = ch 'A' then
    ({ st with lens_position := f32 (st.lens_position + af_step) }, [])
  else (st, [])

/-- The manual focus statement (lines 137-147). -/
def focus_actions (options : StillOptions) (key : Int) (st : State) : List Action :=
  if is_focus_key key then
    if options.afMode_index = AfModeManual then
      [Action.SetControlsLens st.lens_position, Action.PrintTargetLens st.lens_position]
    else [Action.PrintGuidance]
  else []

/-- One iteration of the `for` statement of `event_loop` (lines 89-181). -/
def cycle (options : StillOptions) (inp : CycleInput) (st : State) : Step State :=
  match inp.msg.type with
  | .Timeout =>
    { trace := [Action.StopCamera, Action.StartCamera], keys := [], next := .running st }
  | .Quit => { trace := [], keys := [], next := .terminated st }
  | .Other _ => { trace := [], keys := [], next := .raised st }
  | .RequestComplete =>
    let r := get_key_or_signal options st.signal_received inp.stdin_line
    let st1 : State := { st with signal_received := r.2 }
    let key := fallback r.1 inp.param
    if key = ch 'x' ∨ key = ch 'X' then
      { trace := [], keys := [key], next := .terminated st1 }
    else
      let a := apply_key key st1
      let t2 := focus_actions options key a.1
      match a.1.mode with
      | .Viewfinder =>
        if options.timeout ≠ 0 ∧ inp.elapsed > options.timeout then
          { trace := a.2 ++ t2 ++ [Action.StopCamera, Action.Teardown,
              Action.ConfigureStill, Action.StartCamera],
            keys := [key], next := .running { a.1 with mode := .StillCapture } }
        else
          { trace := a.2 ++ t2 ++ [Action.ShowPreview inp.msg.payload], keys := [key],
            next := .running a.1 }
      | .StillCapture =>
        { trace := a.2 ++ t2 ++ [Action.StopCamera, Action.JpegSave inp.msg.payload],
          keys := [key], next := .terminated a.1 }

/-- The `for` statement of `event_loop` run on a finite sequence of events. -/
def event_loop (options : StillOptions) : List Event → State → Step State
  | [], st => { trace := [], keys := [], next := .running st }
  | e :: rest, st =>
    let r := cycle options e.2 (deliver e.1 st)
    match r.next with
    | .running st1 =>
      let r1 := event_loop options rest st1
      { trace := r.trace ++ r1.trace, keys := r.keys ++ r1.keys, next := r1.next }
    | o => { trace := r.trace, keys := r.keys, next := o }

end Jpeg

namespace Vid

/-- Options with no source enabled, automatic focus and no bound. -/
def options_plain : VideoOptions :=
  { keypress := false, signal := false, afMode_index := 1, frames := 0, timeout := 0 }

/-- A `RequestComplete` iteration whose network line is `"w"`. -/
def input_zoom_in : CycleInput :=
  { msg := { type := .RequestComplete, payload := 7 }, param := [ch 'w'],
    stdin_line := .idle, elapsed := 5 }

end Vid

/-! ## Command resolution as first hit over an ordered list of sources -/

/-- First-hit resolution: the command of the first source of the list that has one,
none (`0`) when no source has one. -/
def first_hit : List (Option Int) → Int
  | [] => 0
  | some key :: _ => key
  | none :: rest => first_hit rest

/-- Interrupt source of the video app: quit when the pending signal is `SIGINT`. -/
def source_interrupt (signal_received : Int) : Option Int :=
  if signal_received = SIGINT then some (ch 'x') else none

/-- Signal source of the video app: when enabled, confirm for `SIGUSR1` and quit for
`SIGUSR2` or `SIGPIPE`. -/
def source_signals_vid (signal : Bool) (signal_received : Int) : Option Int :=
  if signal then
    if signal_received = SIGUSR1 then some (ch '\n')
    else if signal_received = SIGUSR2 ∨ signal_received = SIGPIPE then some (ch 'x')
    else none
  else none

/-- Signal source of the preview and still apps: when enabled, confirm for `SIGUSR1`
and quit for `SIGUSR2`. -/
def source_signals (signal : Bool) (signal_received : Int) : Option Int :=
  if signal then
    if signal_received = SIGUSR1 then some (ch '\n')
    else if signal_received = SIGUSR2 then some (ch 'x')
    else none
  else none

/-- Keypress source: the first character of the keypress line if the source is enabled
and a line is pending. -/
def source_keypress (keypress : Bool) (stdin_line : Keypress) : Option Int :=
  if keypress then
    match stdin_line with
    | .line user_string => some (first_char user_string)
    | _ => none
  else none

/-- Keypress source that holds a command only when the first character of the pending
line is not NUL. -/
def source_keypress_nonzero (keypress : Bool) (stdin_line : Keypress) :
    Option Int :=
  if keypress then
    match stdin_line with
    | .line user_string =>
      if first_char user_string = 0 then none else some (first_char user_string)
    | _ => none
  else none

/-- Network source: the first character of the latest network line, if it has one. -/
def source_network (param : List Int) : Option Int := param.head?

namespace Vid

/-- Options with a frame-count bound of one frame and nothing else. -/
def options_one_frame : VideoOptions :=
  { keypress := false, signal := false, afMode_index := 1, frames := 1, timeout := 0 }

/-- A `RequestComplete` event with no signal and no command from any source. -/
def frame_event (payload : Nat) (elapsed : Int) : Event :=
  (none, { msg := { type := .RequestComplete, payload := payload }, param := [],
           stdin_line := .idle, elapsed := elapsed })

end Vid

/-- A `RequestComplete` iteration with no command from the keyboard and the given
network line. -/
def frame_input (payload : Nat) (param : List Int) (elapsed : Int) : CycleInput :=
  { msg := { type := .RequestComplete, payload := payload }, param := param,
    stdin_line := .idle, elapsed := elapsed }

namespace Hello

/-- Options with no source enabled, automatic focus and no bound. -/
def options_plain : HelloOptions :=
  { keypress := false, signal := false, afMode_index := 1, timeout := 0 }

end Hello

namespace Jpeg

/-- Options with no source enabled, automatic focus and no delay. -/
def options_plain : StillOptions :=
  { keypress := false, signal := false, afMode_index := 1, timeout := 0 }

end Jpeg

/-- Both actions occur exactly once in the trace, `first` before `second`. -/
def once_in_order (first second : Action) (trace : List Action) : Prop :=
  trace.count first = 1 ∧ trace.count second = 1 ∧
    trace.indexOf first < trace.indexOf second

/-- A `Timeout` iteration. -/
def timeout_input : CycleInput :=
  { msg := { type := .Timeout, payload := 0 }, param := [], stdin_line := .idle,
    elapsed := 0 }

/-- The trace of `n` restarts: `StopCamera`, `StartCamera`, `n` times. -/
def restarts : Nat → List Action
  | 0 => []
  | n + 1 => Action.StopCamera :: Action.StartCamera :: restarts n

/-- Video options with the keypress and signal sources enabled. -/
def Vid.options_signal : Vid.VideoOptions :=
  { keypress := true, signal := true, afMode_index := 1, frames := 0, timeout := 0 }

/-- Preview options with the keypress and signal sources enabled. -/
def Hello.options_signal : Hello.HelloOptions :=
  { keypress := true, signal := true, afMode_index := 1, timeout := 0 }

/-- Still capture options with the keypress and signal sources enabled. -/
def Jpeg.options_signal : Jpeg.StillOptions :=
  { keypress := true, signal := true, afMode_index := 1, timeout := 0 }

/-! ## Projections of the action trace -/

/-- Calls of `SetControls`, in order. -/
def set_controls : List Action → List Action
  | [] => []
  | .SetControlsAfTrigger :: rest => .SetControlsAfTrigger :: set_controls rest
  | .SetControlsLens lens_position :: rest =>
    .SetControlsLens lens_position :: set_controls rest
  | _ :: rest => set_controls rest

/-- Arguments `(x, y, w, h)` of the calls of `SetScalerCrop`, in order. -/
def crops : List Action → List (ℚ × ℚ × ℚ × ℚ)
  | [] => []
  | .SetScalerCrop x y w h :: rest => (x, y, w, h) :: crops rest
  | _ :: rest => crops rest

/-- Number of times the guidance message
`Please switch the focus mode to manual focus mode.` is written. -/
def guidance_count : List Action → Nat
  | [] => 0
  | .PrintGuidance :: rest => guidance_count rest + 1
  | _ :: rest => guidance_count rest

/-- Options of the video app with manual focus configured. -/
def Vid.options_manual : Vid.VideoOptions :=
  { keypress := false, signal := false, afMode_index := AfModeManual, frames := 0,
    timeout := 0 }

namespace Hello

/-- What lines 105-148 leave behind when the command is not quit: the resolved `key`,
the variables after the `switch`, and the actions performed. -/
structure Applied where
  key : Int
  st : State
  trace : List Action

/-- Lines 105-148 of `event_loop` for a command other than quit: resolve the command,
apply the `switch` and emit the manual focus control. -/
def apply_command (options : HelloOptions) (inp : CycleInput) (st : State) : Applied :=
  let r := get_key_or_signal options st.signal_received inp.stdin_line
  let st1 : State := { st with signal_received := r.2 }
  let key := fallback r.1 inp.param
  let a := apply_key key st1
  { key := key, st := a.1, trace := a.2 ++ focus_actions options key a.1 }

/-- Preview options with manual focus configured. -/
def options_manual : HelloOptions :=
  { keypress := false, signal := false, afMode_index := AfModeManual, timeout := 0 }

end Hello

namespace Jpeg

/-- What lines 104-147 leave behind when the command is not quit: the resolved `key`,
the variables after the `switch`, and the actions performed. -/
structure Applied where
  key : Int
  st : State
  trace : List Action

/-- Lines 104-147 of `event_loop` for a command other than quit: resolve the command,
apply the `switch` and emit the manual focus control. -/
def apply_command (options : StillOptions) (inp : CycleInput) (st : State) : Applied :=
  let r := get_key_or_signal options st.signal_received inp.stdin_line
  let st1 : State := { st with signal_received := r.2 }
  let key := fallback r.1 inp.param
  let a := apply_key key st1
  { key := key, st := a.1, trace := a.2 ++ focus_actions options key a.1 }

/-- Still capture options with manual focus configured. -/
def options_manual : StillOptions :=
  { keypress := false, signal := false, afMode_index := AfModeManual, timeout := 0 }

end Jpeg

/-- Variables of the video loop at maximum zoom, offsets at their upper bounds. -/
def Vid.state_max_zoom : Vid.State :=
  { scale := 19 / 20, offset_x := 19 / 40, offset_y := 19 / 40, lens_position := 0,
    count := 0, signal_received := 0 }

/-- The test for the zoom-reset command: `'r'` or `'R'`. -/
def is_reset_key (key : Int) : Bool := decide (key = ch 'r') || decide (key = ch 'R')

/-- The test for the pan commands: `'j'`, `'l'`, `'i'`, `'k'` in either case. -/
def is_pan_key (key : Int) : Bool :=
  decide (key = ch 'j') || decide (key = ch 'J') || decide (key = ch 'l') ||
  decide (key = ch 'L') || decide (key = ch 'i') || decide (key = ch 'I') ||
  decide (key = ch 'k') || decide (key = ch 'K')

/-- The zoom variables of the full field of view: `scale`, `offset_x`, `offset_y` all
zero. -/
def Vid.Unzoomed (st : Vid.State) : Prop :=
  st.scale = 0 ∧ st.offset_x = 0 ∧ st.offset_y = 0

/-- Calls that stop, start, tear down or configure the pipeline, in order. -/
def pipeline_calls : List Action → List Action
  | [] => []
  | .StopCamera :: rest => .StopCamera :: pipeline_calls rest
  | .StartCamera :: rest => .StartCamera :: pipeline_calls rest
  | .StopEncoder :: rest => .StopEncoder :: pipeline_calls rest
  | .Teardown :: rest => .Teardown :: pipeline_calls rest
  | .ConfigureStill :: rest => .ConfigureStill :: pipeline_calls rest
  | _ :: rest => pipeline_calls rest

namespace Jpeg

/-- Modes of the still capture loop as explicit state: the two configured streams, and
`Terminated` once `event_loop` has returned. -/
inductive Mode where
  | Viewfinder
  | StillCapture
  | Terminated
deriving DecidableEq

/-- Mode of the loop while it is looping with the given variables. -/
def mode_of_state (st : State) : Mode :=
  match st.mode with
  | .Viewfinder => .Viewfinder
  | .StillCapture => .StillCapture

/-- The sequence of modes of a run: the mode in which each event is received, then the
mode the run is left in (`Terminated` after a return, nothing after a throw). -/
def modes (options : StillOptions) : List Event → State → List Mode
  | [], st => [mode_of_state st]
  | e :: rest, st =>
    mode_of_state st ::
      match (cycle options e.2 (deliver e.1 st)).next with
      | .running st1 => modes options rest st1
      | .terminated _ => [Mode.Terminated]
      | .raised _ => []

/-- Variables of the still capture loop after the switch to still capture. -/
def state_still : State :=
  { lens_position := 0, signal_received := 0, mode := CaptureMode.StillCapture }

/-- Still capture options with a delay of 2000 ticks before the capture. -/
def options_delay : StillOptions :=
  { keypress := false, signal := false, afMode_index := 1, timeout := 2000 }

end Jpeg

/-- Whether the loop was left by a throw. -/
def Outcome.is_raised {σ : Type} : Outcome σ → Bool
  | .raised _ => true
  | _ => false

/-- The same ASCII letter in the other case; other codes are left alone. -/
def swap_case (c : Int) : Int :=
  if ch 'A' ≤ c ∧ c ≤ ch 'Z' then c + 32
  else if ch 'a' ≤ c ∧ c ≤ ch 'z' then c - 32
  else c

/-- An iteration of the video loop in which the command resolved at line 118 is taken to
be `key`: lines 99-246 with `key` in place of the value computed by lines 114-118. -/
def Vid.cycle_with_key (options : Vid.VideoOptions) (inp : CycleInput) (st : Vid.State)
    (key : Int) : Step Vid.State :=
  match inp.msg.type with
  | .Timeout =>
    { trace := [Action.StopCamera, Action.StartCamera], keys := [],
      next := .running { st with count := incr_count st.count } }
  | .Quit => { trace := [], keys := [], next := .terminated st }
  | .Other _ => { trace := [], keys := [], next := .raised st }
  | .RequestComplete =>
    let r := Vid.get_key_or_signal options st.signal_received inp.stdin_line
    let st1 : Vid.State := { st with signal_received := r.2 }
    let t1 : List Action := if r.1 = ch '\n' then [Action.OutputSignal] else []
    let a := Vid.apply_key key st1
    let st2 := Vid.clamp a.1
    let t2 := Vid.crop_actions key st2
    let t3 := Vid.focus_actions options key st2
    if Vid.should_stop options st2.count inp.elapsed key then
      { trace := t1 ++ a.2 ++ t2 ++ t3 ++ [Action.StopCamera, Action.StopEncoder],
        keys := [key], next := .terminated st2 }
    else
      { trace := t1 ++ a.2 ++ t2 ++ t3 ++
          [Action.EncodeBuffer inp.msg.payload, Action.ShowPreview inp.msg.payload],
        keys := [key], next := .running { st2 with count := incr_count st2.count } }

/-- An iteration of the preview loop in which the command resolved at line 108 is taken
to be `key`. -/
def Hello.cycle_with_key (options : Hello.HelloOptions) (inp : CycleInput)
    (st : Hello.State) (key : Int) : Step Hello.State :=
  match inp.msg.type with
  | .Timeout =>
    { trace := [Action.StopCamera, Action.StartCamera], keys := [],
      next := .running { st with count := incr_count st.count } }
  | .Quit => { trace := [], keys := [], next := .terminated st }
  | .Other _ => { trace := [], keys := [], next := .raised st }
  | .RequestComplete =>
    let r := Hello.get_key_or_signal options st.signal_received inp.stdin_line
    let st1 : Hello.State := { st with signal_received := r.2 }
    if key = ch 'x' ∨ key = ch 'X' then
      { trace := [], keys := [key], next := .terminated st1 }
    else
      let a := Hello.apply_key key st1
      let t2 := Hello.focus_actions options key a.1
      if options.timeout ≠ 0 ∧ inp.elapsed > options.timeout then
        { trace := a.2 ++ t2, keys := [key], next := .terminated a.1 }
      else
        { trace := a.2 ++ t2 ++ [Action.ShowPreview inp.msg.payload], keys := [key],
          next := .running { a.1 with count := incr_count a.1.count } }

/-- An iteration of the still capture loop in which the command resolved at line 107 is
taken to be `key`. -/
def Jpeg.cycle_with_key (options : Jpeg.StillOptions) (inp : CycleInput)
    (st : Jpeg.State) (key : Int) : Step Jpeg.State :=
  match inp.msg.type with
  | .Timeout =>
    { trace := [Action.StopCamera, Action.StartCamera], keys := [], next := .running st }
  | .Quit => { trace := [], keys := [], next := .terminated st }
  | .Other _ => { trace := [], keys := [], next := .raised st }
  | .RequestComplete =>
    let r := Jpeg.get_key_or_signal options st.signal_received inp.stdin_line
    let st1 : Jpeg.State := { st with signal_received := r.2 }
    if key = ch 'x' ∨ key = ch 'X' then
      { trace := [], keys := [key], next := .terminated st1 }
    else
      let a := Jpeg.apply_key key st1
      let t2 := Jpeg.focus_actions options key a.1
      match a.1.mode with
      | .Viewfinder =>
        if options.timeout ≠ 0 ∧ inp.elapsed > options.timeout then
          { trace := a.2 ++ t2 ++ [Action.StopCamera, Action.Teardown,
              Action.ConfigureStill, Action.StartCamera],
            keys := [key], next := .running { a.1 with mode := .StillCapture } }
        else
          { trace := a.2 ++ t2 ++ [Action.ShowPreview inp.msg.payload], keys := [key],
            next := .running a.1 }
      | .StillCapture =>
        { trace := a.2 ++ t2 ++ [Action.StopCamera, Action.JpegSave inp.msg.payload],
          keys := [key], next := .terminated a.1 }

/-- Preview options with a wall-clock bound of 2000 ticks. -/
def Hello.options_timeout : Hello.HelloOptions :=
  { keypress := false, signal := false, afMode_index := 1, timeout := 2000 }

/-- Variables of the video loop with `lens_position` at `2 ^ 24`. -/
def Vid.state_lens_limit : Vid.State :=
  { Vid.init with lens_position := 16777216, count := 16777216 }

/-! ## Video record app, zoom arithmetic in `float`

The definitions of `Vid` above take the arithmetic on `scale`, `offset_x` and `offset_y`
over exact rationals, the arithmetic in which the clamping invariant is stated. The
definitions below repeat lines 119-214 with every operation on these variables rounded
as compiled: `0.05` and `0.95` are `double` literals, `scale += 0.05` adds in `double`
and converts the sum to `float`, `scale > 0.95` compares in `double`, and `scale / 2`,
`scale / 2 + offset_x` and `1 - scale` are `float` operations. -/

namespace Vid.Binary32

/-- The `double` literal `0.05`. -/
def literal_005 : ℚ := f64 (1 / 20)

/-- The `double` literal `0.95`. -/
def literal_095 : ℚ := f64 (19 / 20)

/-- The `switch (key)` statement (lines 119-193): new variables and actions. -/
def apply_key (key : Int) (st : State) : State × List Action :=
  if key = ch 'w' ∨ key = ch 'W' then
    ({ st with scale := f32 (f64 (st.scale + literal_005)) }, [])
  else if key = ch 'f' ∨ key = ch 'F' then
    (st, [Action.SetControlsAfTrigger, Action.PrintAfTrigger])
  else if key = ch 'd' ∨ key = ch 'D' then
    ({ st with lens_position := f32 (st.lens_position - af_step) }, [])
  else if key = ch 'a' ∨ key = ch 'A' then
    ({ st with lens_position := f32 (st.lens_position + af_step) }, [])
  else if key = ch 's' ∨ key = ch 'S' then
    ({ st with scale := f32 (f64 (st.scale - literal_005)) }, [])
  else if key = ch 'l' ∨ key = ch 'L' then
    ({ st with offset_x := f32 (f64 (st.offset_x + literal_005)) }, [])
  else if key = ch 'j' ∨ key = ch 'J' then
    ({ st with offset_x := f32 (f64 (st.offset_x - literal_005)) }, [])
  else if key = ch 'i' ∨ key = ch 'I' then
    ({ st with offset_y := f32 (f64 (st.offset_y - literal_005)) }, [])
  else if key = ch 'k' ∨ key = ch 'K' then
    ({ st with offset_y := f32 (f64 (st.offset_y + literal_005)) }, [])
  else if key = ch 'm' ∨ key = ch 'M' then ({ st with scale := f32 literal_095 }, [])
  else if key = ch 'r' ∨ key = ch 'R' then ({ st with scale := 0 }, [])
  else (st, [])

/-- Clamping of `scale` (lines 194-197). -/
def clamp_scale (scale : ℚ) : ℚ :=
  if scale > literal_095 then f32 literal_095 else if scale < 0 then 0 else scale

/-- Clamping of an offset against `scale` (lines 199-202 and 204-207). -/
def clamp_offset (scale offset : ℚ) : ℚ :=
  if offset > f32 (scale / 2) then f32 (scale / 2)
  else if offset < -(f32 (scale / 2)) then -(f32 (scale / 2)) else offset

/-- The three clamping statements (lines 194-207), in order. -/
def clamp (st : State) : State :=
  let scale := clamp_scale st.scale
  { st with scale := scale, offset_x := clamp_offset scale st.offset_x,
            offset_y := clamp_offset scale st.offset_y }

/-- The `if (isalpha(key))` statement (lines 209-214). -/
def crop_actions (key : Int) (st : State) : List Action :=
  if isalpha key then
    [Action.PrintScale st.scale st.offset_x,
     Action.SetScalerCrop (f32 (f32 (st.scale / 2) + st.offset_x))
       (f32 (f32 (st.scale / 2) + st.offset_y)) (f32 (1 - st.scale)) (f32 (1 - st.scale))]
  else []

/-- Lines 114-226 of `event_loop`: resolve the command, signal the output on ENTER,
apply the `switch`, clamp, and emit the crop and manual focus controls. -/
def apply_command (options : VideoOptions) (inp : CycleInput) (st : State) : Applied :=
  let r := get_key_or_signal options st.signal_received inp.stdin_line
  let st1 : State := { st with signal_received := r.2 }
  let t1 : List Action := if r.1 = ch '\n' then [Action.OutputSignal] else []
  let key := fallback r.1 inp.param
  let a := apply_key key st1
  let st2 := clamp a.1
  let t2 := crop_actions key st2
  let t3 := focus_actions options key st2
  { key := key, st := st2, trace := t1 ++ a.2 ++ t2 ++ t3 }

/-- One iteration of the `for` statement of `event_loop` (lines 99-246). -/
def cycle (options : VideoOptions) (inp : CycleInput) (st : State) : Step State :=
  match inp.msg.type with
  | .Timeout =>
    { trace := [Action.StopCamera, Action.StartCamera], keys := [],
      next := .running { st with count := incr_count st.count } }
  | .Quit => { trace := [], keys := [], next := .terminated st }
  | .Other _ => { trace := [], keys := [], next := .raised st }
  | .RequestComplete =>
    let c := apply_command options inp st
    if should_stop options c.st.count inp.elapsed c.key then
      { trace := c.trace ++ [Action.StopCamera, Action.StopEncoder],
        keys := [c.key], next := .terminated c.st }
    else
      { trace := c.trace ++
          [Action.EncodeBuffer inp.msg.payload, Action.ShowPreview inp.msg.payload],
        keys := [c.key], next := .running { c.st with count := incr_count c.st.count } }

/-- The `for` statement of `event_loop` run on a finite sequence of events. -/
def event_loop (options : VideoOptions) : List Event → State → Step State
  | [], st => { trace := [], keys := [], next := .running st }
  | e :: rest, st =>
    let r := cycle options e.2 (deliver e.1 st)
    match r.next with
    | .running st1 =>
      let r1 := event_loop options rest st1
      { trace := r.trace ++ r1.trace, keys := r.keys ++ r1.keys, next := r1.next }
    | o => { trace := r.trace, keys := r.keys, next := o }

/-- The clamping invariant as the `float` statements establish it. -/
def ClampInv (st : State) : Prop :=
  0 ≤ st.scale ∧ st.scale ≤ literal_095 ∧
  -(f32 (st.scale / 2)) ≤ st.offset_x ∧ st.offset_x ≤ f32 (st.scale / 2) ∧
  -(f32 (st.scale / 2)) ≤ st.offset_y ∧ st.offset_y ≤ f32 (st.scale / 2)

end Vid.Binary32

/-- Variables of the video loop after a zoom-in (network line `"w"`) from the initial
ones. -/
def Vid.Binary32.state_zoomed_in : Vid.State :=
  (Vid.Binary32.cycle Vid.options_plain (frame_input 7 [ch 'w'] 0) Vid.init).next.state

namespace Jpeg

/-- Still capture options with a delay of 2000 ticks and manual focus configured. -/
def options_delay_manual : StillOptions :=
  { keypress := false, signal := false, afMode_index := AfModeManual, timeout := 2000 }

/-- Variables of the still capture loop after the switch to still capture in an
iteration that also moved the lens by one step. -/
def state_still_near : State :=
  { lens_position := 1, signal_received := 0, mode := .StillCapture }

end Jpeg

/-- An action with the zoom values blanked: the arguments of `SetScalerCrop` and of the
`scale:` message are replaced by zeros, every other action is kept as it is. -/
def erase_zoom : Action → Action
  | .SetScalerCrop _ _ _ _ => .SetScalerCrop 0 0 0 0
  | .PrintScale _ _ => .PrintScale 0 0
  | a => a

/-- Two sets of variables of the video loop that differ at most in the zoom variables
`scale`, `offset_x` and `offset_y`. -/
def Vid.SameButZoom (s1 s2 : Vid.State) : Prop :=
  s1.lens_position = s2.lens_position ∧ s1.count = s2.count ∧
  s1.signal_received = s2.signal_received

/-! ## Properties of binary rounding -/

theorem round_even_intCast (n : Int) : round_even (n : ℚ) = n := by
  simp [round_even]

theorem le_round_even (n : Int) (x : ℚ) (h : (n : ℚ) ≤ x) : n ≤ round_even x := by
  have hf : n ≤ ⌊x⌋ := Int.le_floor.mpr h
  unfold round_even
  split_ifs <;> omega

theorem round_even_le (n : Int) (x : ℚ) (h : x ≤ (n : ℚ)) : round_even x ≤ n := by
  have hf : ⌊x⌋ ≤ n := Int.floor_le_iff.mpr (by linarith)
  unfold round_even
  by_cases hx : x - ⌊x⌋ < 1 / 2
  · rw [if_pos hx]; exact hf
  · rw [if_neg hx]
    have hlt : ⌊x⌋ < n := by
      rcases lt_or_eq_of_le hf with h1 | h1
      · exact h1
      · exfalso
        have : x - ⌊x⌋ ≤ 0 := by rw [h1]; linarith
        linarith
    split_ifs <;> omega

theorem round_even_eq_of_lt (x : ℚ) (n : Int) (h1 : (n : ℚ) - 1 / 2 < x)
    (h2 : x < (n : ℚ) + 1 / 2) : round_even x = n := by
  unfold round_even
  by_cases hx : (n : ℚ) ≤ x
  · have hf : ⌊x⌋ = n := Int.floor_eq_iff.mpr ⟨hx, by linarith⟩
    rw [hf, if_pos (by linarith)]
  · have hf : ⌊x⌋ = n - 1 := Int.floor_eq_iff.mpr ⟨by push_cast; linarith, by push_cast; linarith⟩
    rw [hf, if_neg (by push_cast; linarith), if_pos (by push_cast; linarith)]
    omega

theorem round_even_tie (x : ℚ) (n : Int) (h : x = (n : ℚ) + 1 / 2) (he : n % 2 = 0) :
    round_even x = n := by
  have hf : ⌊x⌋ = n := Int.floor_eq_iff.mpr ⟨by linarith, by linarith⟩
  unfold round_even
  rw [hf, if_neg (by linarith), if_neg (by linarith), if_pos he]

theorem round_even_tie_odd (x : ℚ) (n : Int) (h : x = (n : ℚ) + 1 / 2) (he : n % 2 = 1) :
    round_even x = n + 1 := by
  have hf : ⌊x⌋ = n := Int.floor_eq_iff.mpr ⟨by linarith, by linarith⟩
  unfold round_even
  rw [hf, if_neg (by linarith), if_neg (by linarith), if_neg (by omega)]

theorem log_two_eq (q : ℚ) (e : Int) (h1 : (2 : ℚ) ^ e ≤ q) (h2 : q < (2 : ℚ) ^ (e + 1)) :
    Int.log 2 q = e := by
  have hq : 0 < q := lt_of_lt_of_le (by positivity) h1
  have a : e ≤ Int.log 2 q := (Int.zpow_le_iff_le_log (by norm_num) hq).mp (by exact_mod_cast h1)
  have b : Int.log 2 q < e + 1 := (Int.lt_zpow_iff_log_lt (by norm_num) hq).mp (by exact_mod_cast h2)
  omega

theorem log_two_le (q : ℚ) (k : Int) (hq : 0 < q) (h : q < (2 : ℚ) ^ (k + 1)) :
    Int.log 2 q ≤ k := by
  have b : Int.log 2 q < k + 1 :=
    (Int.lt_zpow_iff_log_lt (by norm_num) hq).mp (by exact_mod_cast h)
  omega

theorem le_log_two (q : ℚ) (k : Int) (h : (2 : ℚ) ^ k ≤ q) : k ≤ Int.log 2 q := by
  have hq : 0 < q := lt_of_lt_of_le (by positivity) h
  exact (Int.zpow_le_iff_le_log (by norm_num) hq).mp (by exact_mod_cast h)

theorem quantum_exp_eq (p : Nat) (emin e : Int) (q : ℚ) (h1 : (2 : ℚ) ^ e ≤ |q|)
    (h2 : |q| < (2 : ℚ) ^ (e + 1)) (he : emin ≤ e) :
    quantum_exp p emin q = e - (p - 1) := by
  unfold quantum_exp
  rw [log_two_eq |q| e h1 h2, max_eq_left he]

/-- Certificate for a normal value: the binade of `q` and the rounded significand. -/
theorem round_binary_eq (p : Nat) (emin e : Int) (q : ℚ) (n : Int)
    (h1 : (2 : ℚ) ^ e ≤ |q|) (h2 : |q| < (2 : ℚ) ^ (e + 1)) (he : emin ≤ e)
    (hn : round_even (q / 2 ^ (e - (p - 1))) = n) :
    round_binary p emin q = n * 2 ^ (e - (p - 1)) := by
  unfold round_binary
  rw [quantum_exp_eq p emin e q h1 h2 he, hn]

/-- Certificate for a positive normal value. -/
theorem round_binary_eq_of_pos (p : Nat) (emin e : Int) (q : ℚ) (n : Int)
    (h1 : (2 : ℚ) ^ e ≤ q) (h2 : q < (2 : ℚ) ^ (e + 1)) (he : emin ≤ e)
    (hn : round_even (q / 2 ^ (e - (p - 1))) = n) :
    round_binary p emin q = n * 2 ^ (e - (p - 1)) := by
  have hq : 0 < q := lt_of_lt_of_le (by positivity) h1
  exact round_binary_eq p emin e q n (by rwa [abs_of_pos hq]) (by rwa [abs_of_pos hq]) he hn

theorem round_binary_zero (p : Nat) (emin : Int) : round_binary p emin 0 = 0 := by
  simp [round_binary, round_even]

theorem round_binary_nonneg (p : Nat) (emin : Int) (q : ℚ) (h : 0 ≤ q) :
    0 ≤ round_binary p emin q := by
  unfold round_binary
  have h0 : (0 : ℚ) < 2 ^ quantum_exp p emin q := by positivity
  have h1 : (0 : Int) ≤ round_even (q / 2 ^ quantum_exp p emin q) :=
    le_round_even 0 _ (by simpa using div_nonneg h h0.le)
  have h2 : (0 : ℚ) ≤ (round_even (q / 2 ^ quantum_exp p emin q) : ℚ) := by exact_mod_cast h1
  positivity

theorem round_binary_nonpos (p : Nat) (emin : Int) (q : ℚ) (h : q ≤ 0) :
    round_binary p emin q ≤ 0 := by
  unfold round_binary
  have h0 : (0 : ℚ) < 2 ^ quantum_exp p emin q := by positivity
  have h1 : round_even (q / 2 ^ quantum_exp p emin q) ≤ (0 : Int) :=
    round_even_le 0 _ (by simpa using div_nonpos_of_nonpos_of_nonneg h h0.le)
  have h2 : (round_even (q / 2 ^ quantum_exp p emin q) : ℚ) ≤ 0 := by exact_mod_cast h1
  exact mul_nonpos_of_nonpos_of_nonneg h2 h0.le

/-- A value that is a whole number of quanta is not changed. -/
theorem round_binary_exact (p : Nat) (emin : Int) (q : ℚ) (m : Int)
    (h : q = m * 2 ^ quantum_exp p emin q) : round_binary p emin q = q := by
  have h0 : (2 : ℚ) ^ quantum_exp p emin q ≠ 0 := by positivity
  have h1 : q / 2 ^ quantum_exp p emin q = m := by
    rw [div_eq_iff h0]; exact h
  unfold round_binary
  rw [h1, round_even_intCast]
  exact h.symm

theorem two_zpow_split (k j : Int) (h : j ≤ k) :
    ∃ N : Int, 0 < N ∧ (2 : ℚ) ^ k = (N : ℚ) * 2 ^ j := by
  obtain ⟨n, hn⟩ := Int.eq_ofNat_of_zero_le (show 0 ≤ k - j by omega)
  refine ⟨2 ^ n, by positivity, ?_⟩
  have hk : k = (n : Int) + j := by omega
  rw [hk, zpow_add₀ (by norm_num : (2 : ℚ) ≠ 0)]
  simp

theorem quantum_exp_le (p : Nat) (emin k : Int) (q : ℚ) (hk : emin ≤ k) (hq : q ≠ 0)
    (h : |q| < (2 : ℚ) ^ (k + 1)) : quantum_exp p emin q ≤ k - (p - 1) := by
  unfold quantum_exp
  have := log_two_le |q| k (abs_pos.mpr hq) h
  rcases max_cases (Int.log 2 |q|) emin with ⟨h1, -⟩ | ⟨h1, -⟩ <;> rw [h1] <;> omega

/-- Rounding does not cross a power of two from below. -/
theorem round_binary_le_two_zpow (p : Nat) (emin k : Int) (q : ℚ) (hp : 1 ≤ p)
    (hk : emin - (p - 1) ≤ k) (h : q ≤ (2 : ℚ) ^ k) : round_binary p emin q ≤ 2 ^ k := by
  rcases le_or_lt q 0 with hq | hq
  · exact le_trans (round_binary_nonpos p emin q hq) (by positivity)
  · have hlog : Int.log 2 |q| ≤ k := by
      rw [abs_of_pos hq]
      exact log_two_le q k hq (lt_of_le_of_lt h (zpow_lt_zpow_right₀ (by norm_num) (by omega)))
    have hqe : quantum_exp p emin q ≤ k := by
      unfold quantum_exp
      have hp1 : (1 : Int) ≤ (p : Int) := by exact_mod_cast hp
      rcases max_cases (Int.log 2 |q|) emin with ⟨h1, -⟩ | ⟨h1, -⟩ <;> rw [h1] <;> omega
    have h0 : (0 : ℚ) < 2 ^ quantum_exp p emin q := by positivity
    obtain ⟨N, -, hN⟩ := two_zpow_split k (quantum_exp p emin q) hqe
    have h1 : round_even (q / 2 ^ quantum_exp p emin q) ≤ N := by
      apply round_even_le
      rw [div_le_iff₀ h0, ← hN]
      exact h
    have h2 : (round_even (q / 2 ^ quantum_exp p emin q) : ℚ) ≤ (N : ℚ) := by exact_mod_cast h1
    unfold round_binary
    rw [hN]
    exact mul_le_mul_of_nonneg_right h2 h0.le

/-- Rounding does not cross a power of two from above. -/
theorem two_zpow_le_round_binary (p : Nat) (emin k : Int) (q : ℚ) (hp : 1 ≤ p)
    (hk : emin - (p - 1) ≤ k) (h : (2 : ℚ) ^ k ≤ q) : 2 ^ k ≤ round_binary p emin q := by
  have hq : 0 < q := lt_of_lt_of_le (by positivity) h
  have hp1 : (1 : Int) ≤ (p : Int) := by exact_mod_cast hp
  have h0 : (0 : ℚ) < 2 ^ quantum_exp p emin q := by positivity
  have hlog : k ≤ Int.log 2 |q| := by
    rw [abs_of_pos hq]
    exact le_log_two q k h
  have hpow : (2 : ℚ) ^ Int.log 2 |q| ≤ q := by
    have := Int.zpow_log_le_self (b := 2) (by norm_num) (abs_pos.mpr hq.ne.symm)
    rw [abs_of_pos hq] at this ⊢
    exact_mod_cast this
  -- the larger of 2^k and the quantum-aligned power below q
  by_cases hc : quantum_exp p emin q ≤ k
  · obtain ⟨N, -, hN⟩ := two_zpow_split k (quantum_exp p emin q) hc
    have h1 : N ≤ round_even (q / 2 ^ quantum_exp p emin q) := by
      apply le_round_even
      rw [le_div_iff₀ h0, ← hN]
      exact h
    have h2 : (N : ℚ) ≤ (round_even (q / 2 ^ quantum_exp p emin q) : ℚ) := by exact_mod_cast h1
    unfold round_binary
    rw [hN]
    exact mul_le_mul_of_nonneg_right h2 h0.le
  · push_neg at hc
    have hql : quantum_exp p emin q ≤ Int.log 2 |q| := by
      unfold quantum_exp at hc ⊢
      rcases max_cases (Int.log 2 |q|) emin with ⟨h1, -⟩ | ⟨h1, -⟩ <;> rw [h1] at hc ⊢ <;> omega
    obtain ⟨N, -, hN⟩ := two_zpow_split (Int.log 2 |q|) (quantum_exp p emin q) hql
    have h1 : N ≤ round_even (q / 2 ^ quantum_exp p emin q) := by
      apply le_round_even
      rw [le_div_iff₀ h0, ← hN]
      exact hpow
    have h2 : (N : ℚ) ≤ (round_even (q / 2 ^ quantum_exp p emin q) : ℚ) := by exact_mod_cast h1
    have h3 : (2 : ℚ) ^ k ≤ 2 ^ Int.log 2 |q| := zpow_le_zpow_right₀ (by norm_num) hlog
    unfold round_binary
    refine le_trans h3 ?_
    rw [hN]
    exact mul_le_mul_of_nonneg_right h2 h0.le

theorem abs_round_even_sub_le (x : ℚ) : |(round_even x : ℚ) - x| ≤ 1 / 2 := by
  have h1 := Int.floor_le x
  have h2 := Int.lt_floor_add_one x
  unfold round_even
  rw [abs_le]
  split_ifs <;> constructor <;> push_cast <;> linarith

/-- Rounding moves a value by at most half a quantum. -/
theorem abs_round_binary_sub_le (p : Nat) (emin : Int) (q : ℚ) :
    |round_binary p emin q - q| ≤ 2 ^ quantum_exp p emin q / 2 := by
  have h0 : (0 : ℚ) < 2 ^ quantum_exp p emin q := by positivity
  have h := abs_round_even_sub_le (q / 2 ^ quantum_exp p emin q)
  unfold round_binary
  have e : (round_even (q / 2 ^ quantum_exp p emin q) : ℚ) * 2 ^ quantum_exp p emin q - q =
      ((round_even (q / 2 ^ quantum_exp p emin q) : ℚ) - q / 2 ^ quantum_exp p emin q) *
        2 ^ quantum_exp p emin q := by
    field_simp
  rw [e, abs_mul, abs_of_pos h0]
  calc |(round_even (q / 2 ^ quantum_exp p emin q) : ℚ) - q / 2 ^ quantum_exp p emin q| *
        2 ^ quantum_exp p emin q ≤ 1 / 2 * 2 ^ quantum_exp p emin q :=
        mul_le_mul_of_nonneg_right h h0.le
    _ = 2 ^ quantum_exp p emin q / 2 := by ring

/-- A value below `2 ^ (k + 1)` in magnitude moves by at most half a unit of the last
place of the binade `k`. -/
theorem abs_round_binary_sub_le_of_lt (p : Nat) (emin k : Int) (q : ℚ) (hk : emin ≤ k)
    (h : |q| < (2 : ℚ) ^ (k + 1)) :
    |round_binary p emin q - q| ≤ 2 ^ (k - (p - 1)) / 2 := by
  by_cases hq : q = 0
  · rw [hq, round_binary_zero]
    simp only [sub_zero, abs_zero]
    positivity
  · refine le_trans (abs_round_binary_sub_le p emin q) ?_
    have := quantum_exp_le p emin k q hk hq h
    have h3 : (2 : ℚ) ^ quantum_exp p emin q ≤ 2 ^ (k - (p - 1)) :=
      zpow_le_zpow_right₀ (by norm_num) this
    linarith

/-- Whole numbers up to `2 ^ 24` in magnitude are binary32 values. -/
theorem f32_intCast (n : Int) (h : |n| ≤ 2 ^ 24) : f32 (n : ℚ) = n := by
  unfold f32
  by_cases h0 : n = 0
  · rw [h0]
    simpa using round_binary_zero 24 (-126)
  rcases lt_or_eq_of_le h with hlt | heq
  · have hq : (0 : ℚ) < |(n : ℚ)| := abs_pos.mpr (by exact_mod_cast h0)
    have hn1 : (1 : ℚ) ≤ |(n : ℚ)| := by
      have : (1 : Int) ≤ |n| := Int.one_le_abs h0
      exact_mod_cast this
    have hlo : 0 ≤ Int.log 2 |(n : ℚ)| := le_log_two _ 0 (by simpa using hn1)
    have hhi : Int.log 2 |(n : ℚ)| ≤ 23 :=
      log_two_le _ 23 hq (by
        have : ((|n| : Int) : ℚ) < ((2 ^ 24 : Int) : ℚ) := by exact_mod_cast hlt
        rw [Int.cast_abs] at this
        refine lt_of_lt_of_le this ?_
        norm_num)
    have hqe : quantum_exp 24 (-126) (n : ℚ) = Int.log 2 |(n : ℚ)| - 23 := by
      unfold quantum_exp
      rw [max_eq_left (by omega)]
      norm_num
    obtain ⟨N, -, hN⟩ := two_zpow_split 0 (quantum_exp 24 (-126) (n : ℚ)) (by omega)
    apply round_binary_exact 24 (-126) (n : ℚ) (n * N)
    push_cast
    rw [mul_assoc, ← hN]
    simp
  · have hcases : n = 2 ^ 24 ∨ n = -2 ^ 24 := by
      rcases abs_cases n with ⟨h1, -⟩ | ⟨h1, -⟩ <;> omega
    rcases hcases with rfl | rfl
    · rw [round_binary_eq 24 (-126) 24 _ (2 ^ 23) (by norm_num) (by norm_num) (by norm_num)
        (by
          have : ((2 ^ 24 : Int) : ℚ) / 2 ^ ((24 : Int) - (((24 : Nat) : Int) - 1)) =
              ((2 ^ 23 : Int) : ℚ) := by norm_num
          rw [this, round_even_intCast])]
      norm_num
    · rw [round_binary_eq 24 (-126) 24 _ (-2 ^ 23) (by norm_num) (by norm_num) (by norm_num)
        (by
          have : ((-2 ^ 24 : Int) : ℚ) / 2 ^ ((24 : Int) - (((24 : Nat) : Int) - 1)) =
              ((-2 ^ 23 : Int) : ℚ) := by norm_num
          rw [this, round_even_intCast])]
      norm_num

/-- Above `2 ^ 24` the odd whole numbers are not binary32 values: `2 ^ 24 + 1` lies
half way between two neighbours and goes to the even one. -/
theorem f32_tie : f32 (16777216 + 1) = 16777216 := by
  unfold f32
  rw [round_binary_eq 24 (-126) 24 _ 8388608 (by norm_num) (by norm_num) (by norm_num)
    (round_even_tie _ 8388608 (by norm_num) (by norm_num))]
  norm_num

theorem f32_tie_neg : f32 (-16777216 - 1) = -16777216 := by
  unfold f32
  rw [round_binary_eq 24 (-126) 24 _ (-8388608) (by norm_num) (by norm_num) (by norm_num)
    (by
      have h : ((-16777216 - 1 : ℚ)) / 2 ^ ((24 : Int) - (((24 : Nat) : Int) - 1)) =
          ((-8388609 : Int) : ℚ) + 1 / 2 := by norm_num
      rw [round_even_tie_odd _ (-8388609) h (by decide)]
      norm_num)]
  norm_num

/-! ## Properties of the video record app -/

namespace Vid

theorem clamp_scale_nonneg (scale : ℚ) : 0 ≤ clamp_scale scale := by
  unfold clamp_scale
  split_ifs with h1 h2
  · norm_num
  · exact le_refl _
  · exact not_lt.mp h2

theorem clamp_scale_le (scale : ℚ) : clamp_scale scale ≤ 19 / 20 := by
  unfold clamp_scale
  split_ifs with h1 h2
  · exact le_refl _
  · norm_num
  · exact not_lt.mp h1

theorem clamp_offset_le (scale offset : ℚ) (hs : 0 ≤ scale) :
    clamp_offset scale offset ≤ scale / 2 := by
  unfold clamp_offset
  split_ifs with h1 h2
  · exact le_refl _
  · linarith
  · exact not_lt.mp h1

theorem neg_le_clamp_offset (scale offset : ℚ) (hs : 0 ≤ scale) :
    -(scale / 2) ≤ clamp_offset scale offset := by
  unfold clamp_offset
  split_ifs with h1 h2
  · linarith
  · exact le_refl _
  · exact not_lt.mp h2

/-- The clamping statements establish the invariant from any values. -/
theorem clamp_inv (st : State) : ClampInv (clamp st) := by
  have h0 := clamp_scale_nonneg st.scale
  exact ⟨h0, clamp_scale_le _, neg_le_clamp_offset _ _ h0, clamp_offset_le _ _ h0,
    neg_le_clamp_offset _ _ h0, clamp_offset_le _ _ h0⟩

theorem init_inv : ClampInv init := by
  norm_num [ClampInv, init]

theorem zoom_after_inv (keys : List Int) (st : State) (h : ClampInv st) :
    ClampInv (zoom_after keys st) := by
  induction keys generalizing st with
  | nil => simpa [zoom_after] using h
  | cons key rest ih =>
    have := ih (clamp (apply_key key st).1) (clamp_inv _)
    simpa [zoom_after] using this

/-- An iteration preserves the invariant, whatever it reads. -/
theorem cycle_inv (options : VideoOptions) (inp : CycleInput) (st : State)
    (h : ClampInv st) : ClampInv (cycle options inp st).next.state := by
  unfold cycle
  split
  · exact h
  · exact h
  · exact h
  · dsimp only
    split
    · exact clamp_inv _
    · exact clamp_inv _

theorem event_loop_inv (options : VideoOptions) (events : List Event) (st : State)
    (h : ClampInv st) : ClampInv (event_loop options events st).next.state := by
  induction events generalizing st with
  | nil => exact h
  | cons e rest ih =>
    have h0 : ClampInv (deliver e.1 st) := by
      unfold deliver
      cases e.1 <;> exact h
    have hc := cycle_inv options e.2 _ h0
    unfold event_loop
    dsimp only
    split
    · next st1 heq =>
      rw [heq] at hc
      exact ih st1 hc
    · next o hne =>
      exact hc

/-- C1. Clamping invariant of the video loop over exact rationals: from the initial
variables `scale = 0`, `offset_x = 0`, `offset_y = 0`, after every iteration of every
finite sequence of resolved command keys (any key value), and likewise after every
iteration of every finite sequence of loop events, `0 ≤ scale ≤ 0.95` and both offsets
lie in `[-scale/2, scale/2]`, the bound being taken at the scale after that iteration. -/
theorem clamping_invariant (options : VideoOptions) (keys : List Int)
    (events : List Event) (n : Nat) :
    (0 ≤ (zoom_after (keys.take n) init).scale ∧
     (zoom_after (keys.take n) init).scale ≤ 19 / 20 ∧
     -((zoom_after (keys.take n) init).scale / 2) ≤ (zoom_after (keys.take n) init).offset_x ∧
     (zoom_after (keys.take n) init).offset_x ≤ (zoom_after (keys.take n) init).scale / 2 ∧
     -((zoom_after (keys.take n) init).scale / 2) ≤ (zoom_after (keys.take n) init).offset_y ∧
     (zoom_after (keys.take n) init).offset_y ≤ (zoom_after (keys.take n) init).scale / 2) ∧
    (0 ≤ (event_loop options (events.take n) init).next.state.scale ∧
     (event_loop options (events.take n) init).next.state.scale ≤ 19 / 20 ∧
     -((event_loop options (events.take n) init).next.state.scale / 2) ≤
       (event_loop options (events.take n) init).next.state.offset_x ∧
     (event_loop options (events.take n) init).next.state.offset_x ≤
       (event_loop options (events.take n) init).next.state.scale / 2 ∧
     -((event_loop options (events.take n) init).next.state.scale / 2) ≤
       (event_loop options (events.take n) init).next.state.offset_y ∧
     (event_loop options (events.take n) init).next.state.offset_y ≤
       (event_loop options (events.take n) init).next.state.scale / 2) :=
  ⟨zoom_after_inv _ _ init_inv, event_loop_inv _ _ _ init_inv⟩

theorem apply_key_trace (key : Int) (st : State) :
    (apply_key key st).2 =
      if key = ch 'f' ∨ key = ch 'F' then
        [Action.SetControlsAfTrigger, Action.PrintAfTrigger] else [] := by
  simp only [apply_key, apply_ite Prod.snd, ch, Char.reduceToNat, Int.ofNat_eq_coe,
    Nat.cast_ofNat, ite_self]
  split_ifs <;> first | rfl | (exfalso; omega)

theorem crop_not_mem_apply_key (key : Int) (st : State) (x y w h : ℚ) :
    Action.SetScalerCrop x y w h ∉ (apply_key key st).2 := by
  rw [apply_key_trace]
  split_ifs <;> simp

theorem crop_not_mem_focus_actions (options : VideoOptions) (key : Int) (st : State)
    (x y w h : ℚ) : Action.SetScalerCrop x y w h ∉ focus_actions options key st := by
  unfold focus_actions
  split_ifs <;> simp

theorem crop_mem_crop_actions (key : Int) (st : State) (x y w h : ℚ)
    (hm : Action.SetScalerCrop x y w h ∈ crop_actions key st) :
    x = st.scale / 2 + st.offset_x ∧ y = st.scale / 2 + st.offset_y ∧
      w = 1 - st.scale ∧ h = 1 - st.scale := by
  unfold crop_actions at hm
  split_ifs at hm
  · simpa using hm
  · simp at hm

theorem crop_mem_apply_command (options : VideoOptions) (inp : CycleInput) (st : State)
    (x y w h : ℚ) (hm : Action.SetScalerCrop x y w h ∈ (apply_command options inp st).trace) :
    x = (apply_command options inp st).st.scale / 2 + (apply_command options inp st).st.offset_x ∧
    y = (apply_command options inp st).st.scale / 2 + (apply_command options inp st).st.offset_y ∧
    w = 1 - (apply_command options inp st).st.scale ∧
    h = 1 - (apply_command options inp st).st.scale := by
  simp only [apply_command, List.mem_append] at hm
  rcases hm with ((h1 | h2) | h3) | h4
  · split_ifs at h1 <;> simp at h1
  · exact absurd h2 (crop_not_mem_apply_key _ _ _ _ _ _)
  · exact crop_mem_crop_actions _ _ _ _ _ _ h3
  · exact absurd h4 (crop_not_mem_focus_actions _ _ _ _ _ _ _)

theorem apply_command_inv (options : VideoOptions) (inp : CycleInput) (st : State) :
    ClampInv (apply_command options inp st).st := clamp_inv _

/-- A crop call in the trace of an iteration comes from lines 209-214 of a
`RequestComplete` iteration, and the zoom variables after the iteration are those the
clamping statements produced. -/
theorem crop_mem_cycle (options : VideoOptions) (inp : CycleInput) (st : State)
    (x y w h : ℚ) (hm : Action.SetScalerCrop x y w h ∈ (cycle options inp st).trace) :
    Action.SetScalerCrop x y w h ∈ (apply_command options inp st).trace ∧
    (cycle options inp st).next.state.scale = (apply_command options inp st).st.scale ∧
    (cycle options inp st).next.state.offset_x = (apply_command options inp st).st.offset_x ∧
    (cycle options inp st).next.state.offset_y = (apply_command options inp st).st.offset_y := by
  unfold cycle at hm ⊢
  split at hm
  · simp at hm
  · simp at hm
  · simp at hm
  · next heq =>
    simp only [heq]
    dsimp only at hm ⊢
    split at hm
    · next hs =>
      rw [if_pos hs]
      simp only [List.mem_append, List.mem_cons, List.mem_singleton, reduceCtorEq,
        or_false, List.not_mem_nil] at hm
      exact ⟨hm, rfl, rfl, rfl⟩
    · next hs =>
      rw [if_neg hs]
      simp only [List.mem_append, List.mem_cons, List.mem_singleton, reduceCtorEq,
        or_false, List.not_mem_nil] at hm
      exact ⟨hm, rfl, rfl, rfl⟩

/-- The clamping statements change nothing once the invariant holds. -/
theorem clamp_of_inv (st : State) (h : ClampInv st) : clamp st = st := by
  obtain ⟨h1, h2, h3, h4, h5, h6⟩ := h
  have hs : clamp_scale st.scale = st.scale := by
    unfold clamp_scale
    rw [if_neg (not_lt.mpr h2), if_neg (not_lt.mpr h1)]
  have hx : clamp_offset st.scale st.offset_x = st.offset_x := by
    unfold clamp_offset
    rw [if_neg (not_lt.mpr h4), if_neg (not_lt.mpr h3)]
  have hy : clamp_offset st.scale st.offset_y = st.offset_y := by
    unfold clamp_offset
    rw [if_neg (not_lt.mpr h6), if_neg (not_lt.mpr h5)]
  unfold clamp
  simp only [hs, hx, hy]

/-- With the arithmetic taken over exact rationals, every crop rectangle emitted by an
iteration, from any variables, is computed from the variables the clamping statements of
that same iteration left and is a sub-rectangle of the unit square: `0 ≤ x`, `0 ≤ y`,
`w > 0`, `h > 0`, `x + w ≤ 1`, `y + h ≤ 1`. -/
theorem crop_rectangle_exact (options : VideoOptions) (inp : CycleInput) (st : State)
    (x y w h : ℚ) (hm : Action.SetScalerCrop x y w h ∈ (cycle options inp st).trace) :
    (x = (cycle options inp st).next.state.scale / 2 +
          (cycle options inp st).next.state.offset_x ∧
     y = (cycle options inp st).next.state.scale / 2 +
          (cycle options inp st).next.state.offset_y ∧
     w = 1 - (cycle options inp st).next.state.scale ∧
     h = 1 - (cycle options inp st).next.state.scale) ∧
    clamp (cycle options inp st).next.state = (cycle options inp st).next.state ∧
    0 ≤ x ∧ 0 ≤ y ∧ 0 < w ∧ 0 < h ∧ x + w ≤ 1 ∧ y + h ≤ 1 := by
  obtain ⟨hm1, e1, e2, e3⟩ := crop_mem_cycle options inp st x y w h hm
  obtain ⟨hx, hy, hw, hh⟩ := crop_mem_apply_command options inp st x y w h hm1
  have hinv := apply_command_inv options inp st
  have hinv2 : ClampInv (cycle options inp st).next.state := by
    unfold ClampInv
    rw [e1, e2, e3]
    exact hinv
  obtain ⟨h1, h2, h3, h4, h5, h6⟩ := hinv
  refine ⟨?_, clamp_of_inv _ hinv2, ?_, ?_, ?_, ?_, ?_, ?_⟩
  · rw [e1, e2, e3]
    exact ⟨hx, hy, hw, hh⟩
  all_goals (subst hx hy hw hh; linarith)

/-- With exact arithmetic the crop rectangle of a zoom-in on the first frame is
`(1/40, 1/40, 19/20, 19/20)`. -/
theorem crop_rectangle_exact_zoom_in :
    Action.SetScalerCrop (1 / 40) (1 / 40) (19 / 20) (19 / 20) ∈
        (cycle options_plain input_zoom_in init).trace ∧
      0 ≤ (1 / 40 : ℚ) ∧ (1 / 40 : ℚ) + 19 / 20 ≤ 1 :=
  have hm : Action.SetScalerCrop (1 / 40) (1 / 40) (19 / 20) (19 / 20) ∈
      (cycle options_plain input_zoom_in init).trace := by
    simp [cycle, options_plain, input_zoom_in, init, apply_command, get_key_or_signal,
      fallback, first_char, apply_key, clamp, clamp_scale, clamp_offset, crop_actions,
      focus_actions, should_stop, timeout, frameout, is_quit, isalpha, is_focus_key, ch,
      SIGINT]
    norm_num
  have h := crop_rectangle_exact options_plain input_zoom_in init _ _ _ _ hm
  ⟨hm, h.2.2.1, h.2.2.2.2.2.2.1⟩

end Vid

/-! ## Crop rectangle in `float` arithmetic -/

namespace Vid.Binary32

theorem literal_005_eq : literal_005 = 3602879701896397 / 72057594037927936 := by
  unfold literal_005 f64
  rw [round_binary_eq_of_pos 53 (-1022) (-5) _ 7205759403792794 (by norm_num) (by norm_num)
    (by norm_num) (round_even_eq_of_lt _ _ (by norm_num) (by norm_num))]
  norm_num

theorem literal_095_eq : literal_095 = 4278419646001971 / 4503599627370496 := by
  unfold literal_095 f64
  rw [round_binary_eq_of_pos 53 (-1022) (-1) _ 8556839292003942 (by norm_num) (by norm_num)
    (by norm_num) (round_even_eq_of_lt _ _ (by norm_num) (by norm_num))]
  norm_num

theorem f32_literal_095_eq : f32 literal_095 = 15938355 / 16777216 := by
  rw [literal_095_eq]
  unfold f32
  rw [round_binary_eq_of_pos 24 (-126) (-1) _ 15938355 (by norm_num) (by norm_num)
    (by norm_num) (round_even_eq_of_lt _ _ (by norm_num) (by norm_num))]
  norm_num

theorem f32_nonneg (q : ℚ) (h : 0 ≤ q) : 0 ≤ f32 q := round_binary_nonneg 24 (-126) q h

theorem f32_le_one (q : ℚ) (h : q ≤ 1) : f32 q ≤ 1 := by
  have := round_binary_le_two_zpow 24 (-126) 0 q (by norm_num) (by norm_num) (by simpa using h)
  simpa using this

theorem f32_le_half (q : ℚ) (h : q ≤ 1 / 2) : f32 q ≤ 1 / 2 := by
  have := round_binary_le_two_zpow 24 (-126) (-1) q (by norm_num) (by norm_num)
    (by norm_num; linarith)
  norm_num at this
  unfold f32
  linarith

theorem f32_ge_of_ge (q : ℚ) (h : 1 / 32 ≤ q) : 1 / 32 ≤ f32 q := by
  have := two_zpow_le_round_binary 24 (-126) (-5) q (by norm_num) (by norm_num)
    (by norm_num; linarith)
  norm_num at this
  unfold f32
  linarith

/-- Below 2 in magnitude a `float` operation is off by at most `2 ^ -24`. -/
theorem f32_error (q : ℚ) (h1 : -2 < q) (h2 : q < 2) :
    f32 q - q ≤ 1 / 16777216 ∧ q - f32 q ≤ 1 / 16777216 := by
  have h := abs_round_binary_sub_le_of_lt 24 (-126) 0 q (by norm_num)
    (by rw [abs_lt]; norm_num; exact ⟨h1, h2⟩)
  rw [abs_le] at h
  norm_num at h
  unfold f32
  constructor <;> linarith

/-- Below 1 in magnitude a `float` operation is off by at most `2 ^ -25`. -/
theorem f32_error_small (q : ℚ) (h1 : -1 < q) (h2 : q < 1) :
    f32 q - q ≤ 1 / 33554432 ∧ q - f32 q ≤ 1 / 33554432 := by
  have h := abs_round_binary_sub_le_of_lt 24 (-126) (-1) q (by norm_num)
    (by rw [abs_lt]; norm_num; exact ⟨h1, h2⟩)
  rw [abs_le] at h
  norm_num at h
  unfold f32
  constructor <;> linarith

/-- Bounds on the arguments of `SetScalerCrop` computed from clamped variables. -/
theorem crop_bounds (s o : ℚ) (h1 : 0 ≤ s) (h2 : s ≤ literal_095)
    (h3 : -(f32 (s / 2)) ≤ o) (h4 : o ≤ f32 (s / 2)) :
    0 ≤ f32 (f32 (s / 2) + o) ∧ f32 (f32 (s / 2) + o) ≤ 1 ∧
    0 < f32 (1 - s) ∧ f32 (1 - s) ≤ 1 ∧
    f32 (f32 (s / 2) + o) + f32 (1 - s) ≤ 1 + 1 / 4194304 := by
  rw [literal_095_eq] at h2
  have a1 : 0 ≤ f32 (s / 2) := f32_nonneg _ (by linarith)
  have a2 : f32 (s / 2) ≤ 1 / 2 := f32_le_half _ (by linarith)
  have a3 := (f32_error_small (s / 2) (by linarith) (by linarith)).1
  have b1 : 0 ≤ f32 (f32 (s / 2) + o) := f32_nonneg _ (by linarith)
  have b2 : f32 (f32 (s / 2) + o) ≤ 1 := f32_le_one _ (by linarith)
  have b3 := (f32_error (f32 (s / 2) + o) (by linarith) (by linarith)).1
  have c1 : 1 / 32 ≤ f32 (1 - s) := f32_ge_of_ge _ (by linarith)
  have c2 : f32 (1 - s) ≤ 1 := f32_le_one _ (by linarith)
  have c3 := (f32_error (1 - s) (by linarith) (by linarith)).1
  refine ⟨b1, b2, by linarith, c2, by linarith⟩

theorem b32_clamp_scale_nonneg (scale : ℚ) : 0 ≤ clamp_scale scale := by
  unfold clamp_scale
  split_ifs with h1 h2
  · rw [f32_literal_095_eq]
    norm_num
  · exact le_refl _
  · exact not_lt.mp h2

theorem b32_clamp_scale_le (scale : ℚ) : clamp_scale scale ≤ literal_095 := by
  unfold clamp_scale
  split_ifs with h1 h2
  · rw [f32_literal_095_eq, literal_095_eq]
    norm_num
  · rw [literal_095_eq]
    norm_num
  · exact not_lt.mp h1

theorem b32_clamp_offset_le (scale offset : ℚ) (hs : 0 ≤ scale) :
    clamp_offset scale offset ≤ f32 (scale / 2) := by
  have h0 : 0 ≤ f32 (scale / 2) := f32_nonneg _ (by linarith)
  unfold clamp_offset
  split_ifs with h1 h2
  · exact le_refl _
  · linarith
  · exact not_lt.mp h1

theorem b32_neg_le_clamp_offset (scale offset : ℚ) (hs : 0 ≤ scale) :
    -(f32 (scale / 2)) ≤ clamp_offset scale offset := by
  have h0 : 0 ≤ f32 (scale / 2) := f32_nonneg _ (by linarith)
  unfold clamp_offset
  split_ifs with h1 h2
  · linarith
  · exact le_refl _
  · exact not_lt.mp h2

/-- The `float` clamping statements establish the invariant from any values. -/
theorem b32_clamp_inv (st : State) : ClampInv (clamp st) := by
  have h0 := b32_clamp_scale_nonneg st.scale
  exact ⟨h0, b32_clamp_scale_le _, b32_neg_le_clamp_offset _ _ h0, b32_clamp_offset_le _ _ h0,
    b32_neg_le_clamp_offset _ _ h0, b32_clamp_offset_le _ _ h0⟩

theorem b32_apply_key_trace (key : Int) (st : State) :
    (apply_key key st).2 =
      if key = ch 'f' ∨ key = ch 'F' then
        [Action.SetControlsAfTrigger, Action.PrintAfTrigger] else [] := by
  simp only [apply_key, apply_ite Prod.snd, ch, Char.reduceToNat, Int.ofNat_eq_coe,
    Nat.cast_ofNat, ite_self]
  split_ifs <;> first | rfl | (exfalso; omega)

theorem b32_crop_mem_crop_actions (key : Int) (st : State) (x y w h : ℚ)
    (hm : Action.SetScalerCrop x y w h ∈ crop_actions key st) :
    x = f32 (f32 (st.scale / 2) + st.offset_x) ∧ y = f32 (f32 (st.scale / 2) + st.offset_y) ∧
      w = f32 (1 - st.scale) ∧ h = f32 (1 - st.scale) := by
  unfold crop_actions at hm
  split_ifs at hm
  · simpa using hm
  · simp at hm

theorem b32_crop_mem_apply_command (options : VideoOptions) (inp : CycleInput) (st : State)
    (x y w h : ℚ) (hm : Action.SetScalerCrop x y w h ∈ (apply_command options inp st).trace) :
    x = f32 (f32 ((apply_command options inp st).st.scale / 2) +
          (apply_command options inp st).st.offset_x) ∧
    y = f32 (f32 ((apply_command options inp st).st.scale / 2) +
          (apply_command options inp st).st.offset_y) ∧
    w = f32 (1 - (apply_command options inp st).st.scale) ∧
    h = f32 (1 - (apply_command options inp st).st.scale) := by
  simp only [apply_command, List.mem_append] at hm
  rcases hm with ((h1 | h2) | h3) | h4
  · split_ifs at h1 <;> simp at h1
  · rw [b32_apply_key_trace] at h2
    split_ifs at h2 <;> simp at h2
  · exact b32_crop_mem_crop_actions _ _ _ _ _ _ h3
  · unfold focus_actions at h4
    split_ifs at h4 <;> simp at h4

/-- A crop call in the trace of an iteration comes from lines 209-214 of a
`RequestComplete` iteration, and the zoom variables after the iteration are those the
clamping statements produced. -/
theorem b32_crop_mem_cycle (options : VideoOptions) (inp : CycleInput) (st : State)
    (x y w h : ℚ) (hm : Action.SetScalerCrop x y w h ∈ (cycle options inp st).trace) :
    Action.SetScalerCrop x y w h ∈ (apply_command options inp st).trace ∧
    (cycle options inp st).next.state.scale = (apply_command options inp st).st.scale ∧
    (cycle options inp st).next.state.offset_x = (apply_command options inp st).st.offset_x ∧
    (cycle options inp st).next.state.offset_y = (apply_command options inp st).st.offset_y := by
  unfold cycle at hm ⊢
  split at hm
  · simp at hm
  · simp at hm
  · simp at hm
  · next heq =>
    simp only [heq]
    dsimp only at hm ⊢
    split at hm
    · next hs =>
      rw [if_pos hs]
      simp only [List.mem_append, List.mem_cons, List.mem_singleton, reduceCtorEq,
        or_false, List.not_mem_nil] at hm
      exact ⟨hm, rfl, rfl, rfl⟩
    · next hs =>
      rw [if_neg hs]
      simp only [List.mem_append, List.mem_cons, List.mem_singleton, reduceCtorEq,
        or_false, List.not_mem_nil] at hm
      exact ⟨hm, rfl, rfl, rfl⟩

/-- C2, amended. Every crop rectangle emitted by an iteration of the video loop, from
any variables (hence from every reachable state), is computed in `float` from the
variables the clamping statements of that same iteration left:
`x = scale / 2 + offset_x`, `y = scale / 2 + offset_y`, `w = h = 1 - scale`, each
operation rounded, on the state after the iteration, which satisfies
`0 ≤ scale ≤ 0.95` and `-(scale / 2) ≤ offset ≤ scale / 2`. The values lie in the unit
interval, `0 ≤ x ≤ 1`, `0 ≤ y ≤ 1`, `0 < w ≤ 1`, `0 < h ≤ 1`, and the far corner is
within rounding of the unit square: `x + w ≤ 1 + 2 ^ -22` and `y + h ≤ 1 + 2 ^ -22`. -/
theorem crop_rectangle_valid (options : VideoOptions) (inp : CycleInput) (st : State)
    (x y w h : ℚ) (hm : Action.SetScalerCrop x y w h ∈ (cycle options inp st).trace) :
    (x = f32 (f32 ((cycle options inp st).next.state.scale / 2) +
          (cycle options inp st).next.state.offset_x) ∧
     y = f32 (f32 ((cycle options inp st).next.state.scale / 2) +
          (cycle options inp st).next.state.offset_y) ∧
     w = f32 (1 - (cycle options inp st).next.state.scale) ∧
     h = f32 (1 - (cycle options inp st).next.state.scale)) ∧
    ClampInv (cycle options inp st).next.state ∧
    (0 ≤ x ∧ x ≤ 1 ∧ 0 ≤ y ∧ y ≤ 1 ∧ 0 < w ∧ w ≤ 1 ∧ 0 < h ∧ h ≤ 1) ∧
    x + w ≤ 1 + 1 / 4194304 ∧ y + h ≤ 1 + 1 / 4194304 := by
  obtain ⟨hm1, e1, e2, e3⟩ := b32_crop_mem_cycle options inp st x y w h hm
  obtain ⟨hx, hy, hw, hh⟩ := b32_crop_mem_apply_command options inp st x y w h hm1
  have hinv : ClampInv (apply_command options inp st).st := b32_clamp_inv _
  have hinv2 : ClampInv (cycle options inp st).next.state := by
    unfold ClampInv
    rw [e1, e2, e3]
    exact hinv
  obtain ⟨h1, h2, h3, h4, h5, h6⟩ := hinv
  obtain ⟨x1, x2, x3, x4, x5⟩ := crop_bounds _ _ h1 h2 h3 h4
  obtain ⟨y1, y2, -, -, y5⟩ := crop_bounds _ _ h1 h2 h5 h6
  rw [← hx, ← hw] at x5
  rw [← hy, ← hh] at y5
  rw [← hx] at x1 x2
  rw [← hy] at y1 y2
  have w3 := x3
  have w4 := x4
  rw [← hw] at w3 w4
  rw [← hh] at x3 x4
  refine ⟨?_, hinv2, ⟨x1, x2, y1, y2, w3, w4, x3, x4⟩, x5, y5⟩
  rw [e1, e2, e3]
  exact ⟨hx, hy, hw, hh⟩

/-! ### Zoom-in then zoom-out from the initial variables -/

theorem f64_literal_005 : f64 literal_005 = literal_005 := by
  rw [literal_005_eq]
  unfold f64
  rw [round_binary_eq_of_pos 53 (-1022) (-5) _ 7205759403792794 (by norm_num) (by norm_num)
    (by norm_num) (round_even_eq_of_lt _ _ (by norm_num) (by norm_num))]
  norm_num

theorem f32_literal_005 : f32 literal_005 = 13421773 / 268435456 := by
  rw [literal_005_eq]
  unfold f32
  rw [round_binary_eq_of_pos 24 (-126) (-5) _ 13421773 (by norm_num) (by norm_num)
    (by norm_num) (round_even_eq_of_lt _ _ (by norm_num) (by norm_num))]
  norm_num

theorem f32_half_in : f32 (f32 literal_005 / 2) = 13421773 / 536870912 := by
  rw [f32_literal_005]
  unfold f32
  rw [round_binary_eq_of_pos 24 (-126) (-6) _ 13421773 (by norm_num) (by norm_num)
    (by norm_num) (round_even_eq_of_lt _ _ (by norm_num) (by norm_num))]
  norm_num

theorem f32_x_in : f32 (f32 (f32 literal_005 / 2)) = 13421773 / 536870912 := by
  rw [f32_half_in]
  unfold f32
  rw [round_binary_eq_of_pos 24 (-126) (-6) _ 13421773 (by norm_num) (by norm_num)
    (by norm_num) (round_even_eq_of_lt _ _ (by norm_num) (by norm_num))]
  norm_num

theorem f32_w_in : f32 (1 - f32 literal_005) = 15938355 / 16777216 := by
  rw [f32_literal_005]
  unfold f32
  rw [round_binary_eq_of_pos 24 (-126) (-1) _ 15938355 (by norm_num) (by norm_num)
    (by norm_num) (round_even_eq_of_lt _ _ (by norm_num) (by norm_num))]
  norm_num

theorem clamp_scale_in : clamp_scale (f32 literal_005) = f32 literal_005 := by
  unfold clamp_scale
  rw [f32_literal_005, literal_095_eq]
  norm_num

theorem clamp_offset_in : clamp_offset (f32 literal_005) 0 = 0 := by
  unfold clamp_offset
  rw [f32_half_in]
  norm_num

theorem f64_out : f64 (f32 literal_005 - literal_005) = 53687091 / 72057594037927936 := by
  rw [f32_literal_005, literal_005_eq]
  unfold f64
  rw [round_binary_eq_of_pos 53 (-1022) (-31) _ 7205759376949248 (by norm_num) (by norm_num)
    (by norm_num) (round_even_eq_of_lt _ _ (by norm_num) (by norm_num))]
  norm_num

theorem f32_out :
    f32 (f64 (f32 literal_005 - literal_005)) = 13421773 / 18014398509481984 := by
  rw [f64_out]
  unfold f32
  rw [round_binary_eq_of_pos 24 (-126) (-31) _ 13421773 (by norm_num) (by norm_num)
    (by norm_num) (round_even_eq_of_lt _ _ (by norm_num) (by norm_num))]
  norm_num

theorem f32_half_out :
    f32 (f32 (f64 (f32 literal_005 - literal_005)) / 2) = 13421773 / 36028797018963968 := by
  rw [f32_out]
  unfold f32
  rw [round_binary_eq_of_pos 24 (-126) (-32) _ 13421773 (by norm_num) (by norm_num)
    (by norm_num) (round_even_eq_of_lt _ _ (by norm_num) (by norm_num))]
  norm_num

theorem f32_x_out :
    f32 (f32 (f32 (f64 (f32 literal_005 - literal_005)) / 2)) =
      13421773 / 36028797018963968 := by
  rw [f32_half_out]
  unfold f32
  rw [round_binary_eq_of_pos 24 (-126) (-32) _ 13421773 (by norm_num) (by norm_num)
    (by norm_num) (round_even_eq_of_lt _ _ (by norm_num) (by norm_num))]
  norm_num

theorem f32_w_out : f32 (1 - f32 (f64 (f32 literal_005 - literal_005))) = 1 := by
  rw [f32_out]
  unfold f32
  rw [round_binary_eq_of_pos 24 (-126) (-1) _ 16777216 (by norm_num) (by norm_num)
    (by norm_num) (round_even_eq_of_lt _ _ (by norm_num) (by norm_num))]
  norm_num

theorem clamp_scale_out :
    clamp_scale (f32 (f64 (f32 literal_005 - literal_005))) =
      f32 (f64 (f32 literal_005 - literal_005)) := by
  unfold clamp_scale
  rw [f32_out, literal_095_eq]
  norm_num

theorem clamp_offset_out :
    clamp_offset (f32 (f64 (f32 literal_005 - literal_005))) 0 = 0 := by
  unfold clamp_offset
  rw [f32_half_out]
  norm_num

/-- C2, the claim as worded fails on the values the loop emits. From the initial
variables, zoom-in then zoom-out (network lines `"w"` then `"s"`): `scale` becomes
`13421773 / 2 ^ 28`, then `13421773 / 2 ^ 54` and not 0, and the second crop rectangle
is `(13421773 / 2 ^ 55, 13421773 / 2 ^ 55, 1, 1)`, for which `x + w ≤ 1` does not
hold. -/
theorem crop_rectangle_valid_counterexample :
    crops (event_loop options_plain
        [(none, frame_input 7 [ch 'w'] 0), (none, frame_input 8 [ch 's'] 0)] init).trace =
      [(13421773 / 536870912, 13421773 / 536870912, 15938355 / 16777216,
          15938355 / 16777216),
        (13421773 / 36028797018963968, 13421773 / 36028797018963968, 1, 1)] ∧
    ¬ ((13421773 / 36028797018963968 : ℚ) + 1 ≤ 1) := by
  constructor
  · simp [event_loop, deliver, cycle, options_plain, frame_input, init, apply_command,
      get_key_or_signal, fallback, first_char, apply_key, clamp, crop_actions,
      focus_actions, should_stop, timeout, frameout, is_quit, isalpha, is_focus_key, ch,
      SIGINT, crops, incr_count, f64_literal_005, clamp_scale_in, clamp_offset_in, f32_x_in,
      f32_w_in, clamp_scale_out, clamp_offset_out, f32_x_out, f32_w_out]
  · norm_num

/-- The crop rectangle of the zoom-out that follows a zoom-in from the initial variables
is emitted and satisfies the bounds. -/
theorem crop_rectangle_valid_witness :
    Action.SetScalerCrop (13421773 / 36028797018963968) (13421773 / 36028797018963968) 1 1 ∈
        (cycle options_plain (frame_input 8 [ch 's'] 0) state_zoomed_in).trace ∧
      (0 ≤ (13421773 / 36028797018963968 : ℚ) ∧ (13421773 / 36028797018963968 : ℚ) ≤ 1 ∧
        0 ≤ (13421773 / 36028797018963968 : ℚ) ∧ (13421773 / 36028797018963968 : ℚ) ≤ 1 ∧
        0 < (1 : ℚ) ∧ (1 : ℚ) ≤ 1 ∧ 0 < (1 : ℚ) ∧ (1 : ℚ) ≤ 1) ∧
      (13421773 / 36028797018963968 : ℚ) + 1 ≤ 1 + 1 / 4194304 :=
  have hm : Action.SetScalerCrop (13421773 / 36028797018963968)
      (13421773 / 36028797018963968) 1 1 ∈
      (cycle options_plain (frame_input 8 [ch 's'] 0) state_zoomed_in).trace := by
    simp [cycle, options_plain, frame_input, state_zoomed_in, init, apply_command,
      get_key_or_signal, fallback, first_char, apply_key, clamp, crop_actions,
      focus_actions, should_stop, timeout, frameout, is_quit, isalpha, is_focus_key, ch,
      SIGINT, incr_count, Outcome.state, f64_literal_005, clamp_scale_in, clamp_offset_in,
      clamp_scale_out, clamp_offset_out, f32_x_out, f32_w_out]
  have h := crop_rectangle_valid options_plain (frame_input 8 [ch 's'] 0) state_zoomed_in
    _ _ _ _ hm
  ⟨hm, h.2.2.1, h.2.2.2.1⟩

end Vid.Binary32

/-! ## Command resolution -/

theorem first_char_eq (param : List Int) :
    first_char param = first_hit [source_network param] := by
  cases param <;> rfl

/-- C3 (as stated, refuted). In the video app with only the keypress source enabled, a
pending keypress line whose first character is NUL and the network line `"w"`: the loop
resolves `'w'`, first-hit resolution over the sources as the claim lists them gives
`0`. -/
theorem resolution_first_hit_counterexample :
    fallback (Vid.get_key_or_signal
        { keypress := true, signal := false, afMode_index := 1, frames := 0, timeout := 0 }
        0 (.line [0, ch '\n'])).1 [ch 'w'] = ch 'w' ∧
    first_hit [source_interrupt 0, source_signals_vid false 0,
        source_keypress true (.line [0, ch '\n']), source_network [ch 'w']] = 0 ∧
    fallback (Vid.get_key_or_signal
        { keypress := true, signal := false, afMode_index := 1, frames := 0, timeout := 0 }
        0 (.line [0, ch '\n'])).1 [ch 'w'] ≠
      first_hit [source_interrupt 0, source_signals_vid false 0,
        source_keypress true (.line [0, ch '\n']), source_network [ch 'w']] := by
  decide

theorem Vid.vid_resolution_eq (options : Vid.VideoOptions) (signal_received : Int)
    (stdin_line : Keypress) (param : List Int)
    (hread : stdin_line = .idle ∨ ∃ user_string, stdin_line = .line user_string) :
    fallback (Vid.get_key_or_signal options signal_received stdin_line).1 param =
      first_hit [source_interrupt signal_received,
        source_signals_vid options.signal signal_received,
        source_keypress_nonzero options.keypress stdin_line, source_network param] := by
  have hx : ch 'x' ≠ 0 := by decide
  have hn : ch '\n' ≠ 0 := by decide
  unfold Vid.get_key_or_signal source_interrupt source_signals_vid
    source_keypress_nonzero fallback
  rcases hread with rfl | ⟨user_string, rfl⟩ <;>
    cases options.keypress <;> cases options.signal <;>
    simp only [first_hit, first_char_eq] <;> split_ifs <;>
    simp_all [first_hit, first_char_eq]

theorem Hello.hello_resolution_eq (options : Hello.HelloOptions) (signal_received : Int)
    (stdin_line : Keypress) (param : List Int)
    (hread : stdin_line = .idle ∨ ∃ user_string, stdin_line = .line user_string) :
    fallback (Hello.get_key_or_signal options signal_received stdin_line).1 param =
      first_hit [source_signals options.signal signal_received,
        source_keypress_nonzero options.keypress stdin_line, source_network param] := by
  have hx : ch 'x' ≠ 0 := by decide
  have hn : ch '\n' ≠ 0 := by decide
  unfold Hello.get_key_or_signal source_signals source_keypress_nonzero fallback
  rcases hread with rfl | ⟨user_string, rfl⟩ <;>
    cases options.keypress <;> cases options.signal <;>
    simp only [first_hit, first_char_eq] <;> split_ifs <;>
    simp_all [first_hit, first_char_eq]

theorem Jpeg.jpeg_resolution_eq (options : Jpeg.StillOptions) (signal_received : Int)
    (stdin_line : Keypress) (param : List Int)
    (hread : stdin_line = .idle ∨ ∃ user_string, stdin_line = .line user_string) :
    fallback (Jpeg.get_key_or_signal options signal_received stdin_line).1 param =
      first_hit [source_signals options.signal signal_received,
        source_keypress_nonzero options.keypress stdin_line, source_network param] := by
  have hx : ch 'x' ≠ 0 := by decide
  have hn : ch '\n' ≠ 0 := by decide
  unfold Jpeg.get_key_or_signal source_signals source_keypress_nonzero fallback
  rcases hread with rfl | ⟨user_string, rfl⟩ <;>
    cases options.keypress <;> cases options.signal <;>
    simp only [first_hit, first_char_eq] <;> split_ifs <;>
    simp_all [first_hit, first_char_eq]

/-- C3 (amended). Whenever nothing is pending on standard input or `getline` reads a
line, command resolution by sequential overwrite equals first-hit resolution over the
ordered source list, in which the keypress source holds a command only when the first
character of the line read is not NUL. Video app: quit on `SIGINT`; else, with the
signal source enabled, confirm for `SIGUSR1` and quit for `SIGUSR2` or `SIGPIPE` (also
when a keypress was read); else the first character of the keypress line if that source
is enabled, a line was read and the character is not NUL; else the first character of
the network line; else none (`0`). Preview and still apps: the same without the `SIGINT`
and `SIGPIPE` cases. Nothing is stated for a call in which `getline` fails. -/
theorem resolution_first_hit (vid : Vid.VideoOptions) (hello : Hello.HelloOptions)
    (still : Jpeg.StillOptions) (signal_received : Int) (stdin_line : Keypress)
    (param : List Int)
    (hread : stdin_line = .idle ∨ ∃ user_string, stdin_line = .line user_string) :
    fallback (Vid.get_key_or_signal vid signal_received stdin_line).1 param =
      first_hit [source_interrupt signal_received,
        source_signals_vid vid.signal signal_received,
        source_keypress_nonzero vid.keypress stdin_line, source_network param] ∧
    fallback (Hello.get_key_or_signal hello signal_received stdin_line).1 param =
      first_hit [source_signals hello.signal signal_received,
        source_keypress_nonzero hello.keypress stdin_line, source_network param] ∧
    fallback (Jpeg.get_key_or_signal still signal_received stdin_line).1 param =
      first_hit [source_signals still.signal signal_received,
        source_keypress_nonzero still.keypress stdin_line, source_network param] :=
  ⟨Vid.vid_resolution_eq _ _ _ _ hread, Hello.hello_resolution_eq _ _ _ _ hread,
    Jpeg.jpeg_resolution_eq _ _ _ _ hread⟩

/-- A keypress line `"w"` with `SIGUSR2` pending, both sources enabled, and the network
line `"s"`: the three loops resolve what first-hit resolution gives. -/
theorem resolution_first_hit_witness :
    fallback (Vid.get_key_or_signal Vid.options_signal SIGUSR2
        (.line [ch 'w', ch '\n'])).1 [ch 's'] =
      first_hit [source_interrupt SIGUSR2, source_signals_vid true SIGUSR2,
        source_keypress_nonzero true (.line [ch 'w', ch '\n']), source_network [ch 's']] :=
  (resolution_first_hit Vid.options_signal Hello.options_signal Jpeg.options_signal SIGUSR2
    (.line [ch 'w', ch '\n']) [ch 's'] (Or.inr ⟨_, rfl⟩)).1

/-! ## Frame-count bound and termination of the video loop -/

theorem encoded_append (l1 l2 : List Action) :
    encoded (l1 ++ l2) = encoded l1 ++ encoded l2 := by
  induction l1 with
  | nil => rfl
  | cons a t ih => cases a <;> simp [encoded, ih]

theorem previewed_append (l1 l2 : List Action) :
    previewed (l1 ++ l2) = previewed l1 ++ previewed l2 := by
  induction l1 with
  | nil => rfl
  | cons a t ih => cases a <;> simp [previewed, ih]

theorem saved_append (l1 l2 : List Action) :
    saved (l1 ++ l2) = saved l1 ++ saved l2 := by
  induction l1 with
  | nil => rfl
  | cons a t ih => cases a <;> simp [saved, ih]

namespace Vid

theorem apply_key_count (key : Int) (st : State) : (apply_key key st).1.count = st.count := by
  simp only [apply_key, apply_ite Prod.fst, apply_ite State.count, ite_self]

theorem apply_command_count (options : VideoOptions) (inp : CycleInput) (st : State) :
    (apply_command options inp st).st.count = st.count := by
  simp only [apply_command, clamp, apply_key_count]

/-- Lines 114-226 forward no frame. -/
theorem apply_command_forwards (options : VideoOptions) (inp : CycleInput) (st : State) :
    encoded (apply_command options inp st).trace = [] ∧
    previewed (apply_command options inp st).trace = [] ∧
    saved (apply_command options inp st).trace = [] := by
  simp only [apply_command, encoded_append, previewed_append, saved_append,
    apply_key_trace, crop_actions, focus_actions]
  refine ⟨?_, ?_, ?_⟩ <;> split_ifs <;> rfl

/-- A `RequestComplete` iteration at which the condition of line 233 holds. -/
theorem cycle_stop (options : VideoOptions) (inp : CycleInput) (st : State)
    (hmsg : inp.msg.type = MsgType.RequestComplete)
    (hs : should_stop options st.count inp.elapsed (apply_command options inp st).key = true) :
    cycle options inp st =
      { trace := (apply_command options inp st).trace ++
          [Action.StopCamera, Action.StopEncoder],
        keys := [(apply_command options inp st).key],
        next := .terminated (apply_command options inp st).st } := by
  unfold cycle
  simp only [hmsg]
  rw [apply_command_count, if_pos hs]

/-- A `RequestComplete` iteration at which the condition of line 233 fails. -/
theorem cycle_forward (options : VideoOptions) (inp : CycleInput) (st : State)
    (hmsg : inp.msg.type = MsgType.RequestComplete)
    (hs : should_stop options st.count inp.elapsed (apply_command options inp st).key = false) :
    cycle options inp st =
      { trace := (apply_command options inp st).trace ++
          [Action.EncodeBuffer inp.msg.payload, Action.ShowPreview inp.msg.payload],
        keys := [(apply_command options inp st).key],
        next := .running { (apply_command options inp st).st with
          count := incr_count st.count } } := by
  unfold cycle
  simp only [hmsg]
  rw [apply_command_count, if_neg (by simp [hs])]

theorem event_loop_cons_running (options : VideoOptions) (e : Event) (rest : List Event)
    (st st1 : State) (h : (cycle options e.2 (deliver e.1 st)).next = .running st1) :
    event_loop options (e :: rest) st =
      { trace := (cycle options e.2 (deliver e.1 st)).trace ++
          (event_loop options rest st1).trace,
        keys := (cycle options e.2 (deliver e.1 st)).keys ++
          (event_loop options rest st1).keys,
        next := (event_loop options rest st1).next } := by
  simp only [event_loop, h]

theorem event_loop_cons_stopped (options : VideoOptions) (e : Event) (rest : List Event)
    (st : State) (h : (cycle options e.2 (deliver e.1 st)).next.is_running = false) :
    event_loop options (e :: rest) st = cycle options e.2 (deliver e.1 st) := by
  unfold event_loop
  dsimp only
  split
  · next st1 heq => simp [heq, Outcome.is_running] at h
  · next o hne => rfl

/-- The commands resolved by the first iteration are among those of the run. -/
theorem keys_cycle_subset (options : VideoOptions) (e : Event) (rest : List Event)
    (st : State) (k : Int) (hk : k ∈ (cycle options e.2 (deliver e.1 st)).keys) :
    k ∈ (event_loop options (e :: rest) st).keys := by
  unfold event_loop
  dsimp only
  split
  · exact List.mem_append_left _ hk
  · exact hk

theorem deliver_count (signal : Option Int) (st : State) :
    (deliver signal st).count = st.count := by
  cases signal <;> rfl

theorem vid_cycle_keys (options : VideoOptions) (inp : CycleInput) (st : State)
    (hmsg : inp.msg.type = MsgType.RequestComplete) :
    (cycle options inp st).keys = [(apply_command options inp st).key] := by
  unfold cycle
  simp only [hmsg]
  split <;> rfl

theorem should_stop_below (options : VideoOptions) (count : Nat) (elapsed key : Int)
    (hc : count < options.frames) (hk : is_quit key = false) :
    should_stop options count elapsed key = false := by
  have h0 : options.frames ≠ 0 := by omega
  simp [should_stop, timeout, frameout, hk, h0, hc]

theorem should_stop_reached (options : VideoOptions) (count : Nat) (elapsed key : Int)
    (h0 : options.frames ≠ 0) (hc : options.frames ≤ count) :
    should_stop options count elapsed key = true := by
  simp [should_stop, frameout, h0, hc]

theorem event_loop_append (options : VideoOptions) (l1 l2 : List Event) (st s1 : State)
    (h : (event_loop options l1 st).next = .running s1) :
    event_loop options (l1 ++ l2) st =
      { trace := (event_loop options l1 st).trace ++ (event_loop options l2 s1).trace,
        keys := (event_loop options l1 st).keys ++ (event_loop options l2 s1).keys,
        next := (event_loop options l2 s1).next } := by
  induction l1 generalizing st with
  | nil =>
    simp only [event_loop, Outcome.running.injEq] at h
    subst h
    simp [event_loop]
  | cons e rest ih =>
    cases hc : (cycle options e.2 (deliver e.1 st)).next with
    | running st1 =>
      rw [event_loop_cons_running options e rest st st1 hc] at h ⊢
      rw [List.cons_append, event_loop_cons_running options e (rest ++ l2) st st1 hc,
        ih st1 h]
      simp
    | terminated st1 =>
      rw [event_loop_cons_stopped options e rest st (by rw [hc]; rfl), hc] at h
      cases h
    | raised st1 =>
      rw [event_loop_cons_stopped options e rest st (by rw [hc]; rfl), hc] at h
      cases h

/-- While the counter stays below the frame-count bound and no quit is resolved, every
`RequestComplete` iteration forwards its frame and the loop keeps looping. -/
theorem event_loop_forward (options : VideoOptions) (events tail : List Event) (st : State)
    (hfr : options.frames < 2 ^ 32)
    (hall : ∀ e ∈ events, e.2.msg.type = MsgType.RequestComplete)
    (hcount : st.count + events.length ≤ options.frames)
    (hnq : ∀ k ∈ (event_loop options (events ++ tail) st).keys, is_quit k = false) :
    ∃ s, (event_loop options events st).next = .running s ∧
      s.count = st.count + events.length ∧
      encoded (event_loop options events st).trace = events.map (fun e => e.2.msg.payload) ∧
      previewed (event_loop options events st).trace =
        events.map (fun e => e.2.msg.payload) := by
  induction events generalizing st with
  | nil => exact ⟨st, rfl, rfl, rfl, rfl⟩
  | cons e rest ih =>
    have hmsg : e.2.msg.type = MsgType.RequestComplete := hall e (List.mem_cons_self _ _)
    have hlen : st.count + (rest.length + 1) ≤ options.frames := by
      simpa using hcount
    have hkey : is_quit (apply_command options e.2 (deliver e.1 st)).key = false := by
      apply hnq
      rw [List.cons_append]
      apply keys_cycle_subset
      rw [vid_cycle_keys options e.2 _ hmsg]
      exact List.mem_singleton_self _
    have hs := should_stop_below options (deliver e.1 st).count e.2.elapsed _
      (by rw [deliver_count]; omega) hkey
    have hcyc := cycle_forward options e.2 (deliver e.1 st) hmsg hs
    have hnext : (cycle options e.2 (deliver e.1 st)).next =
        .running { (apply_command options e.2 (deliver e.1 st)).st with
          count := incr_count (deliver e.1 st).count } := by
      rw [hcyc]
    have hcnt : incr_count (deliver e.1 st).count = st.count + 1 := by
      rw [deliver_count]
      unfold incr_count
      exact Nat.mod_eq_of_lt (by omega)
    obtain ⟨s, h1, h2, h3, h4⟩ := ih
      { (apply_command options e.2 (deliver e.1 st)).st with
          count := incr_count (deliver e.1 st).count }
      (fun e1 he1 => hall e1 (List.mem_cons_of_mem _ he1))
      (by
        show incr_count (deliver e.1 st).count + rest.length ≤ options.frames
        rw [hcnt]
        omega)
      (by
        intro k hk
        apply hnq
        rw [List.cons_append, event_loop_cons_running options e (rest ++ tail) st _ hnext]
        exact List.mem_append_right _ hk)
    obtain ⟨f1, f2, _⟩ := apply_command_forwards options e.2 (deliver e.1 st)
    refine ⟨s, ?_, ?_, ?_, ?_⟩
    · rw [event_loop_cons_running options e rest st _ hnext]
      exact h1
    · rw [h2]
      show incr_count (deliver e.1 st).count + rest.length = st.count + (rest.length + 1)
      rw [hcnt]
      omega
    · rw [event_loop_cons_running options e rest st _ hnext]
      simp only [encoded_append, h3, hcyc, f1, List.map_cons]
      rfl
    · rw [event_loop_cons_running options e rest st _ hnext]
      simp only [previewed_append, h4, hcyc, f2, List.map_cons]
      rfl

/-- C4. Frame-count bound in the video loop. With a frame-count bound `N ≥ 1`
configured (`frames` is an `unsigned int`, so `N < 2^32`), whatever the timeout option
is, on `N + 1` events that are all `RequestComplete` and during which no quit command is
resolved: the frames passed to `EncodeBuffer` are exactly those of the first `N` events,
in order, and so are the frames passed to `ShowPreview`; the loop is still looping after
the first `N` events; the iteration of the `(N+1)`-th event forwards no frame and
returns. -/
theorem frame_count_bound (options : VideoOptions) (N : Nat) (events : List Event)
    (st : State) (hN : 1 ≤ N) (hN32 : N < 2 ^ 32) (hfr : options.frames = N)
    (hc : st.count = 0) (hlen : events.length = N + 1)
    (hall : ∀ e ∈ events, e.2.msg.type = MsgType.RequestComplete)
    (hnq : ∀ k ∈ (event_loop options events st).keys, is_quit k = false) :
    encoded (event_loop options events st).trace =
      (events.take N).map (fun e => e.2.msg.payload) ∧
    previewed (event_loop options events st).trace =
      (events.take N).map (fun e => e.2.msg.payload) ∧
    (event_loop options events st).next.is_terminated = true ∧
    ∃ s, (event_loop options (events.take N) st).next = .running s ∧
      ∀ e ∈ events.drop N,
        encoded (cycle options e.2 (deliver e.1 s)).trace = [] ∧
        previewed (cycle options e.2 (deliver e.1 s)).trace = [] ∧
        (cycle options e.2 (deliver e.1 s)).next.is_terminated = true := by
  have hsplit : events.take N ++ events.drop N = events := List.take_append_drop N events
  have hlt : (events.take N).length = N := by
    rw [List.length_take, hlen]
    omega
  obtain ⟨s, h1, h2, h3, h4⟩ := event_loop_forward options (events.take N) (events.drop N) st
    (by omega)
    (fun e he => hall e (List.mem_of_mem_take he))
    (by rw [hlt, hc, hfr]; omega)
    (by rw [hsplit]; exact hnq)
  have hsc : s.count = N := by rw [h2, hlt, hc]; omega
  have hlast : ∀ e ∈ events.drop N, cycle options e.2 (deliver e.1 s) =
      { trace := (apply_command options e.2 (deliver e.1 s)).trace ++
          [Action.StopCamera, Action.StopEncoder],
        keys := [(apply_command options e.2 (deliver e.1 s)).key],
        next := .terminated (apply_command options e.2 (deliver e.1 s)).st } := by
    intro e he
    apply cycle_stop options e.2 (deliver e.1 s) (hall e (List.mem_of_mem_drop he))
    apply should_stop_reached
    · omega
    · rw [deliver_count, hsc, hfr]
  have hfinal : ∀ e ∈ events.drop N,
      encoded (cycle options e.2 (deliver e.1 s)).trace = [] ∧
      previewed (cycle options e.2 (deliver e.1 s)).trace = [] ∧
      (cycle options e.2 (deliver e.1 s)).next.is_terminated = true := by
    intro e he
    obtain ⟨f1, f2, _⟩ := apply_command_forwards options e.2 (deliver e.1 s)
    rw [hlast e he]
    simp only [encoded_append, previewed_append, f1, f2]
    exact ⟨rfl, rfl, rfl⟩
  have hdl : (events.drop N).length = 1 := by
    rw [List.length_drop, hlen]
    omega
  obtain ⟨e, he⟩ := List.length_eq_one.mp hdl
  have hmem : e ∈ events.drop N := by rw [he]; exact List.mem_singleton_self _
  obtain ⟨g1, g2, g3⟩ := hfinal e hmem
  have hrun : event_loop options (events.drop N) s = cycle options e.2 (deliver e.1 s) := by
    rw [he]
    apply event_loop_cons_stopped
    rw [hlast e hmem]
    rfl
  have hwhole := event_loop_append options (events.take N) (events.drop N) st s h1
  rw [hsplit, hrun] at hwhole
  refine ⟨?_, ?_, ?_, s, h1, hfinal⟩
  · rw [hwhole]
    simp only [encoded_append, h3, g1, List.append_nil]
  · rw [hwhole]
    simp only [previewed_append, h4, g2, List.append_nil]
  · rw [hwhole]
    exact g3

/-- With a bound of one frame and two frames delivered, frame `7` is forwarded and the
second iteration returns. -/
theorem frame_count_bound_witness :
    encoded (event_loop options_one_frame [frame_event 7 0, frame_event 8 1] init).trace =
      [7] ∧
    previewed (event_loop options_one_frame [frame_event 7 0, frame_event 8 1] init).trace =
      [7] ∧
    (event_loop options_one_frame [frame_event 7 0, frame_event 8 1] init).next.is_terminated
      = true :=
  have h := frame_count_bound options_one_frame 1 [frame_event 7 0, frame_event 8 1] init
    (by decide) (by decide) rfl rfl rfl
    (by simp [frame_event])
    (by
      simp [event_loop, cycle, deliver, frame_event, options_one_frame, init, apply_command,
        get_key_or_signal, fallback, first_char, should_stop, timeout, frameout, is_quit,
        apply_key, incr_count, clamp, ch, SIGINT])
  ⟨h.1, h.2.1, h.2.2.1⟩

theorem cycle_terminated_iff (options : VideoOptions) (inp : CycleInput) (st : State)
    (hmsg : inp.msg.type = MsgType.RequestComplete) :
    (cycle options inp st).next.is_terminated =
      should_stop options st.count inp.elapsed (apply_command options inp st).key := by
  cases hs : should_stop options st.count inp.elapsed (apply_command options inp st).key
  · rw [cycle_forward options inp st hmsg hs]
    rfl
  · rw [cycle_stop options inp st hmsg hs]
    rfl

/-- C5. Termination policy of the video loop. On a `RequestComplete` iteration whose
resolved command is not quit: if a frame-count bound is configured (`frames ≠ 0`) the
loop returns iff `count ≥ frames`, whatever the timeout option and the elapsed time;
otherwise, if a wall-clock bound is configured (`timeout ≠ 0`), it returns iff the
elapsed time is strictly greater than the bound; with neither bound it does not
return. -/
theorem termination_policy (options : VideoOptions) (inp : CycleInput) (st : State)
    (hmsg : inp.msg.type = MsgType.RequestComplete)
    (hk : ∀ k ∈ (cycle options inp st).keys, is_quit k = false) :
    (options.frames ≠ 0 →
      ((cycle options inp st).next.is_terminated = true ↔ st.count ≥ options.frames)) ∧
    (options.frames = 0 → options.timeout ≠ 0 →
      ((cycle options inp st).next.is_terminated = true ↔
        inp.elapsed > options.timeout)) ∧
    (options.frames = 0 → options.timeout = 0 →
      (cycle options inp st).next.is_terminated = false) := by
  have hq : is_quit (apply_command options inp st).key = false := by
    apply hk
    rw [vid_cycle_keys options inp st hmsg]
    exact List.mem_singleton_self _
  rw [cycle_terminated_iff options inp st hmsg]
  refine ⟨?_, ?_, ?_⟩
  · intro h0
    simp [should_stop, timeout, frameout, hq, h0]
  · intro h0 ht
    simp [should_stop, timeout, frameout, hq, h0, ht]
  · intro h0 ht
    simp [should_stop, timeout, frameout, hq, h0, ht]

/-- With a bound of one frame, the first iteration returns iff `0 ≥ 1`. -/
theorem termination_policy_witness :
    ((cycle options_one_frame (frame_input 7 [] 0) init).next.is_terminated = true ↔
      init.count ≥ options_one_frame.frames) :=
  (termination_policy options_one_frame (frame_input 7 [] 0) init rfl
    (by
      simp [cycle, frame_input, options_one_frame, init, apply_command,
        get_key_or_signal, fallback, first_char, should_stop, timeout, frameout, is_quit,
        apply_key, incr_count, clamp, ch, SIGINT])).1 (by decide)

end Vid

/-! ## Quit command -/

theorem is_quit_iff (key : Int) : is_quit key = true ↔ key = ch 'x' ∨ key = ch 'X' := by
  simp [is_quit]

theorem Vid.vid_cycle_quit (options : Vid.VideoOptions) (inp : CycleInput) (st : Vid.State)
    (hmsg : inp.msg.type = MsgType.RequestComplete)
    (hk : ∃ k ∈ (Vid.cycle options inp st).keys, is_quit k = true) :
    (Vid.cycle options inp st).next.is_terminated = true ∧
    previewed (Vid.cycle options inp st).trace = [] ∧
    encoded (Vid.cycle options inp st).trace = [] ∧
    saved (Vid.cycle options inp st).trace = [] := by
  obtain ⟨k, hmem, hq⟩ := hk
  rw [Vid.vid_cycle_keys options inp st hmsg, List.mem_singleton] at hmem
  subst hmem
  have hs : Vid.should_stop options st.count inp.elapsed
      (Vid.apply_command options inp st).key = true := by
    simp [Vid.should_stop, hq]
  obtain ⟨f1, f2, f3⟩ := Vid.apply_command_forwards options inp st
  rw [Vid.cycle_stop options inp st hmsg hs]
  simp only [encoded_append, previewed_append, saved_append, f1, f2, f3]
  exact ⟨rfl, rfl, rfl, rfl⟩

theorem Hello.hello_cycle_keys (options : Hello.HelloOptions) (inp : CycleInput)
    (st : Hello.State) (hmsg : inp.msg.type = MsgType.RequestComplete) :
    (Hello.cycle options inp st).keys =
      [fallback (Hello.get_key_or_signal options st.signal_received inp.stdin_line).1
        inp.param] := by
  unfold Hello.cycle
  simp only [hmsg]
  split_ifs <;> rfl

theorem Hello.hello_cycle_quit (options : Hello.HelloOptions) (inp : CycleInput)
    (st : Hello.State) (hmsg : inp.msg.type = MsgType.RequestComplete)
    (hk : ∃ k ∈ (Hello.cycle options inp st).keys, is_quit k = true) :
    (Hello.cycle options inp st).next.is_terminated = true ∧
    (Hello.cycle options inp st).trace = [] := by
  obtain ⟨k, hmem, hq⟩ := hk
  rw [Hello.hello_cycle_keys options inp st hmsg, List.mem_singleton] at hmem
  subst hmem
  rw [is_quit_iff] at hq
  unfold Hello.cycle
  simp only [hmsg]
  rw [if_pos hq]
  exact ⟨rfl, rfl⟩

theorem Jpeg.jpeg_cycle_keys (options : Jpeg.StillOptions) (inp : CycleInput)
    (st : Jpeg.State) (hmsg : inp.msg.type = MsgType.RequestComplete) :
    (Jpeg.cycle options inp st).keys =
      [fallback (Jpeg.get_key_or_signal options st.signal_received inp.stdin_line).1
        inp.param] := by
  unfold Jpeg.cycle
  simp only [hmsg]
  split_ifs <;> first | rfl | (split <;> rfl)

theorem Jpeg.jpeg_cycle_quit (options : Jpeg.StillOptions) (inp : CycleInput)
    (st : Jpeg.State) (hmsg : inp.msg.type = MsgType.RequestComplete)
    (hk : ∃ k ∈ (Jpeg.cycle options inp st).keys, is_quit k = true) :
    (Jpeg.cycle options inp st).next.is_terminated = true ∧
    (Jpeg.cycle options inp st).trace = [] := by
  obtain ⟨k, hmem, hq⟩ := hk
  rw [Jpeg.jpeg_cycle_keys options inp st hmsg, List.mem_singleton] at hmem
  subst hmem
  rw [is_quit_iff] at hq
  unfold Jpeg.cycle
  simp only [hmsg]
  rw [if_pos hq]
  exact ⟨rfl, rfl⟩

/-- C6. A resolved quit command ends the loop in the same iteration and supersedes both
bounds. In each of the three apps, for every loop state, every configuration of the
bounds and every elapsed time, a `RequestComplete` iteration whose resolved command is
`'x'` or `'X'` (from whichever source) returns from the loop, and performs no
`ShowPreview`, no `EncodeBuffer` and no `jpeg_save`. -/
theorem quit_terminates (vid : Vid.VideoOptions) (hello : Hello.HelloOptions)
    (still : Jpeg.StillOptions) (iv ih ij : CycleInput) (sv : Vid.State)
    (sh : Hello.State) (sj : Jpeg.State)
    (hmv : iv.msg.type = MsgType.RequestComplete)
    (hkv : ∃ k ∈ (Vid.cycle vid iv sv).keys, is_quit k = true)
    (hmh : ih.msg.type = MsgType.RequestComplete)
    (hkh : ∃ k ∈ (Hello.cycle hello ih sh).keys, is_quit k = true)
    (hmj : ij.msg.type = MsgType.RequestComplete)
    (hkj : ∃ k ∈ (Jpeg.cycle still ij sj).keys, is_quit k = true) :
    ((Vid.cycle vid iv sv).next.is_terminated = true ∧
      previewed (Vid.cycle vid iv sv).trace = [] ∧
      encoded (Vid.cycle vid iv sv).trace = [] ∧
      saved (Vid.cycle vid iv sv).trace = []) ∧
    ((Hello.cycle hello ih sh).next.is_terminated = true ∧
      previewed (Hello.cycle hello ih sh).trace = [] ∧
      encoded (Hello.cycle hello ih sh).trace = [] ∧
      saved (Hello.cycle hello ih sh).trace = []) ∧
    ((Jpeg.cycle still ij sj).next.is_terminated = true ∧
      previewed (Jpeg.cycle still ij sj).trace = [] ∧
      encoded (Jpeg.cycle still ij sj).trace = [] ∧
      saved (Jpeg.cycle still ij sj).trace = []) := by
  obtain ⟨h1, h2⟩ := Hello.hello_cycle_quit hello ih sh hmh hkh
  obtain ⟨j1, j2⟩ := Jpeg.jpeg_cycle_quit still ij sj hmj hkj
  refine ⟨Vid.vid_cycle_quit vid iv sv hmv hkv, ⟨h1, ?_, ?_, ?_⟩, ⟨j1, ?_, ?_, ?_⟩⟩ <;>
    simp only [h2, j2] <;> rfl

/-- A quit command from the network on the first frame ends each of the three loops. -/
theorem quit_terminates_witness :
    (Vid.cycle Vid.options_plain (frame_input 7 [ch 'x'] 0) Vid.init).next.is_terminated
      = true ∧
    (Hello.cycle Hello.options_plain (frame_input 7 [ch 'X'] 0) Hello.init).next.is_terminated
      = true ∧
    (Jpeg.cycle Jpeg.options_plain (frame_input 7 [ch 'x'] 0) Jpeg.init).next.is_terminated
      = true :=
  have h := quit_terminates Vid.options_plain Hello.options_plain Jpeg.options_plain
    (frame_input 7 [ch 'x'] 0) (frame_input 7 [ch 'X'] 0) (frame_input 7 [ch 'x'] 0)
    Vid.init Hello.init Jpeg.init rfl
    ⟨ch 'x', by
      simp [Vid.vid_cycle_keys, Vid.apply_command, frame_input, Vid.options_plain, Vid.init,
        Vid.get_key_or_signal, fallback, first_char, ch, SIGINT], by decide⟩
    rfl
    ⟨ch 'X', by
      simp [Hello.hello_cycle_keys, frame_input, Hello.options_plain, Hello.init,
        Hello.get_key_or_signal, fallback, first_char, ch], by decide⟩
    rfl
    ⟨ch 'x', by
      simp [Jpeg.jpeg_cycle_keys, frame_input, Jpeg.options_plain, Jpeg.init,
        Jpeg.get_key_or_signal, fallback, first_char, ch], by decide⟩
  ⟨h.1.1, h.2.1.1, h.2.2.1⟩

/-! ## Shutdown order of the video loop -/

namespace Vid

/-- Lines 114-226 stop neither the camera nor the encoder. -/
theorem apply_command_no_stop (options : VideoOptions) (inp : CycleInput) (st : State) :
    Action.StopCamera ∉ (apply_command options inp st).trace ∧
    Action.StopEncoder ∉ (apply_command options inp st).trace := by
  simp only [apply_command, List.mem_append, apply_key_trace, crop_actions, focus_actions]
  constructor <;> split_ifs <;> simp

theorem once_in_order_append (a b : Action) (pre : List Action) (hab : a ≠ b)
    (ha : a ∉ pre) (hb : b ∉ pre) : once_in_order a b (pre ++ [a, b]) := by
  refine ⟨?_, ?_, ?_⟩
  · rw [List.count_append, List.count_eq_zero_of_not_mem ha]
    simp [List.count_cons, hab.symm]
  · rw [List.count_append, List.count_eq_zero_of_not_mem hb]
    simp [List.count_cons, hab]
  · rw [List.indexOf_append_of_not_mem ha, List.indexOf_append_of_not_mem hb,
      List.indexOf_cons_self, List.indexOf_cons_ne _ hab, List.indexOf_cons_self]
    omega

/-- C7 (as stated, refuted). A quit command from the network on the first frame: the
iteration returns with trace `PrintScale, SetScalerCrop, StopCamera, StopEncoder`, in
which `StopEncoder` does not come before `StopCamera`. -/
theorem shutdown_order_counterexample :
    (cycle options_plain (frame_input 7 [ch 'x'] 0) init).next.is_terminated = true ∧
    (cycle options_plain (frame_input 7 [ch 'x'] 0) init).trace =
      [Action.PrintScale 0 0, Action.SetScalerCrop 0 0 1 1, Action.StopCamera,
        Action.StopEncoder] ∧
    ¬ once_in_order Action.StopEncoder Action.StopCamera
      (cycle options_plain (frame_input 7 [ch 'x'] 0) init).trace := by
  have ht : (cycle options_plain (frame_input 7 [ch 'x'] 0) init).trace =
      [Action.PrintScale 0 0, Action.SetScalerCrop 0 0 1 1, Action.StopCamera,
        Action.StopEncoder] := by
    simp [cycle, options_plain, frame_input, init, apply_command, get_key_or_signal,
      fallback, first_char, apply_key, clamp, clamp_scale, clamp_offset, crop_actions,
      focus_actions, should_stop, timeout, frameout, is_quit, isalpha, is_focus_key, ch,
      SIGINT]
    norm_num
  refine ⟨?_, ht, ?_⟩
  · simp [cycle, options_plain, frame_input, init, apply_command, get_key_or_signal,
      fallback, first_char, apply_key, should_stop, timeout, frameout, is_quit, ch,
      SIGINT, Outcome.is_terminated]
  · rw [ht]
    simp [once_in_order, List.indexOf_cons]

/-- C7 (amended). Shutdown order of the video app: every `RequestComplete` iteration
that returns from the loop (termination policy or resolved quit command) has
`StopCamera` and `StopEncoder` exactly once each in its trace, `StopCamera` before
`StopEncoder`; they are its last two actions. -/
theorem shutdown_order (options : VideoOptions) (inp : CycleInput) (st : State)
    (hmsg : inp.msg.type = MsgType.RequestComplete)
    (hterm : (cycle options inp st).next.is_terminated = true) :
    once_in_order Action.StopCamera Action.StopEncoder (cycle options inp st).trace ∧
    ∃ before, (cycle options inp st).trace =
      before ++ [Action.StopCamera, Action.StopEncoder] := by
  rw [cycle_terminated_iff options inp st hmsg] at hterm
  rw [cycle_stop options inp st hmsg hterm]
  obtain ⟨h1, h2⟩ := apply_command_no_stop options inp st
  exact ⟨once_in_order_append _ _ _ (by decide) h1 h2, _, rfl⟩

/-- A quit command from the network on the first frame stops the camera, then the
encoder. -/
theorem shutdown_order_witness :
    once_in_order Action.StopCamera Action.StopEncoder
      (cycle options_plain (frame_input 7 [ch 'x'] 0) init).trace :=
  (shutdown_order options_plain (frame_input 7 [ch 'x'] 0) init rfl
    (by
      simp [cycle, options_plain, frame_input, init, apply_command, get_key_or_signal,
        fallback, first_char, apply_key, should_stop, timeout, frameout, is_quit, ch,
        SIGINT, Outcome.is_terminated])).1

end Vid

/-! ## Device fault recovery -/

theorem Vid.vid_cycle_timeout (options : Vid.VideoOptions) (inp : CycleInput) (st : Vid.State)
    (hmsg : inp.msg.type = MsgType.Timeout) :
    Vid.cycle options inp st =
      { trace := [Action.StopCamera, Action.StartCamera], keys := [],
        next := .running { st with count := incr_count st.count } } := by
  unfold Vid.cycle
  simp only [hmsg]

theorem Hello.hello_cycle_timeout (options : Hello.HelloOptions) (inp : CycleInput)
    (st : Hello.State) (hmsg : inp.msg.type = MsgType.Timeout) :
    Hello.cycle options inp st =
      { trace := [Action.StopCamera, Action.StartCamera], keys := [],
        next := .running { st with count := incr_count st.count } } := by
  unfold Hello.cycle
  simp only [hmsg]

theorem Jpeg.jpeg_cycle_timeout (options : Jpeg.StillOptions) (inp : CycleInput)
    (st : Jpeg.State) (hmsg : inp.msg.type = MsgType.Timeout) :
    Jpeg.cycle options inp st =
      { trace := [Action.StopCamera, Action.StartCamera], keys := [],
        next := .running st } := by
  unfold Jpeg.cycle
  simp only [hmsg]

/-- C8, divergence of the code from the claim. Video loop with a frame-count bound of one
frame (`--frames 1`), no command from any source. A `Timeout` iteration from the initial
variables leaves `count = 1` and not `0`: its `continue` statement runs the `count++` of
the `for` statement, although no frame was handled. The next iteration, which receives
frame `7`, therefore finds `count >= frames`, stops the camera and the encoder and
returns: no frame is encoded or previewed. Without the `Timeout` iteration the same frame
is encoded and previewed. -/
theorem fault_recovery_divergence :
    (Vid.cycle Vid.options_one_frame timeout_input Vid.init).trace =
      [Action.StopCamera, Action.StartCamera] ∧
    Vid.init.count = 0 ∧
    (Vid.cycle Vid.options_one_frame timeout_input Vid.init).next.state.count = 1 ∧
    (Vid.event_loop Vid.options_one_frame [(none, timeout_input), Vid.frame_event 7 0]
        Vid.init).trace =
      [Action.StopCamera, Action.StartCamera, Action.StopCamera, Action.StopEncoder] ∧
    (Vid.event_loop Vid.options_one_frame [(none, timeout_input), Vid.frame_event 7 0]
        Vid.init).next.is_terminated = true ∧
    (Vid.event_loop Vid.options_one_frame [Vid.frame_event 7 0] Vid.init).trace =
      [Action.EncodeBuffer 7, Action.ShowPreview 7] ∧
    (Vid.event_loop Vid.options_one_frame [Vid.frame_event 7 0] Vid.init).next.is_running =
      true := by
  refine ⟨?_, rfl, ?_, ?_, ?_, ?_, ?_⟩
  · rw [Vid.vid_cycle_timeout _ _ _ rfl]
  · rw [Vid.vid_cycle_timeout _ _ _ rfl]
    rfl
  all_goals
    simp [Vid.event_loop, Vid.cycle, Vid.deliver, timeout_input, Vid.frame_event,
      Vid.options_one_frame, Vid.init, Vid.apply_command, Vid.get_key_or_signal, fallback,
      first_char, Vid.should_stop, Vid.timeout, Vid.frameout, is_quit, isalpha,
      is_focus_key, Vid.apply_key, Vid.crop_actions, Vid.focus_actions, incr_count,
      Vid.clamp, Vid.clamp_scale, Vid.clamp_offset, ch, SIGINT, Outcome.is_terminated,
      Outcome.is_running]

theorem Vid.vid_event_loop_timeouts (options : Vid.VideoOptions) (events : List Event)
    (st : Vid.State) (hall : ∀ e ∈ events, e.2.msg.type = MsgType.Timeout) :
    (Vid.event_loop options events st).next.is_running = true ∧
    (Vid.event_loop options events st).keys = [] ∧
    (Vid.event_loop options events st).trace = restarts events.length := by
  induction events generalizing st with
  | nil => exact ⟨rfl, rfl, rfl⟩
  | cons e rest ih =>
    have hc := Vid.vid_cycle_timeout options e.2 (Vid.deliver e.1 st)
      (hall e (List.mem_cons_self _ _))
    obtain ⟨h1, h2, h3⟩ := ih { Vid.deliver e.1 st with
        count := incr_count (Vid.deliver e.1 st).count }
      (fun e1 he1 => hall e1 (List.mem_cons_of_mem _ he1))
    simp only [Vid.event_loop, hc, h1, h2, h3, List.length_cons, restarts]
    exact ⟨trivial, rfl, rfl⟩

theorem Hello.hello_event_loop_timeouts (options : Hello.HelloOptions) (events : List Event)
    (st : Hello.State) (hall : ∀ e ∈ events, e.2.msg.type = MsgType.Timeout) :
    (Hello.event_loop options events st).next.is_running = true ∧
    (Hello.event_loop options events st).keys = [] ∧
    (Hello.event_loop options events st).trace = restarts events.length := by
  induction events generalizing st with
  | nil => exact ⟨rfl, rfl, rfl⟩
  | cons e rest ih =>
    have hc := Hello.hello_cycle_timeout options e.2 (Hello.deliver e.1 st)
      (hall e (List.mem_cons_self _ _))
    obtain ⟨h1, h2, h3⟩ := ih { Hello.deliver e.1 st with
        count := incr_count (Hello.deliver e.1 st).count }
      (fun e1 he1 => hall e1 (List.mem_cons_of_mem _ he1))
    simp only [Hello.event_loop, hc, h1, h2, h3, List.length_cons, restarts]
    exact ⟨trivial, rfl, rfl⟩

theorem Jpeg.jpeg_event_loop_timeouts (options : Jpeg.StillOptions) (events : List Event)
    (st : Jpeg.State) (hall : ∀ e ∈ events, e.2.msg.type = MsgType.Timeout) :
    (Jpeg.event_loop options events st).next.is_running = true ∧
    (Jpeg.event_loop options events st).keys = [] ∧
    (Jpeg.event_loop options events st).trace = restarts events.length := by
  induction events generalizing st with
  | nil => exact ⟨rfl, rfl, rfl⟩
  | cons e rest ih =>
    have hc := Jpeg.jpeg_cycle_timeout options e.2 (Jpeg.deliver e.1 st)
      (hall e (List.mem_cons_self _ _))
    obtain ⟨h1, h2, h3⟩ := ih (Jpeg.deliver e.1 st)
      (fun e1 he1 => hall e1 (List.mem_cons_of_mem _ he1))
    simp only [Jpeg.event_loop, hc, h1, h2, h3, List.length_cons, restarts]
    exact ⟨trivial, rfl, rfl⟩

/-- C9. Loop liveness under persistent fault. In each of the three apps, for every `n`,
every loop state, every configuration and whatever signals and commands are pending,
after `n` consecutive `Timeout` events the loop is still looping (it has neither
returned nor thrown) and the trace of those `n` iterations is exactly `n` repetitions of
`StopCamera`, `StartCamera`. -/
theorem restart_liveness (vid : Vid.VideoOptions) (hello : Hello.HelloOptions)
    (still : Jpeg.StillOptions) (events : List Event) (sv : Vid.State) (sh : Hello.State)
    (sj : Jpeg.State) (hall : ∀ e ∈ events, e.2.msg.type = MsgType.Timeout) :
    ((Vid.event_loop vid events sv).next.is_running = true ∧
      (Vid.event_loop vid events sv).trace = restarts events.length) ∧
    ((Hello.event_loop hello events sh).next.is_running = true ∧
      (Hello.event_loop hello events sh).trace = restarts events.length) ∧
    ((Jpeg.event_loop still events sj).next.is_running = true ∧
      (Jpeg.event_loop still events sj).trace = restarts events.length) :=
  ⟨⟨(Vid.vid_event_loop_timeouts vid events sv hall).1,
      (Vid.vid_event_loop_timeouts vid events sv hall).2.2⟩,
    ⟨(Hello.hello_event_loop_timeouts hello events sh hall).1,
      (Hello.hello_event_loop_timeouts hello events sh hall).2.2⟩,
    ⟨(Jpeg.jpeg_event_loop_timeouts still events sj hall).1,
      (Jpeg.jpeg_event_loop_timeouts still events sj hall).2.2⟩⟩

/-- Two `Timeout` events, the first with `SIGUSR2` delivered: two restarts, still
looping. -/
theorem restart_liveness_witness :
    (Vid.event_loop Vid.options_one_frame
        [(some SIGUSR2, timeout_input), (none, timeout_input)] Vid.init).trace =
      [Action.StopCamera, Action.StartCamera, Action.StopCamera, Action.StartCamera] ∧
    (Jpeg.event_loop Jpeg.options_plain
        [(some SIGUSR2, timeout_input), (none, timeout_input)] Jpeg.init).next.is_running
      = true :=
  have h := restart_liveness Vid.options_one_frame Hello.options_plain Jpeg.options_plain
    [(some SIGUSR2, timeout_input), (none, timeout_input)] Vid.init Hello.init Jpeg.init
    (by simp [timeout_input])
  ⟨h.1.2, h.2.2.1⟩

/-! ## Consumption of the pending signal -/

/-- C10 (as stated, refuted). In the video app a pending `SIGINT` returns quit and
leaves `signal_received = SIGINT`; a second call with no new delivery and no keypress
input returns quit again. -/
theorem signal_consumed_counterexample :
    Vid.get_key_or_signal Vid.options_plain SIGINT .idle = (ch 'x', SIGINT) ∧
    (Vid.get_key_or_signal Vid.options_plain SIGINT .idle).2 ≠ 0 ∧
    (Vid.get_key_or_signal Vid.options_plain
      (Vid.get_key_or_signal Vid.options_plain SIGINT .idle).2 .idle).1 = ch 'x' ∧
    ch 'x' ≠ 0 := by
  decide

theorem Vid.vid_signal_consumed (options : Vid.VideoOptions) (signal_received : Int)
    (stdin_line : Keypress) (hs : options.signal = true)
    (hsig : signal_received = SIGUSR1 ∨ signal_received = SIGUSR2 ∨
      signal_received = SIGPIPE) :
    (Vid.get_key_or_signal options signal_received stdin_line).1 =
      (if signal_received = SIGUSR1 then ch '\n' else ch 'x') ∧
    (Vid.get_key_or_signal options signal_received stdin_line).2 = 0 ∧
    (Vid.get_key_or_signal options
      (Vid.get_key_or_signal options signal_received stdin_line).2 .idle).1 = 0 := by
  have hne : signal_received ≠ SIGINT := by
    rcases hsig with h | h | h <;> rw [h] <;> decide
  have h2 : (Vid.get_key_or_signal options signal_received stdin_line).2 = 0 := by
    simp [Vid.get_key_or_signal, hne, hs]
  refine ⟨?_, h2, ?_⟩
  · rcases hsig with h | h | h <;> subst h <;>
      simp [Vid.get_key_or_signal, hs, SIGINT, SIGUSR1, SIGUSR2, SIGPIPE]
  · rw [h2]
    simp [Vid.get_key_or_signal, hs, SIGINT, SIGUSR1, SIGUSR2, SIGPIPE]

theorem Hello.hello_signal_consumed (options : Hello.HelloOptions) (signal_received : Int)
    (stdin_line : Keypress) (hs : options.signal = true)
    (hsig : signal_received = SIGUSR1 ∨ signal_received = SIGUSR2) :
    (Hello.get_key_or_signal options signal_received stdin_line).1 =
      (if signal_received = SIGUSR1 then ch '\n' else ch 'x') ∧
    (Hello.get_key_or_signal options signal_received stdin_line).2 = 0 ∧
    (Hello.get_key_or_signal options
      (Hello.get_key_or_signal options signal_received stdin_line).2 .idle).1 = 0 := by
  have h2 : (Hello.get_key_or_signal options signal_received stdin_line).2 = 0 := by
    simp [Hello.get_key_or_signal, hs]
  refine ⟨?_, h2, ?_⟩
  · rcases hsig with h | h <;> subst h <;>
      simp [Hello.get_key_or_signal, hs, SIGUSR1, SIGUSR2]
  · rw [h2]
    simp [Hello.get_key_or_signal, hs, SIGUSR1, SIGUSR2]

theorem Jpeg.jpeg_signal_consumed (options : Jpeg.StillOptions) (signal_received : Int)
    (stdin_line : Keypress) (hs : options.signal = true)
    (hsig : signal_received = SIGUSR1 ∨ signal_received = SIGUSR2) :
    (Jpeg.get_key_or_signal options signal_received stdin_line).1 =
      (if signal_received = SIGUSR1 then ch '\n' else ch 'x') ∧
    (Jpeg.get_key_or_signal options signal_received stdin_line).2 = 0 ∧
    (Jpeg.get_key_or_signal options
      (Jpeg.get_key_or_signal options signal_received stdin_line).2 .idle).1 = 0 := by
  have h2 : (Jpeg.get_key_or_signal options signal_received stdin_line).2 = 0 := by
    simp [Jpeg.get_key_or_signal, hs]
  refine ⟨?_, h2, ?_⟩
  · rcases hsig with h | h <;> subst h <;>
      simp [Jpeg.get_key_or_signal, hs, SIGUSR1, SIGUSR2]
  · rw [h2]
    simp [Jpeg.get_key_or_signal, hs, SIGUSR1, SIGUSR2]

/-- C10 (amended). The confirm and quit-equivalent signals are edge-triggered. In each
of the three apps, whenever `get_key_or_signal` returns a command produced by a pending
`SIGUSR1`, `SIGUSR2` or (video app) `SIGPIPE` with the signal source enabled, whatever
the keypress input, the command is confirm for `SIGUSR1` and quit otherwise,
`signal_received` is `0` when the function returns, and a second call made with no new
signal delivery and no keypress input returns none (`0`). -/
theorem signal_consumed (vid : Vid.VideoOptions) (hello : Hello.HelloOptions)
    (still : Jpeg.StillOptions) (gv gh gj : Int) (lv lh lj : Keypress)
    (hsv : vid.signal = true) (hgv : gv = SIGUSR1 ∨ gv = SIGUSR2 ∨ gv = SIGPIPE)
    (hsh : hello.signal = true) (hgh : gh = SIGUSR1 ∨ gh = SIGUSR2)
    (hsj : still.signal = true) (hgj : gj = SIGUSR1 ∨ gj = SIGUSR2) :
    ((Vid.get_key_or_signal vid gv lv).1 = (if gv = SIGUSR1 then ch '\n' else ch 'x') ∧
      (Vid.get_key_or_signal vid gv lv).2 = 0 ∧
      (Vid.get_key_or_signal vid (Vid.get_key_or_signal vid gv lv).2 .idle).1 = 0) ∧
    ((Hello.get_key_or_signal hello gh lh).1 = (if gh = SIGUSR1 then ch '\n' else ch 'x') ∧
      (Hello.get_key_or_signal hello gh lh).2 = 0 ∧
      (Hello.get_key_or_signal hello (Hello.get_key_or_signal hello gh lh).2 .idle).1 = 0) ∧
    ((Jpeg.get_key_or_signal still gj lj).1 = (if gj = SIGUSR1 then ch '\n' else ch 'x') ∧
      (Jpeg.get_key_or_signal still gj lj).2 = 0 ∧
      (Jpeg.get_key_or_signal still (Jpeg.get_key_or_signal still gj lj).2 .idle).1 = 0) :=
  ⟨Vid.vid_signal_consumed vid gv lv hsv hgv, Hello.hello_signal_consumed hello gh lh hsh hgh,
    Jpeg.jpeg_signal_consumed still gj lj hsj hgj⟩

/-- A pending `SIGPIPE`, `SIGUSR1`, `SIGUSR2` is cleared by the call that maps it. -/
theorem signal_consumed_witness :
    (Vid.get_key_or_signal Vid.options_signal SIGPIPE (.line [ch 'w', ch '\n'])).2 = 0 ∧
    (Hello.get_key_or_signal Hello.options_signal SIGUSR1 .idle).2 = 0 ∧
    (Jpeg.get_key_or_signal Jpeg.options_signal SIGUSR2 .idle).2 = 0 :=
  have h := signal_consumed Vid.options_signal Hello.options_signal Jpeg.options_signal
    SIGPIPE SIGUSR1 SIGUSR2 (.line [ch 'w', ch '\n']) .idle .idle rfl (by decide) rfl (by decide)
    rfl (by decide)
  ⟨h.1.2.1, h.2.1.2.1, h.2.2.2.1⟩

/-! ## Manual focus commands -/

theorem set_controls_append (l1 l2 : List Action) :
    set_controls (l1 ++ l2) = set_controls l1 ++ set_controls l2 := by
  induction l1 with
  | nil => rfl
  | cons a t ih => cases a <;> simp [set_controls, ih]

theorem crops_append (l1 l2 : List Action) : crops (l1 ++ l2) = crops l1 ++ crops l2 := by
  induction l1 with
  | nil => rfl
  | cons a t ih => cases a <;> simp [crops, ih]

theorem guidance_count_append (l1 l2 : List Action) :
    guidance_count (l1 ++ l2) = guidance_count l1 + guidance_count l2 := by
  induction l1 with
  | nil => simp [guidance_count]
  | cons a t ih => cases a <;> simp [guidance_count, ih]; omega

theorem is_focus_key_iff (key : Int) :
    is_focus_key key = true ↔
      (key = ch 'a' ∨ key = ch 'A') ∨ (key = ch 'd' ∨ key = ch 'D') := by
  simp [is_focus_key, or_assoc]

namespace Vid

/-- The `switch` changes `lens_position` for the focus keys only. -/
theorem apply_key_lens (key : Int) (st : State) :
    (apply_key key st).1.lens_position =
      if key = ch 'd' ∨ key = ch 'D' then f32 (st.lens_position - af_step)
      else if key = ch 'a' ∨ key = ch 'A' then f32 (st.lens_position + af_step)
      else st.lens_position := by
  simp only [apply_key, apply_ite Prod.fst, apply_ite State.lens_position, ite_self]
  simp only [ch, Char.reduceToNat, Int.ofNat_eq_coe, Nat.cast_ofNat]
  split_ifs <;> first | rfl | (exfalso; omega)

theorem apply_command_key (options : VideoOptions) (inp : CycleInput) (st : State) :
    (apply_command options inp st).key =
      fallback (get_key_or_signal options st.signal_received inp.stdin_line).1 inp.param :=
  rfl

theorem apply_command_lens (options : VideoOptions) (inp : CycleInput) (st : State) :
    (apply_command options inp st).st.lens_position =
      if (apply_command options inp st).key = ch 'd' ∨
          (apply_command options inp st).key = ch 'D' then f32 (st.lens_position - af_step)
      else if (apply_command options inp st).key = ch 'a' ∨
          (apply_command options inp st).key = ch 'A' then f32 (st.lens_position + af_step)
      else st.lens_position := by
  simp only [apply_command, clamp, apply_key_lens]

/-- After a `RequestComplete` iteration the trace is that of lines 114-226 followed by
the two shutdown calls or by the two forwarding calls, and the variables other than
`count` are those lines 114-226 left. -/
theorem cycle_request_complete (options : VideoOptions) (inp : CycleInput) (st : State)
    (hmsg : inp.msg.type = MsgType.RequestComplete) :
    ((cycle options inp st).trace =
        (apply_command options inp st).trace ++ [Action.StopCamera, Action.StopEncoder] ∨
      (cycle options inp st).trace =
        (apply_command options inp st).trace ++
          [Action.EncodeBuffer inp.msg.payload, Action.ShowPreview inp.msg.payload]) ∧
    (cycle options inp st).next.state.scale = (apply_command options inp st).st.scale ∧
    (cycle options inp st).next.state.offset_x = (apply_command options inp st).st.offset_x ∧
    (cycle options inp st).next.state.offset_y = (apply_command options inp st).st.offset_y ∧
    (cycle options inp st).next.state.lens_position =
      (apply_command options inp st).st.lens_position := by
  cases hs : should_stop options st.count inp.elapsed (apply_command options inp st).key
  · rw [cycle_forward options inp st hmsg hs]
    exact ⟨Or.inr rfl, rfl, rfl, rfl, rfl⟩
  · rw [cycle_stop options inp st hmsg hs]
    exact ⟨Or.inl rfl, rfl, rfl, rfl, rfl⟩

/-- The `SetControls` calls and guidance messages of lines 114-226. -/
theorem apply_command_controls (options : VideoOptions) (inp : CycleInput) (st : State) :
    set_controls (apply_command options inp st).trace =
      (if (apply_command options inp st).key = ch 'f' ∨
          (apply_command options inp st).key = ch 'F' then [Action.SetControlsAfTrigger]
        else []) ++
      (if is_focus_key (apply_command options inp st).key = true ∧
          options.afMode_index = AfModeManual then
          [Action.SetControlsLens (apply_command options inp st).st.lens_position]
        else []) ∧
    guidance_count (apply_command options inp st).trace =
      if is_focus_key (apply_command options inp st).key = true ∧
          options.afMode_index ≠ AfModeManual then 1 else 0 := by
  simp only [apply_command, set_controls_append, guidance_count_append, apply_key_trace,
    crop_actions, focus_actions]
  constructor <;> split_ifs <;> simp_all [set_controls, guidance_count]

end Vid

namespace Hello

/-- A `RequestComplete` iteration whose command is not quit. -/
theorem hello_cycle_continue (options : HelloOptions) (inp : CycleInput) (st : State)
    (hmsg : inp.msg.type = MsgType.RequestComplete)
    (hq : is_quit (apply_command options inp st).key = false) :
    cycle options inp st =
      if options.timeout ≠ 0 ∧ inp.elapsed > options.timeout then
        { trace := (apply_command options inp st).trace,
          keys := [(apply_command options inp st).key],
          next := .terminated (apply_command options inp st).st }
      else
        { trace := (apply_command options inp st).trace ++
            [Action.ShowPreview inp.msg.payload],
          keys := [(apply_command options inp st).key],
          next := .running { (apply_command options inp st).st with
            count := incr_count (apply_command options inp st).st.count } } := by
  have hq1 : ¬ (fallback (get_key_or_signal options st.signal_received inp.stdin_line).1
        inp.param = ch 'x' ∨
      fallback (get_key_or_signal options st.signal_received inp.stdin_line).1
        inp.param = ch 'X') := by
    intro h
    have := (is_quit_iff _).mpr h
    simp only [apply_command] at hq
    rw [hq] at this
    cases this
  unfold cycle
  simp only [hmsg]
  rw [if_neg hq1]
  rfl

theorem hello_apply_key (key : Int) (st : State) :
    (apply_key key st).1.lens_position =
      (if key = ch 'd' ∨ key = ch 'D' then f32 (st.lens_position - af_step)
      else if key = ch 'a' ∨ key = ch 'A' then f32 (st.lens_position + af_step)
      else st.lens_position) ∧
    (apply_key key st).1.count = st.count ∧
    (apply_key key st).1.signal_received = st.signal_received ∧
    (apply_key key st).2 =
      if key = ch 'f' ∨ key = ch 'F' then [Action.SetControlsAfTrigger] else [] := by
  unfold apply_key
  simp only [ch, Char.reduceToNat, Int.ofNat_eq_coe, Nat.cast_ofNat]
  split_ifs <;> first | exact ⟨rfl, rfl, rfl, rfl⟩ | (exfalso; omega)

theorem hello_apply_command_controls (options : HelloOptions) (inp : CycleInput)
    (st : State) :
    set_controls (apply_command options inp st).trace =
      (if (apply_command options inp st).key = ch 'f' ∨
          (apply_command options inp st).key = ch 'F' then [Action.SetControlsAfTrigger]
        else []) ++
      (if is_focus_key (apply_command options inp st).key = true ∧
          options.afMode_index = AfModeManual then
          [Action.SetControlsLens (apply_command options inp st).st.lens_position]
        else []) ∧
    guidance_count (apply_command options inp st).trace =
      if is_focus_key (apply_command options inp st).key = true ∧
          options.afMode_index ≠ AfModeManual then 1 else 0 := by
  simp only [apply_command, set_controls_append, guidance_count_append,
    (hello_apply_key _ _).2.2.2, focus_actions]
  constructor <;> split_ifs <;> simp_all [set_controls, guidance_count]

end Hello

namespace Jpeg

theorem jpeg_apply_key (key : Int) (st : State) :
    (apply_key key st).1.lens_position =
      (if key = ch 'd' ∨ key = ch 'D' then f32 (st.lens_position - af_step)
      else if key = ch 'a' ∨ key = ch 'A' then f32 (st.lens_position + af_step)
      else st.lens_position) ∧
    (apply_key key st).1.mode = st.mode ∧
    (apply_key key st).1.signal_received = st.signal_received ∧
    (apply_key key st).2 =
      if key = ch 'f' ∨ key = ch 'F' then [Action.SetControlsAfTrigger] else [] := by
  unfold apply_key
  simp only [ch, Char.reduceToNat, Int.ofNat_eq_coe, Nat.cast_ofNat]
  split_ifs <;> first | exact ⟨rfl, rfl, rfl, rfl⟩ | (exfalso; omega)

theorem jpeg_apply_command_mode (options : StillOptions) (inp : CycleInput) (st : State) :
    (apply_command options inp st).st.mode = st.mode := by
  simp only [apply_command, (jpeg_apply_key _ _).2.1]

/-- A `RequestComplete` iteration whose command is not quit. -/
theorem jpeg_cycle_continue (options : StillOptions) (inp : CycleInput) (st : State)
    (hmsg : inp.msg.type = MsgType.RequestComplete)
    (hq : is_quit (apply_command options inp st).key = false) :
    cycle options inp st =
      match st.mode with
      | .Viewfinder =>
        if options.timeout ≠ 0 ∧ inp.elapsed > options.timeout then
          { trace := (apply_command options inp st).trace ++
              [Action.StopCamera, Action.Teardown, Action.ConfigureStill,
                Action.StartCamera],
            keys := [(apply_command options inp st).key],
            next := .running { (apply_command options inp st).st with
              mode := .StillCapture } }
        else
          { trace := (apply_command options inp st).trace ++
              [Action.ShowPreview inp.msg.payload],
            keys := [(apply_command options inp st).key],
            next := .running (apply_command options inp st).st }
      | .StillCapture =>
        { trace := (apply_command options inp st).trace ++
            [Action.StopCamera, Action.JpegSave inp.msg.payload],
          keys := [(apply_command options inp st).key],
          next := .terminated (apply_command options inp st).st } := by
  have hq1 : ¬ (fallback (get_key_or_signal options st.signal_received inp.stdin_line).1
        inp.param = ch 'x' ∨
      fallback (get_key_or_signal options st.signal_received inp.stdin_line).1
        inp.param = ch 'X') := by
    intro h
    have := (is_quit_iff _).mpr h
    simp only [apply_command] at hq
    rw [hq] at this
    cases this
  have hm := jpeg_apply_command_mode options inp st
  unfold cycle
  simp only [hmsg]
  rw [if_neg hq1]
  simp only [apply_command] at hm
  simp only [hm]
  rfl

theorem jpeg_apply_command_controls (options : StillOptions) (inp : CycleInput)
    (st : State) :
    set_controls (apply_command options inp st).trace =
      (if (apply_command options inp st).key = ch 'f' ∨
          (apply_command options inp st).key = ch 'F' then [Action.SetControlsAfTrigger]
        else []) ++
      (if is_focus_key (apply_command options inp st).key = true ∧
          options.afMode_index = AfModeManual then
          [Action.SetControlsLens (apply_command options inp st).st.lens_position]
        else []) ∧
    guidance_count (apply_command options inp st).trace =
      if is_focus_key (apply_command options inp st).key = true ∧
          options.afMode_index ≠ AfModeManual then 1 else 0 := by
  simp only [apply_command, set_controls_append, guidance_count_append,
    (jpeg_apply_key _ _).2.2.2, focus_actions]
  constructor <;> split_ifs <;> simp_all [set_controls, guidance_count]

end Jpeg

theorem focus_key_cases (key : Int) (hf : is_focus_key key = true) :
    ¬ (key = ch 'f' ∨ key = ch 'F') ∧ is_quit key = false ∧
    ((key = ch 'a' ∨ key = ch 'A') ∧ ¬ (key = ch 'd' ∨ key = ch 'D') ∨
      (key = ch 'd' ∨ key = ch 'D') ∧ ¬ (key = ch 'a' ∨ key = ch 'A')) := by
  rw [is_focus_key_iff] at hf
  have hq : is_quit key = true ↔ key = ch 'x' ∨ key = ch 'X' := is_quit_iff key
  rw [← Bool.not_eq_true, hq]
  simp only [ch, Char.reduceToNat, Int.ofNat_eq_coe, Nat.cast_ofNat] at hf ⊢
  omega

theorem Vid.vid_focus (options : Vid.VideoOptions) (inp : CycleInput) (st : Vid.State)
    (k : Int) (hmsg : inp.msg.type = MsgType.RequestComplete)
    (hk : k ∈ (Vid.cycle options inp st).keys) (hf : is_focus_key k = true) :
    (Vid.cycle options inp st).next.state.lens_position =
      f32 (st.lens_position +
        (if k = ch 'a' ∨ k = ch 'A' then Vid.af_step else -Vid.af_step)) ∧
    (options.afMode_index ≠ AfModeManual →
      set_controls (Vid.cycle options inp st).trace = [] ∧
      guidance_count (Vid.cycle options inp st).trace = 1) ∧
    (options.afMode_index = AfModeManual →
      set_controls (Vid.cycle options inp st).trace =
        [Action.SetControlsLens (Vid.cycle options inp st).next.state.lens_position] ∧
      guidance_count (Vid.cycle options inp st).trace = 0) := by
  rw [Vid.vid_cycle_keys options inp st hmsg, List.mem_singleton] at hk
  subst hk
  obtain ⟨hnf, -, hcase⟩ := focus_key_cases _ hf
  obtain ⟨htr, -, -, -, hl⟩ := Vid.cycle_request_complete options inp st hmsg
  obtain ⟨hc, hg⟩ := Vid.apply_command_controls options inp st
  have hlens := Vid.apply_command_lens options inp st
  rw [if_neg hnf] at hc
  have hsc : set_controls (Vid.cycle options inp st).trace =
      set_controls (Vid.apply_command options inp st).trace := by
    rcases htr with h | h <;> rw [h, set_controls_append] <;> simp [set_controls]
  have hgc : guidance_count (Vid.cycle options inp st).trace =
      guidance_count (Vid.apply_command options inp st).trace := by
    rcases htr with h | h <;> rw [h, guidance_count_append] <;> simp [guidance_count]
  rw [hsc, hgc, hl, hc, hg]
  refine ⟨?_, ?_, ?_⟩
  · rw [hlens]
    rcases hcase with ⟨ha, hd⟩ | ⟨hd, ha⟩
    · rw [if_neg hd, if_pos ha, if_pos ha]
    · rw [if_pos hd, if_neg ha, sub_eq_add_neg]
  · intro hm
    simp [hf, hm]
  · intro hm
    simp [hf, hm]

theorem Hello.hello_focus (options : Hello.HelloOptions) (inp : CycleInput)
    (st : Hello.State) (k : Int) (hmsg : inp.msg.type = MsgType.RequestComplete)
    (hk : k ∈ (Hello.cycle options inp st).keys) (hf : is_focus_key k = true) :
    (Hello.cycle options inp st).next.state.lens_position =
      f32 (st.lens_position +
        (if k = ch 'a' ∨ k = ch 'A' then Hello.af_step else -Hello.af_step)) ∧
    (options.afMode_index ≠ AfModeManual →
      set_controls (Hello.cycle options inp st).trace = [] ∧
      guidance_count (Hello.cycle options inp st).trace = 1) ∧
    (options.afMode_index = AfModeManual →
      set_controls (Hello.cycle options inp st).trace =
        [Action.SetControlsLens (Hello.cycle options inp st).next.state.lens_position] ∧
      guidance_count (Hello.cycle options inp st).trace = 0) := by
  rw [Hello.hello_cycle_keys options inp st hmsg, List.mem_singleton] at hk
  have hk1 : k = (Hello.apply_command options inp st).key := hk
  subst hk1
  obtain ⟨hnf, hq, hcase⟩ := focus_key_cases _ hf
  obtain ⟨hc, hg⟩ := Hello.hello_apply_command_controls options inp st
  have hlens : (Hello.apply_command options inp st).st.lens_position =
      f32 (st.lens_position + (if (Hello.apply_command options inp st).key = ch 'a' ∨
        (Hello.apply_command options inp st).key = ch 'A' then Hello.af_step
        else -Hello.af_step)) := by
    have h := (Hello.hello_apply_key (Hello.apply_command options inp st).key
      { st with signal_received :=
        (Hello.get_key_or_signal options st.signal_received inp.stdin_line).2 }).1
    have e : (Hello.apply_command options inp st).st = (Hello.apply_key
        (Hello.apply_command options inp st).key
        { st with signal_received :=
          (Hello.get_key_or_signal options st.signal_received inp.stdin_line).2 }).1 := rfl
    rw [e, h]
    rcases hcase with ⟨ha, hd⟩ | ⟨hd, ha⟩
    · rw [if_neg hd, if_pos ha, if_pos ha]
    · rw [if_pos hd, if_neg ha, sub_eq_add_neg]
  rw [if_neg hnf] at hc
  have hcyc := Hello.hello_cycle_continue options inp st hmsg hq
  by_cases ht : options.timeout ≠ 0 ∧ inp.elapsed > options.timeout
  · rw [if_pos ht] at hcyc
    rw [hcyc]
    refine ⟨hlens, ?_, ?_⟩ <;> intro hm <;> simp [hc, hg, hf, hm, Outcome.state]
  · rw [if_neg ht] at hcyc
    rw [hcyc]
    refine ⟨hlens, ?_, ?_⟩ <;> intro hm <;>
      simp [hc, hg, hf, hm, Outcome.state, set_controls_append, guidance_count_append,
        set_controls, guidance_count]

theorem Jpeg.jpeg_focus (options : Jpeg.StillOptions) (inp : CycleInput)
    (st : Jpeg.State) (k : Int) (hmsg : inp.msg.type = MsgType.RequestComplete)
    (hk : k ∈ (Jpeg.cycle options inp st).keys) (hf : is_focus_key k = true) :
    (Jpeg.cycle options inp st).next.state.lens_position =
      f32 (st.lens_position +
        (if k = ch 'a' ∨ k = ch 'A' then Jpeg.af_step else -Jpeg.af_step)) ∧
    (options.afMode_index ≠ AfModeManual →
      set_controls (Jpeg.cycle options inp st).trace = [] ∧
      guidance_count (Jpeg.cycle options inp st).trace = 1) ∧
    (options.afMode_index = AfModeManual →
      set_controls (Jpeg.cycle options inp st).trace =
        [Action.SetControlsLens (Jpeg.cycle options inp st).next.state.lens_position] ∧
      guidance_count (Jpeg.cycle options inp st).trace = 0) := by
  rw [Jpeg.jpeg_cycle_keys options inp st hmsg, List.mem_singleton] at hk
  have hk1 : k = (Jpeg.apply_command options inp st).key := hk
  subst hk1
  obtain ⟨hnf, hq, hcase⟩ := focus_key_cases _ hf
  obtain ⟨hc, hg⟩ := Jpeg.jpeg_apply_command_controls options inp st
  have hlens : (Jpeg.apply_command options inp st).st.lens_position =
      f32 (st.lens_position + (if (Jpeg.apply_command options inp st).key = ch 'a' ∨
        (Jpeg.apply_command options inp st).key = ch 'A' then Jpeg.af_step
        else -Jpeg.af_step)) := by
    have h := (Jpeg.jpeg_apply_key (Jpeg.apply_command options inp st).key
      { st with signal_received :=
        (Jpeg.get_key_or_signal options st.signal_received inp.stdin_line).2 }).1
    have e : (Jpeg.apply_command options inp st).st = (Jpeg.apply_key
        (Jpeg.apply_command options inp st).key
        { st with signal_received :=
          (Jpeg.get_key_or_signal options st.signal_received inp.stdin_line).2 }).1 := rfl
    rw [e, h]
    rcases hcase with ⟨ha, hd⟩ | ⟨hd, ha⟩
    · rw [if_neg hd, if_pos ha, if_pos ha]
    · rw [if_pos hd, if_neg ha, sub_eq_add_neg]
  rw [if_neg hnf] at hc
  have hcyc := Jpeg.jpeg_cycle_continue options inp st hmsg hq
  cases hmode : st.mode with
  | Viewfinder =>
    rw [hmode] at hcyc
    by_cases ht : options.timeout ≠ 0 ∧ inp.elapsed > options.timeout
    · simp only [if_pos ht] at hcyc
      rw [hcyc]
      refine ⟨hlens, ?_, ?_⟩ <;> intro hm <;>
        simp [hc, hg, hf, hm, Outcome.state, set_controls_append, guidance_count_append,
          set_controls, guidance_count]
    · simp only [if_neg ht] at hcyc
      rw [hcyc]
      refine ⟨hlens, ?_, ?_⟩ <;> intro hm <;>
        simp [hc, hg, hf, hm, Outcome.state, set_controls_append, guidance_count_append,
          set_controls, guidance_count]
  | StillCapture =>
    rw [hmode] at hcyc
    rw [hcyc]
    refine ⟨hlens, ?_, ?_⟩ <;> intro hm <;>
      simp [hc, hg, hf, hm, Outcome.state, set_controls_append, guidance_count_append,
        set_controls, guidance_count]

/-! ## Agreement of the two embeddings of the video loop -/

theorem set_controls_erase_zoom (l : List Action) :
    set_controls (l.map erase_zoom) = set_controls l := by
  induction l with
  | nil => rfl
  | cons a t ih => cases a <;> simp [set_controls, erase_zoom, ih]

theorem guidance_count_erase_zoom (l : List Action) :
    guidance_count (l.map erase_zoom) = guidance_count l := by
  induction l with
  | nil => rfl
  | cons a t ih => cases a <;> simp [guidance_count, erase_zoom, ih]

namespace Vid.Binary32

theorem b32_apply_key_lens (key : Int) (st : State) :
    (apply_key key st).1.lens_position =
      if key = ch 'd' ∨ key = ch 'D' then f32 (st.lens_position - af_step)
      else if key = ch 'a' ∨ key = ch 'A' then f32 (st.lens_position + af_step)
      else st.lens_position := by
  simp only [apply_key, apply_ite Prod.fst, apply_ite State.lens_position, ite_self]
  simp only [ch, Char.reduceToNat, Int.ofNat_eq_coe, Nat.cast_ofNat]
  split_ifs <;> first | rfl | (exfalso; omega)

theorem b32_apply_key_count (key : Int) (st : State) :
    (apply_key key st).1.count = st.count := by
  simp only [apply_key, apply_ite Prod.fst, apply_ite State.count, ite_self]

theorem b32_apply_key_signal (key : Int) (st : State) :
    (apply_key key st).1.signal_received = st.signal_received := by
  simp only [apply_key, apply_ite Prod.fst, apply_ite State.signal_received, ite_self]

theorem vid_apply_key_signal (key : Int) (st : State) :
    (Vid.apply_key key st).1.signal_received = st.signal_received := by
  simp only [Vid.apply_key, apply_ite Prod.fst, apply_ite State.signal_received, ite_self]

/-- Lines 114-226 in the two embeddings: same command, same actions up to the zoom
values, same variables other than the zoom variables. -/
theorem b32_apply_command_agrees (options : VideoOptions) (inp : CycleInput)
    (sb sv : State) (h : SameButZoom sb sv) :
    (apply_command options inp sb).key = (Vid.apply_command options inp sv).key ∧
    SameButZoom (apply_command options inp sb).st (Vid.apply_command options inp sv).st ∧
    (apply_command options inp sb).trace.map erase_zoom =
      (Vid.apply_command options inp sv).trace.map erase_zoom := by
  obtain ⟨hl, hc, hs⟩ := h
  have hlens : (apply_command options inp sb).st.lens_position =
      (Vid.apply_command options inp sv).st.lens_position := by
    simp only [apply_command, Vid.apply_command, clamp, Vid.clamp, b32_apply_key_lens,
      Vid.apply_key_lens, hl, hs]
  refine ⟨?_, ⟨hlens, ?_, ?_⟩, ?_⟩
  · simp only [apply_command, Vid.apply_command, hs]
  · simp only [apply_command, Vid.apply_command, clamp, Vid.clamp, b32_apply_key_count,
      Vid.apply_key_count, hc]
  · simp only [apply_command, Vid.apply_command, clamp, Vid.clamp, b32_apply_key_signal,
      vid_apply_key_signal, hs]
  · simp only [apply_command, Vid.apply_command, hs] at hlens
    simp only [apply_command, Vid.apply_command, List.map_append, b32_apply_key_trace,
      Vid.apply_key_trace, crop_actions, Vid.crop_actions, focus_actions, hs, hlens]
    split_ifs <;> rfl

/-- One iteration in the two embeddings: same commands resolved, same actions up to the
zoom values, same outcome, same variables other than the zoom variables. -/
theorem b32_cycle_agrees (options : VideoOptions) (inp : CycleInput) (sb sv : State)
    (h : SameButZoom sb sv) :
    (cycle options inp sb).keys = (Vid.cycle options inp sv).keys ∧
    (cycle options inp sb).trace.map erase_zoom =
      (Vid.cycle options inp sv).trace.map erase_zoom ∧
    SameButZoom (cycle options inp sb).next.state (Vid.cycle options inp sv).next.state ∧
    (cycle options inp sb).next.is_running = (Vid.cycle options inp sv).next.is_running ∧
    (cycle options inp sb).next.is_terminated =
      (Vid.cycle options inp sv).next.is_terminated ∧
    (cycle options inp sb).next.is_raised = (Vid.cycle options inp sv).next.is_raised := by
  obtain ⟨hk, ⟨al, ac, as⟩, ht⟩ := b32_apply_command_agrees options inp sb sv h
  obtain ⟨hl, hc, hs⟩ := h
  unfold cycle Vid.cycle
  cases inp.msg.type with
  | Timeout => exact ⟨rfl, rfl, ⟨hl, by simp only [Outcome.state, hc], hs⟩, rfl, rfl, rfl⟩
  | Quit => exact ⟨rfl, rfl, ⟨hl, hc, hs⟩, rfl, rfl, rfl⟩
  | Other code => exact ⟨rfl, rfl, ⟨hl, hc, hs⟩, rfl, rfl, rfl⟩
  | RequestComplete =>
    dsimp only
    rw [hk, ac]
    split_ifs
    · exact ⟨rfl, by rw [List.map_append, List.map_append, ht], ⟨al, ac, as⟩, rfl, rfl, rfl⟩
    · exact ⟨rfl, by rw [List.map_append, List.map_append, ht],
        ⟨al, by simp only [Outcome.state, ac], as⟩, rfl, rfl, rfl⟩

theorem b32_event_loop_cons_running (options : VideoOptions) (e : Event)
    (rest : List Event) (st st1 : State)
    (h : (cycle options e.2 (deliver e.1 st)).next = .running st1) :
    event_loop options (e :: rest) st =
      { trace := (cycle options e.2 (deliver e.1 st)).trace ++
          (event_loop options rest st1).trace,
        keys := (cycle options e.2 (deliver e.1 st)).keys ++
          (event_loop options rest st1).keys,
        next := (event_loop options rest st1).next } := by
  simp only [event_loop, h]

theorem b32_event_loop_cons_stopped (options : VideoOptions) (e : Event)
    (rest : List Event) (st : State)
    (h : (cycle options e.2 (deliver e.1 st)).next.is_running = false) :
    event_loop options (e :: rest) st = cycle options e.2 (deliver e.1 st) := by
  unfold event_loop
  dsimp only
  split
  · next st1 heq => simp [heq, Outcome.is_running] at h
  · next o hne => rfl

theorem deliver_same_but_zoom (signal : Option Int) (sb sv : State)
    (h : SameButZoom sb sv) : SameButZoom (deliver signal sb) (deliver signal sv) := by
  obtain ⟨hl, hc, hs⟩ := h
  cases signal with
  | none => exact ⟨hl, hc, hs⟩
  | some signal_number => exact ⟨hl, hc, rfl⟩

/-- A run in the two embeddings, from variables that differ at most in the zoom
variables: same commands resolved, same actions up to the zoom values, same outcome,
same variables other than the zoom variables. -/
theorem b32_event_loop_agrees (options : VideoOptions) (events : List Event)
    (sb sv : State) (h : SameButZoom sb sv) :
    (event_loop options events sb).keys = (Vid.event_loop options events sv).keys ∧
    (event_loop options events sb).trace.map erase_zoom =
      (Vid.event_loop options events sv).trace.map erase_zoom ∧
    SameButZoom (event_loop options events sb).next.state
      (Vid.event_loop options events sv).next.state ∧
    (event_loop options events sb).next.is_running =
      (Vid.event_loop options events sv).next.is_running ∧
    (event_loop options events sb).next.is_terminated =
      (Vid.event_loop options events sv).next.is_terminated ∧
    (event_loop options events sb).next.is_raised =
      (Vid.event_loop options events sv).next.is_raised := by
  induction events generalizing sb sv with
  | nil => exact ⟨rfl, rfl, h, rfl, rfl, rfl⟩
  | cons e rest ih =>
    have hd := deliver_same_but_zoom e.1 sb sv h
    obtain ⟨ck, ct, cs, cr, cterm, craised⟩ := b32_cycle_agrees options e.2 _ _ hd
    cases hb : (cycle options e.2 (deliver e.1 sb)).next with
    | running sb1 =>
      cases hv : (Vid.cycle options e.2 (deliver e.1 sv)).next with
      | running sv1 =>
        rw [hb, hv] at cs
        obtain ⟨ik, it, is, ir, iterm, iraised⟩ := ih sb1 sv1 cs
        rw [b32_event_loop_cons_running options e rest sb sb1 hb,
          Vid.event_loop_cons_running options e rest sv sv1 hv]
        refine ⟨by rw [ck, ik], ?_, is, ir, iterm, iraised⟩
        simp only [List.map_append, ct, it]
      | terminated sv1 => rw [hb, hv] at cr; cases cr
      | raised sv1 => rw [hb, hv] at cr; cases cr
    | terminated sb1 =>
      have h1 : (cycle options e.2 (deliver e.1 sb)).next.is_running = false := by
        rw [hb]; rfl
      have h2 : (Vid.cycle options e.2 (deliver e.1 sv)).next.is_running = false := by
        rw [← cr, h1]
      rw [b32_event_loop_cons_stopped options e rest sb h1,
        Vid.event_loop_cons_stopped options e rest sv h2]
      exact ⟨ck, ct, cs, cr, cterm, craised⟩
    | raised sb1 =>
      have h1 : (cycle options e.2 (deliver e.1 sb)).next.is_running = false := by
        rw [hb]; rfl
      have h2 : (Vid.cycle options e.2 (deliver e.1 sv)).next.is_running = false := by
        rw [← cr, h1]
      rw [b32_event_loop_cons_stopped options e rest sb h1,
        Vid.event_loop_cons_stopped options e rest sv h2]
      exact ⟨ck, ct, cs, cr, cterm, craised⟩

/-- The manual focus statement in the embedding with rounded zoom arithmetic. -/
theorem b32_focus (options : VideoOptions) (inp : CycleInput) (st : State)
    (k : Int) (hmsg : inp.msg.type = MsgType.RequestComplete)
    (hk : k ∈ (Vid.cycle options inp st).keys) (hf : is_focus_key k = true) :
    (cycle options inp st).next.state.lens_position =
      f32 (st.lens_position + (if k = ch 'a' ∨ k = ch 'A' then af_step else -af_step)) ∧
    (options.afMode_index ≠ AfModeManual →
      set_controls (cycle options inp st).trace = [] ∧
      guidance_count (cycle options inp st).trace = 1) ∧
    (options.afMode_index = AfModeManual →
      set_controls (cycle options inp st).trace =
        [Action.SetControlsLens (cycle options inp st).next.state.lens_position] ∧
      guidance_count (cycle options inp st).trace = 0) := by
  obtain ⟨-, ht, ⟨hl, -, -⟩, -, -, -⟩ := b32_cycle_agrees options inp st st ⟨rfl, rfl, rfl⟩
  obtain ⟨v1, v2, v3⟩ := Vid.vid_focus options inp st k hmsg hk hf
  have hsc : set_controls (cycle options inp st).trace =
      set_controls (Vid.cycle options inp st).trace := by
    rw [← set_controls_erase_zoom, ht, set_controls_erase_zoom]
  have hgc : guidance_count (cycle options inp st).trace =
      guidance_count (Vid.cycle options inp st).trace := by
    rw [← guidance_count_erase_zoom, ht, guidance_count_erase_zoom]
  rw [hsc, hgc, hl]
  exact ⟨v1, v2, v3⟩

end Vid.Binary32

namespace Vid

theorem lens_step (m : Nat) (h : m + 1 ≤ 2 ^ 24) :
    (cycle options_manual (frame_input 7 [ch 'a'] 0)
      (deliver none { init with lens_position := (m : ℚ), count := m })).next =
      .running { init with lens_position := ((m + 1 : Nat) : ℚ), count := m + 1 } := by
  have hf : f32 ((m : ℚ) + 1) = ((m + 1 : Nat) : ℚ) := by
    have := f32_intCast ((m + 1 : Nat) : Int) (by
      rw [abs_of_nonneg (by positivity)]
      exact_mod_cast h)
    push_cast at this ⊢
    exact this
  have hc : incr_count m = m + 1 := by
    unfold incr_count
    exact Nat.mod_eq_of_lt (by omega)
  simp [cycle, deliver, options_manual, frame_input, init, apply_command, get_key_or_signal,
    fallback, first_char, apply_key, clamp, clamp_scale, clamp_offset, crop_actions,
    focus_actions, should_stop, timeout, frameout, is_quit, isalpha, is_focus_key, ch,
    SIGINT, af_step, hc]
  refine ⟨by norm_num, by norm_num, ?_⟩
  rw [hf]
  push_cast
  rfl

/-- From the initial variables, `n` focus-near commands leave `lens_position = n`, as long
as `n` is at most `2 ^ 24`. -/
theorem lens_run (n m : Nat) (h : m + n ≤ 2 ^ 24) :
    (event_loop options_manual (List.replicate n (none, frame_input 7 [ch 'a'] 0))
      { init with lens_position := (m : ℚ), count := m }).next =
      .running { init with lens_position := ((m + n : Nat) : ℚ), count := m + n } := by
  induction n generalizing m with
  | zero => rfl
  | succ n ih =>
    rw [List.replicate_succ,
      event_loop_cons_running _ _ _ _ _ (lens_step m (by omega)), ih (m + 1) (by omega)]
    have e : m + 1 + n = m + (n + 1) := by omega
    rw [e]

theorem lens_limit_reached :
    (event_loop options_manual (List.replicate 16777216 (none, frame_input 7 [ch 'a'] 0))
      init).next = .running state_lens_limit := by
  have h := lens_run 16777216 0 (by norm_num)
  simp only [Nat.cast_zero, Nat.zero_add] at h
  exact h

end Vid

theorem f32_of_intCast (q : ℚ) (n : Int) (h : q = n) (hn : |n| ≤ 2 ^ 24) : f32 q = q := by
  rw [h]
  exact f32_intCast n hn

/-- C11, the claim as worded fails. Video app, manual focus configured, `lens_position`
at `2 ^ 24`, which the loop reaches from the initial variables by that many focus-near
commands; command `'a'` from the network: the `float` addition
`lens_position += af_step` rounds `2 ^ 24 + 1` back to `2 ^ 24`, so `lens_position`
does not change by `af_step`, and the one `SetControls` call carries the unchanged
value. -/
theorem manual_focus_mismatch_counterexample :
    (Vid.event_loop Vid.options_manual
        (List.replicate 16777216 (none, frame_input 7 [ch 'a'] 0)) Vid.init).next =
      .running Vid.state_lens_limit ∧
    (Vid.cycle Vid.options_manual (frame_input 7 [ch 'a'] 0)
        Vid.state_lens_limit).next.state.lens_position = 16777216 ∧
    (Vid.cycle Vid.options_manual (frame_input 7 [ch 'a'] 0)
        Vid.state_lens_limit).next.state.lens_position ≠
      Vid.state_lens_limit.lens_position + Vid.af_step ∧
    set_controls (Vid.cycle Vid.options_manual (frame_input 7 [ch 'a'] 0)
        Vid.state_lens_limit).trace = [Action.SetControlsLens 16777216] := by
  have hk : ch 'a' ∈
      (Vid.cycle Vid.options_manual (frame_input 7 [ch 'a'] 0) Vid.state_lens_limit).keys := by
    simp [Vid.vid_cycle_keys, Vid.apply_command, frame_input, Vid.options_manual,
      Vid.state_lens_limit, Vid.init, Vid.get_key_or_signal, fallback, first_char, ch, SIGINT]
  obtain ⟨h1, -, h3⟩ := Vid.vid_focus Vid.options_manual (frame_input 7 [ch 'a'] 0)
    Vid.state_lens_limit (ch 'a') rfl hk (by decide)
  have h4 : (Vid.cycle Vid.options_manual (frame_input 7 [ch 'a'] 0)
      Vid.state_lens_limit).next.state.lens_position = 16777216 := by
    rw [h1, if_pos (Or.inl rfl)]
    exact f32_tie
  refine ⟨Vid.lens_limit_reached, h4, ?_, ?_⟩
  · rw [h4]
    norm_num [Vid.state_lens_limit, Vid.init, Vid.af_step]
  · rw [(h3 rfl).1, h4]

/-- C11, amended. User-mode mismatch on manual focus. In each of the three apps, for
every loop state, a `RequestComplete` iteration whose resolved command is `'a'`, `'A'`
(sum `lens_position + af_step`) or `'d'`, `'D'` (sum `lens_position - af_step`) sets
`lens_position` to the `float` nearest to that sum, which is the sum itself whenever the
sum is a whole number of magnitude at most `2 ^ 24`. While the configured autofocus mode
is not manual the iteration performs no `SetControls` call and writes the guidance
message exactly once; when the mode is manual it performs exactly one `SetControls`
call, carrying the manual mode and the updated `lens_position`, and writes no guidance
message. For the video app this is stated in both embeddings of its loop, with the zoom
arithmetic exact and rounded. -/
theorem manual_focus_mismatch (vid : Vid.VideoOptions) (hello : Hello.HelloOptions)
    (still : Jpeg.StillOptions) (iv ih ij : CycleInput) (sv : Vid.State)
    (sh : Hello.State) (sj : Jpeg.State) (kv kh kj : Int)
    (hmv : iv.msg.type = MsgType.RequestComplete)
    (hkv : kv ∈ (Vid.cycle vid iv sv).keys) (hfv : is_focus_key kv = true)
    (hmh : ih.msg.type = MsgType.RequestComplete)
    (hkh : kh ∈ (Hello.cycle hello ih sh).keys) (hfh : is_focus_key kh = true)
    (hmj : ij.msg.type = MsgType.RequestComplete)
    (hkj : kj ∈ (Jpeg.cycle still ij sj).keys) (hfj : is_focus_key kj = true) :
    ((Vid.cycle vid iv sv).next.state.lens_position =
        f32 (sv.lens_position +
          (if kv = ch 'a' ∨ kv = ch 'A' then Vid.af_step else -Vid.af_step)) ∧
      (∀ n : Int,
        sv.lens_position +
          (if kv = ch 'a' ∨ kv = ch 'A' then Vid.af_step else -Vid.af_step) = n →
        |n| ≤ 2 ^ 24 →
        (Vid.cycle vid iv sv).next.state.lens_position =
          sv.lens_position +
            (if kv = ch 'a' ∨ kv = ch 'A' then Vid.af_step else -Vid.af_step)) ∧
      (vid.afMode_index ≠ AfModeManual →
        set_controls (Vid.cycle vid iv sv).trace = [] ∧
        guidance_count (Vid.cycle vid iv sv).trace = 1) ∧
      (vid.afMode_index = AfModeManual →
        set_controls (Vid.cycle vid iv sv).trace =
          [Action.SetControlsLens (Vid.cycle vid iv sv).next.state.lens_position] ∧
        guidance_count (Vid.cycle vid iv sv).trace = 0)) ∧
    ((Vid.Binary32.cycle vid iv sv).next.state.lens_position =
        f32 (sv.lens_position +
          (if kv = ch 'a' ∨ kv = ch 'A' then Vid.af_step else -Vid.af_step)) ∧
      (vid.afMode_index ≠ AfModeManual →
        set_controls (Vid.Binary32.cycle vid iv sv).trace = [] ∧
        guidance_count (Vid.Binary32.cycle vid iv sv).trace = 1) ∧
      (vid.afMode_index = AfModeManual →
        set_controls (Vid.Binary32.cycle vid iv sv).trace =
          [Action.SetControlsLens
            (Vid.Binary32.cycle vid iv sv).next.state.lens_position] ∧
        guidance_count (Vid.Binary32.cycle vid iv sv).trace = 0)) ∧
    ((Hello.cycle hello ih sh).next.state.lens_position =
        f32 (sh.lens_position +
          (if kh = ch 'a' ∨ kh = ch 'A' then Hello.af_step else -Hello.af_step)) ∧
      (∀ n : Int,
        sh.lens_position +
          (if kh = ch 'a' ∨ kh = ch 'A' then Hello.af_step else -Hello.af_step) = n →
        |n| ≤ 2 ^ 24 →
        (Hello.cycle hello ih sh).next.state.lens_position =
          sh.lens_position +
            (if kh = ch 'a' ∨ kh = ch 'A' then Hello.af_step else -Hello.af_step)) ∧
      (hello.afMode_index ≠ AfModeManual →
        set_controls (Hello.cycle hello ih sh).trace = [] ∧
        guidance_count (Hello.cycle hello ih sh).trace = 1) ∧
      (hello.afMode_index = AfModeManual →
        set_controls (Hello.cycle hello ih sh).trace =
          [Action.SetControlsLens (Hello.cycle hello ih sh).next.state.lens_position] ∧
        guidance_count (Hello.cycle hello ih sh).trace = 0)) ∧
    ((Jpeg.cycle still ij sj).next.state.lens_position =
        f32 (sj.lens_position +
          (if kj = ch 'a' ∨ kj = ch 'A' then Jpeg.af_step else -Jpeg.af_step)) ∧
      (∀ n : Int,
        sj.lens_position +
          (if kj = ch 'a' ∨ kj = ch 'A' then Jpeg.af_step else -Jpeg.af_step) = n →
        |n| ≤ 2 ^ 24 →
        (Jpeg.cycle still ij sj).next.state.lens_position =
          sj.lens_position +
            (if kj = ch 'a' ∨ kj = ch 'A' then Jpeg.af_step else -Jpeg.af_step)) ∧
      (still.afMode_index ≠ AfModeManual →
        set_controls (Jpeg.cycle still ij sj).trace = [] ∧
        guidance_count (Jpeg.cycle still ij sj).trace = 1) ∧
      (still.afMode_index = AfModeManual →
        set_controls (Jpeg.cycle still ij sj).trace =
          [Action.SetControlsLens (Jpeg.cycle still ij sj).next.state.lens_position] ∧
        guidance_count (Jpeg.cycle still ij sj).trace = 0)) := by
  obtain ⟨v1, v2, v3⟩ := Vid.vid_focus vid iv sv kv hmv hkv hfv
  obtain ⟨h1, h2, h3⟩ := Hello.hello_focus hello ih sh kh hmh hkh hfh
  obtain ⟨j1, j2, j3⟩ := Jpeg.jpeg_focus still ij sj kj hmj hkj hfj
  exact ⟨⟨v1, fun n hn hb => by rw [v1]; exact f32_of_intCast _ n hn hb, v2, v3⟩,
    Vid.Binary32.b32_focus vid iv sv kv hmv hkv hfv,
    ⟨h1, fun n hn hb => by rw [h1]; exact f32_of_intCast _ n hn hb, h2, h3⟩,
    ⟨j1, fun n hn hb => by rw [j1]; exact f32_of_intCast _ n hn hb, j2, j3⟩⟩

/-- Focus-near from the network with automatic focus configured (video app, from the
initial variables): `lens_position` becomes 1, no `SetControls`, one guidance message;
focus-far with manual focus configured (preview app): one `SetControls`, no guidance
message. -/
theorem manual_focus_mismatch_witness :
    ((Vid.cycle Vid.options_plain (frame_input 7 [ch 'a'] 0)
        Vid.init).next.state.lens_position = 1 ∧
      set_controls (Vid.cycle Vid.options_plain (frame_input 7 [ch 'a'] 0) Vid.init).trace
        = [] ∧
      guidance_count (Vid.cycle Vid.options_plain (frame_input 7 [ch 'a'] 0) Vid.init).trace
        = 1) ∧
    (set_controls
        (Hello.cycle Hello.options_manual (frame_input 7 [ch 'D'] 0) Hello.init).trace =
        [Action.SetControlsLens
          (Hello.cycle Hello.options_manual (frame_input 7 [ch 'D'] 0)
            Hello.init).next.state.lens_position] ∧
      guidance_count
        (Hello.cycle Hello.options_manual (frame_input 7 [ch 'D'] 0) Hello.init).trace = 0) :=
  have h := manual_focus_mismatch Vid.options_plain Hello.options_manual Jpeg.options_plain
    (frame_input 7 [ch 'a'] 0) (frame_input 7 [ch 'D'] 0) (frame_input 7 [ch 'A'] 0)
    Vid.init Hello.init Jpeg.init (ch 'a') (ch 'D') (ch 'A') rfl
    (by
      simp [Vid.vid_cycle_keys, Vid.apply_command, frame_input, Vid.options_plain, Vid.init,
        Vid.get_key_or_signal, fallback, first_char, ch, SIGINT])
    (by decide) rfl
    (by
      simp [Hello.hello_cycle_keys, frame_input, Hello.options_manual, Hello.init,
        Hello.get_key_or_signal, fallback, first_char, ch])
    (by decide) rfl
    (by
      simp [Jpeg.jpeg_cycle_keys, frame_input, Jpeg.options_plain, Jpeg.init,
        Jpeg.get_key_or_signal, fallback, first_char, ch])
    (by decide)
  ⟨⟨(h.1.2.1 1 (by norm_num [Vid.init, Vid.af_step, ch]) (by norm_num)).trans
      (by norm_num [Vid.init, Vid.af_step, ch]),
    h.1.2.2.1 (by decide)⟩, h.2.2.1.2.2.2 rfl⟩

/-! ## Crop control of the video loop -/

namespace Vid

/-- The crop rectangle computed from the zoom variables (line 213). -/
theorem apply_command_crops (options : VideoOptions) (inp : CycleInput) (st : State) :
    crops (apply_command options inp st).trace =
      if isalpha (apply_command options inp st).key = true then
        [((apply_command options inp st).st.scale / 2 +
            (apply_command options inp st).st.offset_x,
          (apply_command options inp st).st.scale / 2 +
            (apply_command options inp st).st.offset_y,
          1 - (apply_command options inp st).st.scale,
          1 - (apply_command options inp st).st.scale)]
      else [] := by
  simp only [apply_command, crops_append, apply_key_trace, crop_actions, focus_actions]
  split_ifs <;> simp_all [crops]

/-- The crop calls of a `RequestComplete` iteration, in terms of the variables it
leaves. -/
theorem cycle_crops (options : VideoOptions) (inp : CycleInput) (st : State)
    (hmsg : inp.msg.type = MsgType.RequestComplete) :
    crops (cycle options inp st).trace =
      (if isalpha (apply_command options inp st).key = true then
        [((cycle options inp st).next.state.scale / 2 +
            (cycle options inp st).next.state.offset_x,
          (cycle options inp st).next.state.scale / 2 +
            (cycle options inp st).next.state.offset_y,
          1 - (cycle options inp st).next.state.scale,
          1 - (cycle options inp st).next.state.scale)]
      else []) ∧
    clamp (cycle options inp st).next.state = (cycle options inp st).next.state := by
  obtain ⟨htr, e1, e2, e3, -⟩ := cycle_request_complete options inp st hmsg
  have hinv : ClampInv (cycle options inp st).next.state := by
    unfold ClampInv
    rw [e1, e2, e3]
    exact apply_command_inv options inp st
  refine ⟨?_, clamp_of_inv _ hinv⟩
  rw [e1, e2, e3, ← apply_command_crops]
  rcases htr with h | h <;> rw [h, crops_append] <;> simp [crops]

end Vid

namespace Vid

end Vid

/-! ## Zoom reset -/

namespace Vid

theorem apply_key_scale (key : Int) (st : State) :
    (apply_key key st).1.scale =
      if key = ch 'w' ∨ key = ch 'W' then st.scale + 1 / 20
      else if key = ch 's' ∨ key = ch 'S' then st.scale - 1 / 20
      else if key = ch 'm' ∨ key = ch 'M' then 19 / 20
      else if key = ch 'r' ∨ key = ch 'R' then 0
      else st.scale := by
  unfold apply_key
  simp only [ch, Char.reduceToNat, Int.ofNat_eq_coe, Nat.cast_ofNat]
  by_cases h0 : key = 119 ∨ key = 87
  · simp only [if_pos h0]
  rw [if_neg h0]
  by_cases h1 : key = 102 ∨ key = 70
  · rw [if_pos h1]
    split_ifs <;> first | rfl | (exfalso; omega)
  rw [if_neg h1]
  by_cases h2 : key = 100 ∨ key = 68
  · rw [if_pos h2]
    split_ifs <;> first | rfl | (exfalso; omega)
  rw [if_neg h2]
  by_cases h3 : key = 97 ∨ key = 65
  · rw [if_pos h3]
    split_ifs <;> first | rfl | (exfalso; omega)
  rw [if_neg h3]
  by_cases h4 : key = 115 ∨ key = 83
  · rw [if_pos h4]
    split_ifs <;> first | rfl | (exfalso; omega)
  rw [if_neg h4]
  by_cases h5 : key = 108 ∨ key = 76
  · rw [if_pos h5]
    split_ifs <;> first | rfl | (exfalso; omega)
  rw [if_neg h5]
  by_cases h6 : key = 106 ∨ key = 74
  · rw [if_pos h6]
    split_ifs <;> first | rfl | (exfalso; omega)
  rw [if_neg h6]
  by_cases h7 : key = 105 ∨ key = 73
  · rw [if_pos h7]
    split_ifs <;> first | rfl | (exfalso; omega)
  rw [if_neg h7]
  by_cases h8 : key = 107 ∨ key = 75
  · rw [if_pos h8]
    split_ifs <;> first | rfl | (exfalso; omega)
  rw [if_neg h8]
  by_cases h9 : key = 109 ∨ key = 77
  · rw [if_pos h9]
    split_ifs <;> first | rfl | (exfalso; omega)
  rw [if_neg h9]
  by_cases h10 : key = 114 ∨ key = 82
  · rw [if_pos h10]
    split_ifs <;> first | rfl | (exfalso; omega)
  rw [if_neg h10]
  split_ifs <;> first | rfl | (exfalso; omega)

/-- With `scale = 0` the clamping statements leave all three zoom variables at zero. -/
theorem clamp_unzoomed (st : State) (h : st.scale = 0) : Unzoomed (clamp st) := by
  have hs : clamp_scale st.scale = 0 := by
    rw [h]
    norm_num [clamp_scale]
  have ho : ∀ o : ℚ, clamp_offset 0 o = 0 := by
    intro o
    unfold clamp_offset
    split_ifs with h1 h2
    · norm_num
    · norm_num
    · norm_num at h1 h2
      exact le_antisymm h1 h2
  unfold Unzoomed clamp
  simp only [hs, ho]
  exact ⟨trivial, trivial, trivial⟩

theorem reset_pan_scale (key : Int) (st : State)
    (h : is_reset_key key = true ∨ (is_pan_key key = true ∧ st.scale = 0)) :
    (apply_key key st).1.scale = 0 := by
  rw [apply_key_scale]
  simp only [is_reset_key, is_pan_key, ch, Char.reduceToNat, Int.ofNat_eq_coe,
    Nat.cast_ofNat, Bool.or_eq_true, decide_eq_true_eq] at h ⊢
  rcases h with h | ⟨h, hs⟩
  · rw [if_neg (by omega), if_neg (by omega), if_neg (by omega), if_pos (by omega)]
  · rw [if_neg (by omega), if_neg (by omega), if_neg (by omega), if_neg (by omega), hs]

/-- A reset iteration, or a pan iteration that starts with `scale = 0`, leaves the zoom
variables at zero and calls `SetScalerCrop(0, 0, 1, 1)` once. -/
theorem cycle_unzoomed (options : VideoOptions) (inp : CycleInput) (st : State)
    (hmsg : inp.msg.type = MsgType.RequestComplete)
    (h : is_reset_key (apply_command options inp st).key = true ∨
      (is_pan_key (apply_command options inp st).key = true ∧ st.scale = 0)) :
    Unzoomed (cycle options inp st).next.state ∧
    crops (cycle options inp st).trace = [(0, 0, 1, 1)] := by
  have hz : Unzoomed (apply_command options inp st).st := by
    apply clamp_unzoomed
    exact reset_pan_scale _ _ h
  obtain ⟨-, e1, e2, e3, -⟩ := cycle_request_complete options inp st hmsg
  obtain ⟨h1, -⟩ := cycle_crops options inp st hmsg
  have hal : isalpha (apply_command options inp st).key = true := by
    simp only [is_reset_key, is_pan_key, isalpha, ch, Char.reduceToNat, Int.ofNat_eq_coe,
      Nat.cast_ofNat, Bool.or_eq_true, Bool.and_eq_true, decide_eq_true_eq] at h ⊢
    omega
  obtain ⟨z1, z2, z3⟩ := hz
  rw [if_pos hal, e1, e2, e3, z1, z2, z3] at h1
  refine ⟨⟨e1.trans z1, e2.trans z2, e3.trans z3⟩, ?_⟩
  rw [h1]
  norm_num

theorem deliver_unzoomed (signal : Option Int) (st : State) (h : Unzoomed st) :
    Unzoomed (deliver signal st) := by
  cases signal <;> exact h

/-- Pan commands keep the zoom variables at zero once they are zero. -/
theorem event_loop_pans (options : VideoOptions) (events tail : List Event) (st : State)
    (hz : Unzoomed st)
    (hall : ∀ e ∈ events, e.2.msg.type = MsgType.RequestComplete)
    (hp : ∀ k ∈ (event_loop options (events ++ tail) st).keys, is_pan_key k = true) :
    Unzoomed (event_loop options events st).next.state ∧
    ∀ c ∈ crops (event_loop options events st).trace, c = (0, 0, 1, 1) := by
  induction events generalizing st with
  | nil =>
    refine ⟨hz, ?_⟩
    intro c hc
    simp [event_loop, crops] at hc
  | cons e rest ih =>
    have hmsg : e.2.msg.type = MsgType.RequestComplete := hall e (List.mem_cons_self _ _)
    have hkey : is_pan_key (apply_command options e.2 (deliver e.1 st)).key = true := by
      apply hp
      rw [List.cons_append]
      apply keys_cycle_subset
      rw [vid_cycle_keys options e.2 _ hmsg]
      exact List.mem_singleton_self _
    obtain ⟨c1, c2⟩ := cycle_unzoomed options e.2 (deliver e.1 st) hmsg
      (Or.inr ⟨hkey, (deliver_unzoomed e.1 st hz).1⟩)
    cases hn : (cycle options e.2 (deliver e.1 st)).next with
    | running st1 =>
      rw [hn] at c1
      obtain ⟨i1, i2⟩ := ih st1 c1 (fun e1 he1 => hall e1 (List.mem_cons_of_mem _ he1))
        (by
          intro k hk
          apply hp
          rw [List.cons_append, event_loop_cons_running options e (rest ++ tail) st st1 hn]
          exact List.mem_append_right _ hk)
      rw [event_loop_cons_running options e rest st st1 hn]
      refine ⟨i1, ?_⟩
      intro c hc
      simp only [crops_append, c2, List.mem_append, List.mem_singleton] at hc
      rcases hc with hc | hc
      · exact hc
      · exact i2 c hc
    | terminated st1 =>
      rw [event_loop_cons_stopped options e rest st (by rw [hn]; rfl)]
      refine ⟨c1, ?_⟩
      intro c hc
      rw [c2, List.mem_singleton] at hc
      exact hc
    | raised st1 =>
      rw [event_loop_cons_stopped options e rest st (by rw [hn]; rfl)]
      refine ⟨c1, ?_⟩
      intro c hc
      rw [c2, List.mem_singleton] at hc
      exact hc

end Vid

namespace Vid

/-- C12. Zoom-reset pins the offsets at zero. In the video loop, from every state (also
one with `scale = 0.95` and the offsets at their extremes), consider `RequestComplete`
iterations whose resolved commands are a zoom-reset (`'r'` or `'R'`) followed by pan
commands (`'j'`, `'l'`, `'i'`, `'k'` in either case): after the reset iteration and after
every later one of them, `scale = 0` and `offset_x = offset_y = 0`, and every crop
rectangle emitted in those iterations is exactly `(0, 0, 1, 1)`. The iterations
considered are `e :: rest`, any initial part of the run `e :: rest ++ tail`. -/
theorem zoom_reset_pins (options : VideoOptions) (e : Event) (rest tail : List Event)
    (st : State) (k : Int) (ks : List Int)
    (hall : ∀ e1 ∈ e :: rest, e1.2.msg.type = MsgType.RequestComplete)
    (hkeys : (event_loop options (e :: rest ++ tail) st).keys = k :: ks)
    (hr : is_reset_key k = true) (hp : ∀ p ∈ ks, is_pan_key p = true) :
    (event_loop options (e :: rest) st).next.state.scale = 0 ∧
    (event_loop options (e :: rest) st).next.state.offset_x = 0 ∧
    (event_loop options (e :: rest) st).next.state.offset_y = 0 ∧
    ∀ c ∈ crops (event_loop options (e :: rest) st).trace, c = (0, 0, 1, 1) := by
  have hmsg : e.2.msg.type = MsgType.RequestComplete := hall e (List.mem_cons_self _ _)
  have hck := vid_cycle_keys options e.2 (deliver e.1 st) hmsg
  cases hn : (cycle options e.2 (deliver e.1 st)).next with
  | running st1 =>
    rw [List.cons_append, event_loop_cons_running options e (rest ++ tail) st st1 hn, hck,
      List.singleton_append, List.cons.injEq] at hkeys
    obtain ⟨hk1, hk2⟩ := hkeys
    obtain ⟨c1, c2⟩ := cycle_unzoomed options e.2 (deliver e.1 st) hmsg
      (Or.inl (by rw [hk1]; exact hr))
    rw [hn] at c1
    obtain ⟨⟨i1, i2, i3⟩, i4⟩ := event_loop_pans options rest tail st1 c1
      (fun e1 he1 => hall e1 (List.mem_cons_of_mem _ he1))
      (by rw [hk2]; exact hp)
    rw [event_loop_cons_running options e rest st st1 hn]
    refine ⟨i1, i2, i3, ?_⟩
    intro c hc
    simp only [crops_append, c2, List.mem_append, List.mem_singleton] at hc
    rcases hc with hc | hc
    · exact hc
    · exact i4 c hc
  | terminated st1 =>
    have hst : (cycle options e.2 (deliver e.1 st)).next.is_running = false := by
      rw [hn]; rfl
    rw [List.cons_append, event_loop_cons_stopped options e (rest ++ tail) st hst, hck,
      List.cons.injEq] at hkeys
    obtain ⟨⟨c1, c2, c3⟩, c4⟩ := cycle_unzoomed options e.2 (deliver e.1 st) hmsg
      (Or.inl (by rw [hkeys.1]; exact hr))
    rw [event_loop_cons_stopped options e rest st hst]
    refine ⟨c1, c2, c3, ?_⟩
    intro c hc
    rw [c4, List.mem_singleton] at hc
    exact hc
  | raised st1 =>
    have hst : (cycle options e.2 (deliver e.1 st)).next.is_running = false := by
      rw [hn]; rfl
    rw [List.cons_append, event_loop_cons_stopped options e (rest ++ tail) st hst, hck,
      List.cons.injEq] at hkeys
    obtain ⟨⟨c1, c2, c3⟩, c4⟩ := cycle_unzoomed options e.2 (deliver e.1 st) hmsg
      (Or.inl (by rw [hkeys.1]; exact hr))
    rw [event_loop_cons_stopped options e rest st hst]
    refine ⟨c1, c2, c3, ?_⟩
    intro c hc
    rw [c4, List.mem_singleton] at hc
    exact hc

/-- From maximum zoom with the offsets at their upper bounds: reset, pan left, pan
down. -/
theorem zoom_reset_pins_witness :
    (event_loop options_plain
      [(none, frame_input 1 [ch 'r'] 0), (none, frame_input 2 [ch 'j'] 1),
        (none, frame_input 3 [ch 'K'] 2)] state_max_zoom).next.state.scale = 0 ∧
    (event_loop options_plain
      [(none, frame_input 1 [ch 'r'] 0), (none, frame_input 2 [ch 'j'] 1),
        (none, frame_input 3 [ch 'K'] 2)] state_max_zoom).next.state.offset_x = 0 :=
  have h := zoom_reset_pins options_plain (none, frame_input 1 [ch 'r'] 0)
    [(none, frame_input 2 [ch 'j'] 1), (none, frame_input 3 [ch 'K'] 2)] []
    state_max_zoom (ch 'r') [ch 'j', ch 'K']
    (by simp [frame_input])
    (by
      simp [event_loop, cycle, deliver, apply_command, frame_input, options_plain,
        state_max_zoom, get_key_or_signal, fallback, first_char, should_stop, timeout,
        frameout, is_quit, apply_key, clamp, incr_count, ch, SIGINT])
    (by decide) (by decide)
  ⟨h.1, h.2.1⟩

end Vid

/-! ## Still capture loop -/

theorem pipeline_calls_append (l1 l2 : List Action) :
    pipeline_calls (l1 ++ l2) = pipeline_calls l1 ++ pipeline_calls l2 := by
  induction l1 with
  | nil => rfl
  | cons a t ih => cases a <;> simp [pipeline_calls, ih]

namespace Jpeg

/-- Lines 104-147 only call `SetControls` and write messages. -/
theorem jpeg_apply_command_trace (options : StillOptions) (inp : CycleInput) (st : State) :
    saved (apply_command options inp st).trace = [] ∧
    previewed (apply_command options inp st).trace = [] ∧
    pipeline_calls (apply_command options inp st).trace = [] ∧
    Action.StopCamera ∉ (apply_command options inp st).trace ∧
    (¬ ((apply_command options inp st).key = ch 'f' ∨
        (apply_command options inp st).key = ch 'F') →
      is_focus_key (apply_command options inp st).key = false →
      (apply_command options inp st).trace = []) := by
  simp only [apply_command, saved_append, previewed_append, pipeline_calls_append,
    (jpeg_apply_key _ _).2.2.2, focus_actions, List.mem_append]
  refine ⟨?_, ?_, ?_, ?_, ?_⟩ <;> split_ifs <;>
    simp_all [saved, previewed, pipeline_calls]

theorem jpeg_cycle_cons_running (options : StillOptions) (e : Event) (rest : List Event)
    (st st1 : State) (h : (cycle options e.2 (deliver e.1 st)).next = .running st1) :
    event_loop options (e :: rest) st =
      { trace := (cycle options e.2 (deliver e.1 st)).trace ++
          (event_loop options rest st1).trace,
        keys := (cycle options e.2 (deliver e.1 st)).keys ++
          (event_loop options rest st1).keys,
        next := (event_loop options rest st1).next } := by
  simp only [event_loop, h]

theorem jpeg_cycle_cons_stopped (options : StillOptions) (e : Event) (rest : List Event)
    (st : State) (h : (cycle options e.2 (deliver e.1 st)).next.is_running = false) :
    event_loop options (e :: rest) st = cycle options e.2 (deliver e.1 st) := by
  unfold event_loop
  dsimp only
  split
  · next st1 heq => simp [heq, Outcome.is_running] at h
  · next o hne => rfl

theorem jpeg_deliver_mode (signal : Option Int) (st : State) :
    (deliver signal st).mode = st.mode := by
  cases signal <;> rfl

/-- What an iteration does, by message type, resolved command and mode. -/
theorem jpeg_cycle_cases (options : StillOptions) (inp : CycleInput) (st : State) :
    (inp.msg.type = MsgType.Timeout ∧ cycle options inp st =
      { trace := [Action.StopCamera, Action.StartCamera], keys := [],
        next := .running st }) ∨
    (inp.msg.type = MsgType.Quit ∧ cycle options inp st =
      { trace := [], keys := [], next := .terminated st }) ∨
    ((∃ code, inp.msg.type = MsgType.Other code) ∧ cycle options inp st =
      { trace := [], keys := [], next := .raised st }) ∨
    (inp.msg.type = MsgType.RequestComplete ∧
      is_quit (apply_command options inp st).key = true ∧
      (cycle options inp st).trace = [] ∧
      (cycle options inp st).next.is_terminated = true) ∨
    (inp.msg.type = MsgType.RequestComplete ∧
      is_quit (apply_command options inp st).key = false ∧
      st.mode = CaptureMode.Viewfinder ∧
      (options.timeout ≠ 0 ∧ inp.elapsed > options.timeout) ∧
      cycle options inp st =
        { trace := (apply_command options inp st).trace ++
            [Action.StopCamera, Action.Teardown, Action.ConfigureStill,
              Action.StartCamera],
          keys := [(apply_command options inp st).key],
          next := .running { (apply_command options inp st).st with
            mode := .StillCapture } }) ∨
    (inp.msg.type = MsgType.RequestComplete ∧
      is_quit (apply_command options inp st).key = false ∧
      st.mode = CaptureMode.Viewfinder ∧
      ¬ (options.timeout ≠ 0 ∧ inp.elapsed > options.timeout) ∧
      cycle options inp st =
        { trace := (apply_command options inp st).trace ++
            [Action.ShowPreview inp.msg.payload],
          keys := [(apply_command options inp st).key],
          next := .running (apply_command options inp st).st }) ∨
    (inp.msg.type = MsgType.RequestComplete ∧
      is_quit (apply_command options inp st).key = false ∧
      st.mode = CaptureMode.StillCapture ∧
      cycle options inp st =
        { trace := (apply_command options inp st).trace ++
            [Action.StopCamera, Action.JpegSave inp.msg.payload],
          keys := [(apply_command options inp st).key],
          next := .terminated (apply_command options inp st).st }) := by
  cases hmsg : inp.msg.type with
  | Timeout => exact Or.inl ⟨rfl, jpeg_cycle_timeout options inp st hmsg⟩
  | Quit =>
    refine Or.inr (Or.inl ⟨rfl, ?_⟩)
    unfold cycle
    simp only [hmsg]
  | Other code =>
    refine Or.inr (Or.inr (Or.inl ⟨⟨code, rfl⟩, ?_⟩))
    unfold cycle
    simp only [hmsg]
  | RequestComplete =>
    cases hq : is_quit (apply_command options inp st).key with
    | true =>
      have hk : ∃ k ∈ (cycle options inp st).keys, is_quit k = true :=
        ⟨_, by rw [jpeg_cycle_keys options inp st hmsg]; exact List.mem_singleton_self _,
          hq⟩
      obtain ⟨h1, h2⟩ := jpeg_cycle_quit options inp st hmsg hk
      exact Or.inr (Or.inr (Or.inr (Or.inl ⟨rfl, rfl, h2, h1⟩)))
    | false =>
      have hc := jpeg_cycle_continue options inp st hmsg hq
      cases hmode : st.mode with
      | Viewfinder =>
        rw [hmode] at hc
        by_cases ht : options.timeout ≠ 0 ∧ inp.elapsed > options.timeout
        · simp only [if_pos ht] at hc
          exact Or.inr (Or.inr (Or.inr (Or.inr (Or.inl ⟨rfl, rfl, rfl, ht, hc⟩))))
        · simp only [if_neg ht] at hc
          exact Or.inr (Or.inr (Or.inr (Or.inr (Or.inr (Or.inl ⟨rfl, rfl, rfl, ht, hc⟩)))))
      | StillCapture =>
        rw [hmode] at hc
        exact Or.inr (Or.inr (Or.inr (Or.inr (Or.inr (Or.inr ⟨rfl, rfl, rfl, hc⟩)))))

end Jpeg

namespace Jpeg

/-- An iteration saves nothing, or it is a still capture iteration that ends with
`jpeg_save` and returns. -/
theorem jpeg_cycle_saved (options : StillOptions) (inp : CycleInput) (st : State) :
    saved (cycle options inp st).trace = [] ∨
    (st.mode = CaptureMode.StillCapture ∧
      (cycle options inp st).trace = (apply_command options inp st).trace ++
        [Action.StopCamera, Action.JpegSave inp.msg.payload] ∧
      (cycle options inp st).next.is_terminated = true) := by
  obtain ⟨s1, s2, -, -, -⟩ := jpeg_apply_command_trace options inp st
  rcases jpeg_cycle_cases options inp st with
    ⟨-, h⟩ | ⟨-, h⟩ | ⟨-, h⟩ | ⟨-, -, h, -⟩ | ⟨-, -, -, -, h⟩ | ⟨-, -, -, -, h⟩ | ⟨-, -, hm, h⟩
  · left; rw [h]; rfl
  · left; rw [h]; rfl
  · left; rw [h]; rfl
  · left; rw [h]; rfl
  · left; rw [h]; simp [saved_append, s1, saved]
  · left; rw [h]; simp [saved_append, s1, saved]
  · right; rw [h]; exact ⟨hm, rfl, rfl⟩

/-- A run saves nothing, or its last action is the one `jpeg_save` and it has
returned. -/
theorem jpeg_run_saved (options : StillOptions) (events : List Event) (st : State) :
    saved (event_loop options events st).trace = [] ∨
    ∃ before frame, (event_loop options events st).trace =
        before ++ [Action.JpegSave frame] ∧ saved before = [] ∧
      (event_loop options events st).next.is_terminated = true := by
  induction events generalizing st with
  | nil => left; rfl
  | cons e rest ih =>
    obtain ⟨s1, -, -, -, -⟩ := jpeg_apply_command_trace options e.2 (deliver e.1 st)
    cases hn : (cycle options e.2 (deliver e.1 st)).next with
    | running st1 =>
      rw [jpeg_cycle_cons_running options e rest st st1 hn]
      have hc : saved (cycle options e.2 (deliver e.1 st)).trace = [] := by
        rcases jpeg_cycle_saved options e.2 (deliver e.1 st) with h | ⟨-, -, h⟩
        · exact h
        · rw [hn] at h
          cases h
      rcases ih st1 with h | ⟨before, frame, h1, h2, h3⟩
      · left
        simp only [saved_append, hc, h, List.append_nil]
      · right
        refine ⟨(cycle options e.2 (deliver e.1 st)).trace ++ before, frame, ?_, ?_, h3⟩
        · simp only [h1, List.append_assoc]
        · simp only [saved_append, hc, h2, List.append_nil]
    | terminated st1 =>
      rw [jpeg_cycle_cons_stopped options e rest st (by rw [hn]; rfl)]
      rcases jpeg_cycle_saved options e.2 (deliver e.1 st) with h | ⟨-, h1, h2⟩
      · left; exact h
      · right
        refine ⟨(apply_command options e.2 (deliver e.1 st)).trace ++ [Action.StopCamera],
          e.2.msg.payload, ?_, ?_, h2⟩
        · simp only [h1, List.append_assoc, List.singleton_append]
        · simp only [saved_append, s1, List.nil_append]
          rfl
    | raised st1 =>
      rw [jpeg_cycle_cons_stopped options e rest st (by rw [hn]; rfl)]
      rcases jpeg_cycle_saved options e.2 (deliver e.1 st) with h | ⟨-, -, h⟩
      · left; exact h
      · rw [hn] at h
        cases h

/-- C14. Still capture captures exactly one frame and then stops. In the still capture
loop, with the capture mode as explicit state, every iteration in `StillCapture` mode
whose message is `RequestComplete` and whose resolved command is not quit stops the
camera once, saves that frame exactly once as its last action, and returns. An iteration
in `Viewfinder` mode saves nothing. Hence every run saves at most one frame, and when
it saves one the `jpeg_save` call is the last action of the run and the loop has
returned. -/
theorem still_capture_once (options : StillOptions) (inp : CycleInput) (st : State)
    (hmsg : inp.msg.type = MsgType.RequestComplete)
    (hmode : st.mode = CaptureMode.StillCapture)
    (hnq : ∀ k ∈ (cycle options inp st).keys, is_quit k = false) :
    (∃ before, (cycle options inp st).trace =
        before ++ [Action.StopCamera, Action.JpegSave inp.msg.payload] ∧
      Action.StopCamera ∉ before ∧ saved before = []) ∧
    saved (cycle options inp st).trace = [inp.msg.payload] ∧
    (cycle options inp st).next.is_terminated = true ∧
    (∀ inp1 st1, st1.mode = CaptureMode.Viewfinder →
      saved (cycle options inp1 st1).trace = []) ∧
    (∀ events st1,
      saved (event_loop options events st1).trace = [] ∨
      ∃ before frame, (event_loop options events st1).trace =
          before ++ [Action.JpegSave frame] ∧ saved before = [] ∧
        (event_loop options events st1).next.is_terminated = true) := by
  have hq : is_quit (apply_command options inp st).key = false := by
    apply hnq
    rw [jpeg_cycle_keys options inp st hmsg]
    exact List.mem_singleton_self _
  have hc := jpeg_cycle_continue options inp st hmsg hq
  rw [hmode] at hc
  obtain ⟨s1, -, -, s4, -⟩ := jpeg_apply_command_trace options inp st
  refine ⟨⟨_, by rw [hc], s4, s1⟩, ?_, by rw [hc]; rfl, ?_, jpeg_run_saved options⟩
  · rw [hc]
    simp only [saved_append, s1, List.nil_append]
    rfl
  · intro inp1 st1 hv
    rcases jpeg_cycle_saved options inp1 st1 with h | ⟨h, -, -⟩
    · exact h
    · rw [hv] at h
      cases h

/-- A frame received in still capture mode with no command pending is saved and the
loop returns. -/
theorem still_capture_once_witness :
    saved (cycle options_plain (frame_input 7 [] 0) state_still).trace = [7] ∧
    (cycle options_plain (frame_input 7 [] 0) state_still).next.is_terminated = true :=
  have h := still_capture_once options_plain (frame_input 7 [] 0) state_still rfl rfl
    (by
      simp [jpeg_cycle_keys, frame_input, options_plain, state_still, get_key_or_signal,
        fallback, first_char, is_quit, ch])
  ⟨h.2.1, h.2.2.1⟩

end Jpeg

namespace Jpeg

/-- An iteration that keeps looping keeps the mode, or it is the switch from viewfinder
to still capture. -/
theorem jpeg_cycle_mode (options : StillOptions) (inp : CycleInput) (st st1 : State)
    (hn : (cycle options inp st).next = .running st1) :
    st1.mode = st.mode ∨
    (st.mode = CaptureMode.Viewfinder ∧ st1.mode = CaptureMode.StillCapture ∧
      inp.msg.type = MsgType.RequestComplete ∧
      (options.timeout ≠ 0 ∧ inp.elapsed > options.timeout) ∧
      (cycle options inp st).trace = (apply_command options inp st).trace ++
        [Action.StopCamera, Action.Teardown, Action.ConfigureStill,
          Action.StartCamera]) := by
  rcases jpeg_cycle_cases options inp st with
    ⟨-, h⟩ | ⟨-, h⟩ | ⟨-, h⟩ | ⟨-, -, -, h⟩ | ⟨hm, -, hv, ht, h⟩ | ⟨-, -, -, -, h⟩ | ⟨-, -, -, h⟩
  · rw [h] at hn
    simp only [Outcome.running.injEq] at hn
    left; rw [hn]
  · rw [h] at hn; cases hn
  · rw [h] at hn; cases hn
  · rw [hn] at h; cases h
  · right
    refine ⟨hv, ?_, hm, ht, by rw [h]⟩
    rw [h] at hn
    simp only [Outcome.running.injEq] at hn
    rw [← hn]
  · left
    rw [h] at hn
    simp only [Outcome.running.injEq] at hn
    rw [← hn]
    exact jpeg_apply_command_mode options inp st
  · rw [h] at hn; cases hn

theorem modes_still (options : StillOptions) (events : List Event) (st : State)
    (hs : st.mode = CaptureMode.StillCapture) :
    ∃ b c, c ≤ 1 ∧ modes options events st =
      List.replicate b Mode.StillCapture ++ List.replicate c Mode.Terminated := by
  have hms : ∀ s : State, s.mode = CaptureMode.StillCapture →
      mode_of_state s = Mode.StillCapture := by
    intro s h
    simp [mode_of_state, h]
  induction events generalizing st with
  | nil => exact ⟨1, 0, by omega, by simp [modes, hms st hs]⟩
  | cons e rest ih =>
    unfold modes
    rw [hms st hs]
    cases hn : (cycle options e.2 (deliver e.1 st)).next with
    | running st1 =>
      have hm1 : st1.mode = CaptureMode.StillCapture := by
        rcases jpeg_cycle_mode options e.2 (deliver e.1 st) st1 hn with h | ⟨h, -⟩
        · rw [h, jpeg_deliver_mode, hs]
        · rw [jpeg_deliver_mode, hs] at h
          cases h
      obtain ⟨b, c, hc, h⟩ := ih st1 hm1
      exact ⟨b + 1, c, hc, by simp only [h, List.replicate_succ, List.cons_append]⟩
    | terminated st1 => exact ⟨1, 1, by omega, by simp⟩
    | raised st1 => exact ⟨1, 0, by omega, by simp⟩

/-- The sequence of modes of every run is a prefix of `Viewfinder*`, `StillCapture*`,
`Terminated`. -/
theorem modes_monotonic (options : StillOptions) (events : List Event) (st : State) :
    ∃ a b c, c ≤ 1 ∧ modes options events st =
      List.replicate a Mode.Viewfinder ++ List.replicate b Mode.StillCapture ++
        List.replicate c Mode.Terminated := by
  induction events generalizing st with
  | nil =>
    cases hm : st.mode with
    | Viewfinder => exact ⟨1, 0, 0, by omega, by simp [modes, mode_of_state, hm]⟩
    | StillCapture => exact ⟨0, 1, 0, by omega, by simp [modes, mode_of_state, hm]⟩
  | cons e rest ih =>
    cases hm : st.mode with
    | StillCapture =>
      obtain ⟨b, c, hc, h⟩ := modes_still options (e :: rest) st hm
      exact ⟨0, b, c, hc, by simp [h]⟩
    | Viewfinder =>
      have hmv : mode_of_state st = Mode.Viewfinder := by simp [mode_of_state, hm]
      unfold modes
      rw [hmv]
      cases hn : (cycle options e.2 (deliver e.1 st)).next with
      | running st1 =>
        obtain ⟨a, b, c, hc, h⟩ := ih st1
        exact ⟨a + 1, b, c, hc, by simp only [h, List.replicate_succ, List.cons_append]⟩
      | terminated st1 => exact ⟨1, 0, 1, by omega, by simp⟩
      | raised st1 => exact ⟨1, 0, 0, by omega, by simp⟩

/-- Once the loop has returned, further events are not processed. -/
theorem jpeg_terminated_absorbing (options : StillOptions) (l1 l2 : List Event) (st : State)
    (h : (event_loop options l1 st).next.is_terminated = true) :
    event_loop options (l1 ++ l2) st = event_loop options l1 st := by
  induction l1 generalizing st with
  | nil => cases h
  | cons e rest ih =>
    cases hn : (cycle options e.2 (deliver e.1 st)).next with
    | running st1 =>
      rw [jpeg_cycle_cons_running options e rest st st1 hn] at h ⊢
      rw [List.cons_append, jpeg_cycle_cons_running options e (rest ++ l2) st st1 hn,
        ih st1 h]
    | terminated st1 =>
      rw [List.cons_append, jpeg_cycle_cons_stopped options e rest st (by rw [hn]; rfl),
        jpeg_cycle_cons_stopped options e (rest ++ l2) st (by rw [hn]; rfl)]
    | raised st1 =>
      rw [List.cons_append, jpeg_cycle_cons_stopped options e rest st (by rw [hn]; rfl),
        jpeg_cycle_cons_stopped options e (rest ++ l2) st (by rw [hn]; rfl)]

end Jpeg

namespace Jpeg

/-- The actions of lines 104-147, written out: the autofocus trigger for `'f'`, then for
a focus key the manual focus control and its message, or the guidance message. -/
theorem jpeg_command_trace (options : StillOptions) (inp : CycleInput) (st : State) :
    (apply_command options inp st).trace =
      (if (apply_command options inp st).key = ch 'f' ∨
          (apply_command options inp st).key = ch 'F' then [Action.SetControlsAfTrigger]
        else []) ++
      (if is_focus_key (apply_command options inp st).key = true then
          if options.afMode_index = AfModeManual then
            [Action.SetControlsLens (apply_command options inp st).st.lens_position,
              Action.PrintTargetLens (apply_command options inp st).st.lens_position]
          else [Action.PrintGuidance]
        else []) := by
  simp only [apply_command, (jpeg_apply_key _ _).2.2.2, focus_actions]

/-- The iteration that switches from viewfinder to still capture. -/
theorem jpeg_transition_step (options : StillOptions) (inp : CycleInput) (st st1 : State)
    (hv : st.mode = CaptureMode.Viewfinder)
    (hn : (cycle options inp st).next = .running st1)
    (hs : st1.mode = CaptureMode.StillCapture) :
    inp.msg.type = MsgType.RequestComplete ∧
    (options.timeout ≠ 0 ∧ inp.elapsed > options.timeout) ∧
    (cycle options inp st).trace = (apply_command options inp st).trace ++
      [Action.StopCamera, Action.Teardown, Action.ConfigureStill, Action.StartCamera] ∧
    (cycle options inp st).keys = [(apply_command options inp st).key] ∧
    st1.lens_position = (apply_command options inp st).st.lens_position := by
  rcases jpeg_cycle_cases options inp st with
    ⟨-, h⟩ | ⟨-, h⟩ | ⟨-, h⟩ | ⟨-, -, -, h⟩ | ⟨hm, -, -, ht, h⟩ | ⟨-, -, -, -, h⟩ | ⟨-, -, -, h⟩
  · rw [h] at hn
    simp only [Outcome.running.injEq] at hn
    rw [← hn, hv] at hs
    cases hs
  · rw [h] at hn; cases hn
  · rw [h] at hn; cases hn
  · rw [hn] at h; cases h
  · refine ⟨hm, ht, by rw [h], by rw [h], ?_⟩
    rw [h] at hn
    simp only [Outcome.running.injEq] at hn
    rw [← hn]
  · rw [h] at hn
    simp only [Outcome.running.injEq] at hn
    rw [← hn, jpeg_apply_command_mode options inp st, hv] at hs
    cases hs
  · rw [h] at hn; cases hn

/-- C15, the claim as worded fails. Delay of 2000 ticks, frame received after 2001 ticks
in viewfinder mode, command `'f'` on the network line: the iteration switches to still
capture, and its trace has five actions, the autofocus trigger `SetControls` call and
then the four pipeline calls, not exactly the four. -/
theorem mode_transitions_monotonic_counterexample :
    init.mode = CaptureMode.Viewfinder ∧
    (cycle options_delay (frame_input 7 [ch 'f'] 2001) init).next =
      .running state_still ∧
    state_still.mode = CaptureMode.StillCapture ∧
    (cycle options_delay (frame_input 7 [ch 'f'] 2001) init).trace =
      [Action.SetControlsAfTrigger, Action.StopCamera, Action.Teardown,
        Action.ConfigureStill, Action.StartCamera] ∧
    (cycle options_delay (frame_input 7 [ch 'f'] 2001) init).trace ≠
      [Action.StopCamera, Action.Teardown, Action.ConfigureStill, Action.StartCamera] := by
  have ht : (cycle options_delay (frame_input 7 [ch 'f'] 2001) init).trace =
      [Action.SetControlsAfTrigger, Action.StopCamera, Action.Teardown,
        Action.ConfigureStill, Action.StartCamera] := by
    simp [cycle, options_delay, frame_input, init, get_key_or_signal, fallback, first_char,
      apply_key, focus_actions, is_focus_key, ch]
  refine ⟨rfl, ?_, rfl, ht, ?_⟩
  · simp [cycle, options_delay, frame_input, init, state_still, get_key_or_signal,
      fallback, first_char, apply_key, ch]
  · rw [ht]
    decide

/-- C15, amended. Capture-mode transitions of the still capture loop are monotonic, with
the mode as explicit state. An iteration that takes the loop from `Viewfinder` to
`StillCapture` is a `RequestComplete` iteration with a configured delay (`timeout ≠ 0`)
and an elapsed time strictly greater than it. It resolves one command, and its trace is
the actions of that command (the autofocus trigger `SetControls` call for `'f'`; for
`'a'`, `'d'` the manual focus `SetControls` call and its message, or the guidance
message; nothing for any other command; either case of the letters) followed by exactly
`StopCamera`, `Teardown`, `ConfigureStill`, `StartCamera` in that order, which are its
only pipeline calls; it does not call `ShowPreview`. For every run the sequence of modes
is a prefix of `Viewfinder*`, `StillCapture*`, `Terminated`; no iteration leads from
`StillCapture` back to `Viewfinder`; after the loop has returned no further event is
processed. -/
theorem mode_transitions_monotonic (options : StillOptions) (inp : CycleInput)
    (st st1 : State) (hv : st.mode = CaptureMode.Viewfinder)
    (hn : (cycle options inp st).next = .running st1)
    (hs : st1.mode = CaptureMode.StillCapture) :
    (inp.msg.type = MsgType.RequestComplete ∧ options.timeout ≠ 0 ∧
      inp.elapsed > options.timeout) ∧
    (∃ k, (cycle options inp st).keys = [k] ∧
      (cycle options inp st).trace =
        (if k = ch 'f' ∨ k = ch 'F' then [Action.SetControlsAfTrigger] else []) ++
        (if is_focus_key k = true then
            if options.afMode_index = AfModeManual then
              [Action.SetControlsLens st1.lens_position,
                Action.PrintTargetLens st1.lens_position]
            else [Action.PrintGuidance]
          else []) ++
        [Action.StopCamera, Action.Teardown, Action.ConfigureStill, Action.StartCamera]) ∧
    (pipeline_calls (cycle options inp st).trace =
        [Action.StopCamera, Action.Teardown, Action.ConfigureStill, Action.StartCamera] ∧
      previewed (cycle options inp st).trace = [] ∧
      saved (cycle options inp st).trace = []) ∧
    (∀ events s, ∃ a b c, c ≤ 1 ∧ modes options events s =
      List.replicate a Mode.Viewfinder ++ List.replicate b Mode.StillCapture ++
        List.replicate c Mode.Terminated) ∧
    (∀ inp1 s s1, s.mode = CaptureMode.StillCapture →
      (cycle options inp1 s).next = .running s1 → s1.mode = CaptureMode.StillCapture) ∧
    (∀ l1 l2 s, (event_loop options l1 s).next.is_terminated = true →
      event_loop options (l1 ++ l2) s = event_loop options l1 s) := by
  obtain ⟨t1, t2, t3, -, -⟩ := jpeg_apply_command_trace options inp st
  obtain ⟨h1, h2, h3, h4, h5⟩ := jpeg_transition_step options inp st st1 hv hn hs
  refine ⟨⟨h1, h2.1, h2.2⟩, ⟨_, h4, ?_⟩, ⟨?_, ?_, ?_⟩, modes_monotonic options, ?_,
    jpeg_terminated_absorbing options⟩
  · rw [h3, h5, ← jpeg_command_trace]
  · rw [h3, pipeline_calls_append, t3]
    rfl
  · rw [h3, previewed_append, t2]
    rfl
  · rw [h3, saved_append, t1]
    rfl
  · intro inp1 s s1 hm hrun
    rcases jpeg_cycle_mode options inp1 s s1 hrun with h | ⟨h, -⟩
    · rw [h, hm]
    · rw [hm] at h
      cases h

/-- With a delay of 2000 ticks and manual focus configured, a frame received after 2001
ticks with the command `'a'` on the network line switches the loop to still capture:
the manual focus control and its message, then the four pipeline calls. -/
theorem mode_transitions_monotonic_witness :
    (cycle options_delay_manual (frame_input 7 [ch 'a'] 2001) init).trace =
      [Action.SetControlsLens 1, Action.PrintTargetLens 1, Action.StopCamera,
        Action.Teardown, Action.ConfigureStill, Action.StartCamera] := by
  have hn : (cycle options_delay_manual (frame_input 7 [ch 'a'] 2001) init).next =
      .running state_still_near := by
    simp [cycle, options_delay_manual, frame_input, init, state_still_near,
      get_key_or_signal, fallback, first_char, apply_key, ch, af_step]
    exact f32_intCast 1 (by norm_num)
  obtain ⟨k, hk, ht⟩ := (mode_transitions_monotonic options_delay_manual
    (frame_input 7 [ch 'a'] 2001) init state_still_near rfl hn rfl).2.1
  have hk1 : (cycle options_delay_manual (frame_input 7 [ch 'a'] 2001) init).keys =
      [ch 'a'] := by
    simp [jpeg_cycle_keys, frame_input, options_delay_manual, init, get_key_or_signal,
      fallback, first_char]
  rw [hk1, List.cons.injEq] at hk
  rw [ht, ← hk.1]
  simp [is_focus_key, ch, options_delay_manual, state_still_near]

end Jpeg

/-! ## Case of the command letters -/

theorem Vid.vid_cycle_with_key (options : Vid.VideoOptions) (inp : CycleInput)
    (st : Vid.State) :
    Vid.cycle options inp st = Vid.cycle_with_key options inp st
      (fallback (Vid.get_key_or_signal options st.signal_received inp.stdin_line).1
        inp.param) := rfl

theorem Hello.hello_cycle_with_key (options : Hello.HelloOptions) (inp : CycleInput)
    (st : Hello.State) :
    Hello.cycle options inp st = Hello.cycle_with_key options inp st
      (fallback (Hello.get_key_or_signal options st.signal_received inp.stdin_line).1
        inp.param) := rfl

theorem Jpeg.jpeg_cycle_with_key (options : Jpeg.StillOptions) (inp : CycleInput)
    (st : Jpeg.State) :
    Jpeg.cycle options inp st = Jpeg.cycle_with_key options inp st
      (fallback (Jpeg.get_key_or_signal options st.signal_received inp.stdin_line).1
        inp.param) := rfl

/-- A test for a letter in either case does not see the case. -/
theorem swap_case_pair (c lower upper : Int) (h : lower = upper + 32)
    (h1 : ch 'A' ≤ upper) (h2 : upper ≤ ch 'Z') :
    (swap_case c = lower ∨ swap_case c = upper) ↔ (c = lower ∨ c = upper) := by
  unfold swap_case
  simp only [ch, Char.reduceToNat, Int.ofNat_eq_coe, Nat.cast_ofNat] at h1 h2 ⊢
  split_ifs <;> omega

theorem isalpha_swap_case (c : Int) : isalpha (swap_case c) = isalpha c := by
  rw [Bool.eq_iff_iff]
  unfold swap_case
  simp only [isalpha, ch, Char.reduceToNat, Int.ofNat_eq_coe, Nat.cast_ofNat,
    Bool.or_eq_true, Bool.and_eq_true, decide_eq_true_eq]
  split_ifs <;> omega

theorem is_quit_swap_case (c : Int) : is_quit (swap_case c) = is_quit c := by
  rw [Bool.eq_iff_iff, is_quit_iff, is_quit_iff]
  exact swap_case_pair c _ _ (by decide) (by decide) (by decide)

theorem is_focus_key_swap_case (c : Int) : is_focus_key (swap_case c) = is_focus_key c := by
  rw [Bool.eq_iff_iff, is_focus_key_iff, is_focus_key_iff,
    swap_case_pair c (ch 'a') (ch 'A') (by decide) (by decide) (by decide),
    swap_case_pair c (ch 'd') (ch 'D') (by decide) (by decide) (by decide)]

theorem Vid.vid_apply_key_swap (c : Int) (st : Vid.State) :
    Vid.apply_key (swap_case c) st = Vid.apply_key c st := by
  unfold Vid.apply_key
  simp only [swap_case_pair c (ch 'w') (ch 'W') (by decide) (by decide) (by decide),
    swap_case_pair c (ch 'f') (ch 'F') (by decide) (by decide) (by decide),
    swap_case_pair c (ch 'd') (ch 'D') (by decide) (by decide) (by decide),
    swap_case_pair c (ch 'a') (ch 'A') (by decide) (by decide) (by decide),
    swap_case_pair c (ch 's') (ch 'S') (by decide) (by decide) (by decide),
    swap_case_pair c (ch 'l') (ch 'L') (by decide) (by decide) (by decide),
    swap_case_pair c (ch 'j') (ch 'J') (by decide) (by decide) (by decide),
    swap_case_pair c (ch 'i') (ch 'I') (by decide) (by decide) (by decide),
    swap_case_pair c (ch 'k') (ch 'K') (by decide) (by decide) (by decide),
    swap_case_pair c (ch 'm') (ch 'M') (by decide) (by decide) (by decide),
    swap_case_pair c (ch 'r') (ch 'R') (by decide) (by decide) (by decide)]

theorem Hello.hello_apply_key_swap (c : Int) (st : Hello.State) :
    Hello.apply_key (swap_case c) st = Hello.apply_key c st := by
  unfold Hello.apply_key
  simp only [swap_case_pair c (ch 'f') (ch 'F') (by decide) (by decide) (by decide),
    swap_case_pair c (ch 'd') (ch 'D') (by decide) (by decide) (by decide),
    swap_case_pair c (ch 'a') (ch 'A') (by decide) (by decide) (by decide)]

theorem Jpeg.jpeg_apply_key_swap (c : Int) (st : Jpeg.State) :
    Jpeg.apply_key (swap_case c) st = Jpeg.apply_key c st := by
  unfold Jpeg.apply_key
  simp only [swap_case_pair c (ch 'f') (ch 'F') (by decide) (by decide) (by decide),
    swap_case_pair c (ch 'd') (ch 'D') (by decide) (by decide) (by decide),
    swap_case_pair c (ch 'a') (ch 'A') (by decide) (by decide) (by decide)]

theorem Vid.vid_case_insensitive (options : Vid.VideoOptions) (inp : CycleInput)
    (st : Vid.State) (c : Int) :
    (Vid.cycle_with_key options inp st (swap_case c)).trace =
      (Vid.cycle_with_key options inp st c).trace ∧
    (Vid.cycle_with_key options inp st (swap_case c)).next =
      (Vid.cycle_with_key options inp st c).next := by
  unfold Vid.cycle_with_key
  cases inp.msg.type with
  | RequestComplete =>
    simp only [Vid.vid_apply_key_swap, Vid.crop_actions, Vid.focus_actions,
      Vid.should_stop, isalpha_swap_case, is_quit_swap_case, is_focus_key_swap_case]
    split <;> exact ⟨rfl, rfl⟩
  | Timeout => exact ⟨rfl, rfl⟩
  | Quit => exact ⟨rfl, rfl⟩
  | Other code => exact ⟨rfl, rfl⟩

theorem Hello.hello_case_insensitive (options : Hello.HelloOptions) (inp : CycleInput)
    (st : Hello.State) (c : Int) :
    (Hello.cycle_with_key options inp st (swap_case c)).trace =
      (Hello.cycle_with_key options inp st c).trace ∧
    (Hello.cycle_with_key options inp st (swap_case c)).next =
      (Hello.cycle_with_key options inp st c).next := by
  unfold Hello.cycle_with_key
  cases inp.msg.type with
  | RequestComplete =>
    simp only [Hello.hello_apply_key_swap, Hello.focus_actions, is_focus_key_swap_case,
      swap_case_pair c (ch 'x') (ch 'X') (by decide) (by decide) (by decide)]
    split
    · exact ⟨rfl, rfl⟩
    · split <;> exact ⟨rfl, rfl⟩
  | Timeout => exact ⟨rfl, rfl⟩
  | Quit => exact ⟨rfl, rfl⟩
  | Other code => exact ⟨rfl, rfl⟩

theorem Jpeg.jpeg_case_insensitive (options : Jpeg.StillOptions) (inp : CycleInput)
    (st : Jpeg.State) (c : Int) :
    (Jpeg.cycle_with_key options inp st (swap_case c)).trace =
      (Jpeg.cycle_with_key options inp st c).trace ∧
    (Jpeg.cycle_with_key options inp st (swap_case c)).next =
      (Jpeg.cycle_with_key options inp st c).next := by
  unfold Jpeg.cycle_with_key
  cases inp.msg.type with
  | RequestComplete =>
    simp only [Jpeg.jpeg_apply_key_swap, Jpeg.focus_actions, is_focus_key_swap_case,
      swap_case_pair c (ch 'x') (ch 'X') (by decide) (by decide) (by decide)]
    split
    · exact ⟨rfl, rfl⟩
    · split
      · split <;> exact ⟨rfl, rfl⟩
      · exact ⟨rfl, rfl⟩
  | Timeout => exact ⟨rfl, rfl⟩
  | Quit => exact ⟨rfl, rfl⟩
  | Other code => exact ⟨rfl, rfl⟩

/-- C18. Commands are case-insensitive. In each of the three loops, for every loop
state, configuration, message and code `c`, the iteration run with resolved command `c`
and the iteration run with `c` in the other case (`swap_case c`: `c + 32` for `'A'..'Z'`,
`c - 32` for `'a'..'z'`) perform the same actions and leave the same outcome: same
variables, same mode, and the loop returns, throws or keeps looping alike. The iteration
of each loop is the iteration run with the command that lines 114-118 (video), 106-108
(preview) and 105-107 (still) resolve. -/
theorem commands_case_insensitive (vid : Vid.VideoOptions) (hello : Hello.HelloOptions)
    (still : Jpeg.StillOptions) (inp : CycleInput) (sv : Vid.State) (sh : Hello.State)
    (sj : Jpeg.State) (c : Int) :
    ((Vid.cycle_with_key vid inp sv (swap_case c)).trace =
        (Vid.cycle_with_key vid inp sv c).trace ∧
      (Vid.cycle_with_key vid inp sv (swap_case c)).next =
        (Vid.cycle_with_key vid inp sv c).next) ∧
    ((Hello.cycle_with_key hello inp sh (swap_case c)).trace =
        (Hello.cycle_with_key hello inp sh c).trace ∧
      (Hello.cycle_with_key hello inp sh (swap_case c)).next =
        (Hello.cycle_with_key hello inp sh c).next) ∧
    ((Jpeg.cycle_with_key still inp sj (swap_case c)).trace =
        (Jpeg.cycle_with_key still inp sj c).trace ∧
      (Jpeg.cycle_with_key still inp sj (swap_case c)).next =
        (Jpeg.cycle_with_key still inp sj c).next) ∧
    (Vid.cycle vid inp sv = Vid.cycle_with_key vid inp sv
        (fallback (Vid.get_key_or_signal vid sv.signal_received inp.stdin_line).1
          inp.param) ∧
      Hello.cycle hello inp sh = Hello.cycle_with_key hello inp sh
        (fallback (Hello.get_key_or_signal hello sh.signal_received inp.stdin_line).1
          inp.param) ∧
      Jpeg.cycle still inp sj = Jpeg.cycle_with_key still inp sj
        (fallback (Jpeg.get_key_or_signal still sj.signal_received inp.stdin_line).1
          inp.param)) ∧
    ((ch 'A' ≤ c ∧ c ≤ ch 'Z' → swap_case c = c + 32) ∧
      (ch 'a' ≤ c ∧ c ≤ ch 'z' → swap_case c = c - 32) ∧
      swap_case (ch 'w') = ch 'W' ∧ swap_case (ch 'X') = ch 'x') := by
  refine ⟨Vid.vid_case_insensitive vid inp sv c, Hello.hello_case_insensitive hello inp sh c,
    Jpeg.jpeg_case_insensitive still inp sj c, ⟨rfl, rfl, rfl⟩, ?_, ?_, by decide, by decide⟩
  · intro h
    unfold swap_case
    rw [if_pos h]
  · intro h
    have hn : ¬ (ch 'A' ≤ c ∧ c ≤ ch 'Z') := by
      simp only [ch, Char.reduceToNat, Int.ofNat_eq_coe, Nat.cast_ofNat] at h ⊢
      omega
    unfold swap_case
    rw [if_neg hn, if_pos h]

/-! ## Protocol violation -/

theorem not_raised_of_terminated {σ : Type} (o : Outcome σ) (h : o.is_terminated = true) :
    o.is_raised = false := by
  cases o <;> first | rfl | cases h

theorem Vid.vid_request_not_raised (options : Vid.VideoOptions) (inp : CycleInput)
    (st : Vid.State) (hmsg : inp.msg.type = MsgType.RequestComplete) :
    (Vid.cycle options inp st).next.is_raised = false := by
  cases hs : Vid.should_stop options st.count inp.elapsed
    (Vid.apply_command options inp st).key
  · rw [Vid.cycle_forward options inp st hmsg hs]
    rfl
  · rw [Vid.cycle_stop options inp st hmsg hs]
    rfl

theorem Hello.hello_request_not_raised (options : Hello.HelloOptions) (inp : CycleInput)
    (st : Hello.State) (hmsg : inp.msg.type = MsgType.RequestComplete) :
    (Hello.cycle options inp st).next.is_raised = false := by
  cases hq : is_quit (Hello.apply_command options inp st).key with
  | true =>
    apply not_raised_of_terminated
    exact (Hello.hello_cycle_quit options inp st hmsg
      ⟨_, by rw [Hello.hello_cycle_keys options inp st hmsg]; exact List.mem_singleton_self _,
        hq⟩).1
  | false =>
    rw [Hello.hello_cycle_continue options inp st hmsg hq]
    split <;> rfl

theorem Jpeg.jpeg_request_not_raised (options : Jpeg.StillOptions) (inp : CycleInput)
    (st : Jpeg.State) (hmsg : inp.msg.type = MsgType.RequestComplete) :
    (Jpeg.cycle options inp st).next.is_raised = false := by
  rcases Jpeg.jpeg_cycle_cases options inp st with
    ⟨h, -⟩ | ⟨h, -⟩ | ⟨⟨code, h⟩, -⟩ | ⟨-, -, -, h⟩ | ⟨-, -, -, -, h⟩ | ⟨-, -, -, -, h⟩ |
      ⟨-, -, -, h⟩
  · rw [hmsg] at h; cases h
  · rw [hmsg] at h; cases h
  · rw [hmsg] at h; cases h
  · exact not_raised_of_terminated _ h
  · rw [h]; rfl
  · rw [h]; rfl
  · rw [h]; rfl

/-- C16. Protocol violation is fatal and nothing else is. In each of the three loops an
iteration throws if and only if the type of the message is none of `RequestComplete`,
`Timeout` and `Quit`; when it throws, no command has been resolved, no action has been
performed and the variables (focus, zoom, pending signal) are unchanged; a `Quit`
message makes the loop return normally, without throwing, with no command resolved and
no action performed. -/
theorem protocol_violation_fatal (vid : Vid.VideoOptions) (hello : Hello.HelloOptions)
    (still : Jpeg.StillOptions) (inp : CycleInput) (sv : Vid.State) (sh : Hello.State)
    (sj : Jpeg.State) :
    (((Vid.cycle vid inp sv).next.is_raised = true ↔
        inp.msg.type ≠ MsgType.RequestComplete ∧ inp.msg.type ≠ MsgType.Timeout ∧
          inp.msg.type ≠ MsgType.Quit) ∧
      ((Vid.cycle vid inp sv).next.is_raised = true →
        Vid.cycle vid inp sv = { trace := [], keys := [], next := .raised sv }) ∧
      (inp.msg.type = MsgType.Quit →
        Vid.cycle vid inp sv = { trace := [], keys := [], next := .terminated sv })) ∧
    (((Hello.cycle hello inp sh).next.is_raised = true ↔
        inp.msg.type ≠ MsgType.RequestComplete ∧ inp.msg.type ≠ MsgType.Timeout ∧
          inp.msg.type ≠ MsgType.Quit) ∧
      ((Hello.cycle hello inp sh).next.is_raised = true →
        Hello.cycle hello inp sh = { trace := [], keys := [], next := .raised sh }) ∧
      (inp.msg.type = MsgType.Quit →
        Hello.cycle hello inp sh = { trace := [], keys := [], next := .terminated sh })) ∧
    (((Jpeg.cycle still inp sj).next.is_raised = true ↔
        inp.msg.type ≠ MsgType.RequestComplete ∧ inp.msg.type ≠ MsgType.Timeout ∧
          inp.msg.type ≠ MsgType.Quit) ∧
      ((Jpeg.cycle still inp sj).next.is_raised = true →
        Jpeg.cycle still inp sj = { trace := [], keys := [], next := .raised sj }) ∧
      (inp.msg.type = MsgType.Quit →
        Jpeg.cycle still inp sj = { trace := [], keys := [], next := .terminated sj })) := by
  have hv := Vid.vid_request_not_raised vid inp sv
  have hh := Hello.hello_request_not_raised hello inp sh
  have hj := Jpeg.jpeg_request_not_raised still inp sj
  cases hmsg : inp.msg.type with
  | RequestComplete =>
    rw [hv hmsg, hh hmsg, hj hmsg]
    simp
  | Timeout =>
    rw [Vid.vid_cycle_timeout vid inp sv hmsg, Hello.hello_cycle_timeout hello inp sh hmsg,
      Jpeg.jpeg_cycle_timeout still inp sj hmsg]
    simp [Outcome.is_raised]
  | Quit =>
    have e1 : Vid.cycle vid inp sv = { trace := [], keys := [], next := .terminated sv } := by
      unfold Vid.cycle
      simp only [hmsg]
    have e2 : Hello.cycle hello inp sh =
        { trace := [], keys := [], next := .terminated sh } := by
      unfold Hello.cycle
      simp only [hmsg]
    have e3 : Jpeg.cycle still inp sj =
        { trace := [], keys := [], next := .terminated sj } := by
      unfold Jpeg.cycle
      simp only [hmsg]
    rw [e1, e2, e3]
    simp [Outcome.is_raised]
  | Other code =>
    have e1 : Vid.cycle vid inp sv = { trace := [], keys := [], next := .raised sv } := by
      unfold Vid.cycle
      simp only [hmsg]
    have e2 : Hello.cycle hello inp sh = { trace := [], keys := [], next := .raised sh } := by
      unfold Hello.cycle
      simp only [hmsg]
    have e3 : Jpeg.cycle still inp sj = { trace := [], keys := [], next := .raised sj } := by
      unfold Jpeg.cycle
      simp only [hmsg]
    rw [e1, e2, e3]
    simp [Outcome.is_raised]

/-! ## Shutdown of the preview loop -/

namespace Hello

/-- Lines 105-148 only call `SetControls` and write messages. -/
theorem hello_apply_command_trace (options : HelloOptions) (inp : CycleInput) (st : State) :
    encoded (apply_command options inp st).trace = [] ∧
    pipeline_calls (apply_command options inp st).trace = [] ∧
    Action.StopCamera ∉ (apply_command options inp st).trace ∧
    Action.StopEncoder ∉ (apply_command options inp st).trace ∧
    previewed (apply_command options inp st).trace = [] := by
  simp only [apply_command, encoded_append, pipeline_calls_append, previewed_append,
    (hello_apply_key _ _).2.2.2, focus_actions, List.mem_append]
  refine ⟨?_, ?_, ?_, ?_, ?_⟩ <;> split_ifs <;>
    simp_all [encoded, pipeline_calls, previewed]

/-- C17 (as stated, refuted). In the preview loop a quit command from the network, and
likewise an elapsed time of 2001 ticks against a bound of 2000, make the iteration
return with an empty trace: `StopCamera` occurs zero times, not once. -/
theorem preview_shutdown_counterexample :
    ((cycle options_plain (frame_input 7 [ch 'x'] 0) init).next.is_terminated = true ∧
      (cycle options_plain (frame_input 7 [ch 'x'] 0) init).trace = [] ∧
      (cycle options_plain (frame_input 7 [ch 'x'] 0) init).trace.count Action.StopCamera
        ≠ 1) ∧
    ((cycle options_timeout (frame_input 7 [] 2001) init).next.is_terminated = true ∧
      (cycle options_timeout (frame_input 7 [] 2001) init).trace = [] ∧
      (cycle options_timeout (frame_input 7 [] 2001) init).trace.count Action.StopCamera
        ≠ 1) := by
  have h1 : cycle options_plain (frame_input 7 [ch 'x'] 0) init =
      { trace := [], keys := [ch 'x'], next := .terminated init } := by
    simp [cycle, options_plain, frame_input, init, get_key_or_signal, fallback,
      first_char, ch]
  have h2 : cycle options_timeout (frame_input 7 [] 2001) init =
      { trace := [], keys := [0], next := .terminated init } := by
    simp [cycle, options_timeout, frame_input, init, get_key_or_signal, fallback,
      first_char, apply_key, focus_actions, is_focus_key, ch]
  rw [h1, h2]
  simp [Outcome.is_terminated]

/-- C17 (amended). Shutdown of the preview-only app: in the preview loop every
`RequestComplete` iteration that returns from the loop does so because of a resolved
quit command or because the elapsed time exceeds the configured wall-clock bound, and
its trace contains no `StopCamera`, no other pipeline call, no encoder action and no
`ShowPreview`: the loop returns without stopping the camera itself. -/
theorem preview_shutdown (options : HelloOptions) (inp : CycleInput) (st : State)
    (hmsg : inp.msg.type = MsgType.RequestComplete)
    (hterm : (cycle options inp st).next.is_terminated = true) :
    ((∃ k ∈ (cycle options inp st).keys, is_quit k = true) ∨
      (options.timeout ≠ 0 ∧ inp.elapsed > options.timeout)) ∧
    (cycle options inp st).trace.count Action.StopCamera = 0 ∧
    (cycle options inp st).trace.count Action.StopEncoder = 0 ∧
    pipeline_calls (cycle options inp st).trace = [] ∧
    encoded (cycle options inp st).trace = [] ∧
    previewed (cycle options inp st).trace = [] := by
  have hkeys := hello_cycle_keys options inp st hmsg
  cases hq : is_quit (apply_command options inp st).key with
  | true =>
    have hk : ∃ k ∈ (cycle options inp st).keys, is_quit k = true :=
      ⟨_, by rw [hkeys]; exact List.mem_singleton_self _, hq⟩
    obtain ⟨-, h2⟩ := hello_cycle_quit options inp st hmsg hk
    refine ⟨Or.inl hk, ?_, ?_, ?_, ?_, ?_⟩ <;> rw [h2] <;> rfl
  | false =>
    have hc := hello_cycle_continue options inp st hmsg hq
    obtain ⟨t1, t2, t3, t4, t5⟩ := hello_apply_command_trace options inp st
    by_cases ht : options.timeout ≠ 0 ∧ inp.elapsed > options.timeout
    · rw [if_pos ht] at hc
      rw [hc]
      exact ⟨Or.inr ht, List.count_eq_zero_of_not_mem t3,
        List.count_eq_zero_of_not_mem t4, t2, t1, t5⟩
    · rw [if_neg ht] at hc
      rw [hc] at hterm
      cases hterm

/-- An elapsed time of 2001 ticks against a bound of 2000: the iteration returns without
`StopCamera`. -/
theorem preview_shutdown_witness :
    (cycle options_timeout (frame_input 7 [] 2001) init).trace.count Action.StopCamera = 0 :=
  (preview_shutdown options_timeout (frame_input 7 [] 2001) init rfl
    (by
      simp [cycle, options_timeout, frame_input, init, get_key_or_signal, fallback,
        first_char, apply_key, focus_actions, is_focus_key, ch,
        Outcome.is_terminated])).2.1

end Hello

end RpiCam
